import Mathlib

/-!
# cppomo: the pomodoro timer state machine and the ISO timestamp codec

A shallow embedding of `src/main.cpp` (the command step executed by `main`
under the mutex, the body of the ticker `sleep_and_update`, and the shutdown
accounting of `main`) and of `src/dates.hpp` (`write_iso_datetime`,
`mask_match`, `from_iso_string`).

Modelling conventions.

* The `float` fields of `App` are modelled by exact rationals.  Every value
  the program reaches from its initial state is a multiple of `0.25`, which
  binary32 represents exactly as long as it stays below `2^22`; rounding of
  larger totals is outside the model.
* The `int` fields are modelled by `Int`; `%` and `/` of C are `Int.tmod` and
  `Int.tdiv` (truncation toward zero).  Signed overflow is outside the model.
* Terminal output and the notification subprocess are not modelled.  The
  mutex is modelled by its effect: a command step and the body of a ticker
  period are each one state change.  The ticker reads the status before it
  takes the mutex, so command steps can fall between that read and the body;
  the runs below include them.
-/

namespace Pomo

/-! ## Timer state (`src/main.cpp`) -/

/-- The `enum class PomoState` of the source. -/
inductive PomoState where
  | Focus
  | Break
  | LongBreak
  deriving DecidableEq, Repr

/-- The `enum class TimerState` of the source. -/
inductive TimerState where
  | Running
  | Stopped
  | Paused
  deriving DecidableEq, Repr

/-- Macro `FOCUS_TIME` of the production build: `25.0f * 60.0f`. -/
def FOCUS_TIME : ℚ := 25 * 60

/-- Macro `BREAK_TIME` of the production build: `5.0f * 60.0f`. -/
def BREAK_TIME : ℚ := 5 * 60

/-- Macro `LONG_BREAK_TIME` of the production build: `15.0f * 60.0f`. -/
def LONG_BREAK_TIME : ℚ := 15 * 60

/-- The `struct App` of the source, without its mutex. -/
structure App where
  quit : Bool
  pomo : PomoState
  timer : TimerState
  time_remaining : ℚ
  focus_count : Int
  break_count : Int
  focus_total : ℚ
  break_total : ℚ
  deriving DecidableEq

/-- The default member initialisers of `struct App`. -/
def App.init : App where
  quit := false
  pomo := PomoState.Focus
  timer := TimerState.Stopped
  time_remaining := FOCUS_TIME
  focus_count := 0
  break_count := 0
  focus_total := 0
  break_total := 0

/-- The helper `str_equal`: `strcmp(str, str2) == 0`. -/
def str_equal (str str2 : String) : Bool := decide (str = str2)

/-- First `switch` of the command step of `main`: `switch (app.timer)`. -/
def main_timer_switch (app : App) (s : String) : App :=
  match app.timer with
  | TimerState.Running =>
    if str_equal s "stop" then { app with timer := TimerState.Stopped }
    else if str_equal s "pause" then { app with timer := TimerState.Paused }
    else app
  | TimerState.Stopped =>
    if str_equal s "start" then
      let app1 : App := { app with timer := TimerState.Running }
      match app1.pomo with
      | PomoState.Focus => { app1 with focus_count := app1.focus_count + 1 }
      | PomoState.Break => { app1 with break_count := app1.break_count + 1 }
      | PomoState.LongBreak => { app1 with break_count := app1.break_count + 1 }
    else app
  | TimerState.Paused =>
    if str_equal s "continue" then { app with timer := TimerState.Running }
    else if str_equal s "stop" then { app with timer := TimerState.Stopped }
    else app

/-- The body shared by `case PomoState::Break` and `case PomoState::LongBreak`
of the second `switch`.  The assignments are kept in the order of the source:
`app.pomo` is overwritten before the conditional expression reads it. -/
def main_leave_break (app : App) (s : String) : App :=
  if str_equal s "focus" then
    let app1 : App := { app with pomo := PomoState.Focus }
    let app2 : App := { app1 with timer := TimerState.Stopped }
    let app3 : App := { app2 with break_total := app2.break_total +
      (if app2.pomo = PomoState.Break then BREAK_TIME - app2.time_remaining
       else LONG_BREAK_TIME - app2.time_remaining) }
    { app3 with time_remaining := FOCUS_TIME }
  else app

/-- Second `switch` of the command step of `main`: `switch (app.pomo)`. -/
def main_pomo_switch (app : App) (s : String) : App :=
  match app.pomo with
  | PomoState.Focus =>
    if str_equal s "break" then
      let app1 : App := { app with pomo := PomoState.Break }
      let app2 : App := { app1 with timer := TimerState.Stopped }
      let app3 : App := { app2 with focus_total := app2.focus_total +
        (FOCUS_TIME - app2.time_remaining) }
      { app3 with time_remaining := BREAK_TIME }
    else if str_equal s "lbreak" then
      let app1 : App := { app with pomo := PomoState.LongBreak }
      let app2 : App := { app1 with timer := TimerState.Stopped }
      let app3 : App := { app2 with focus_total := app2.focus_total +
        (FOCUS_TIME - app2.time_remaining) }
      { app3 with time_remaining := LONG_BREAK_TIME }
    else app
  | PomoState.Break => main_leave_break app s
  | PomoState.LongBreak => main_leave_break app s

/-- The command step of `main`, from `pthread_mutex_lock` to
`pthread_mutex_unlock`, for the token `s` left in the line buffer. -/
def main_command_step (app : App) (s : String) : App :=
  let app1 := main_timer_switch app s
  let app2 := main_pomo_switch app1 s
  { app2 with quit := str_equal s "q" }

/-- The `switch (app->pomo)` of `sleep_and_update`, run when the remaining
time is used up. -/
def sleep_and_update_rollover (app : App) : App :=
  match app.pomo with
  | PomoState.Focus =>
    let app1 : App := { app with focus_total := app.focus_total + FOCUS_TIME }
    if Int.tmod app1.focus_count 3 = 0 then
      { app1 with pomo := PomoState.LongBreak, time_remaining := LONG_BREAK_TIME }
    else
      { app1 with pomo := PomoState.Break, time_remaining := BREAK_TIME }
  | PomoState.Break =>
    { app with pomo := PomoState.Focus, time_remaining := FOCUS_TIME,
               break_total := app.break_total + BREAK_TIME }
  | PomoState.LongBreak =>
    { app with pomo := PomoState.Focus, time_remaining := FOCUS_TIME,
               break_total := app.break_total + LONG_BREAK_TIME }

/-- The body of one period of `sleep_and_update`, from `pthread_mutex_lock` to
`pthread_mutex_unlock`.  It has no test of the status of its own. -/
def sleep_and_update_body (app : App) : App :=
  let app1 : App := { app with time_remaining := app.time_remaining - 1 / 4 }
  if app1.time_remaining ≤ 0 then
    let app2 := sleep_and_update_rollover app1
    { app2 with timer := TimerState.Stopped }
  else app1

/-- One period of the loop of `sleep_and_update` after a successful
`nanosleep`, with no command step between the test
`app->timer == TimerState::Running` and the body: the state is touched only
when the timer is running. -/
def sleep_and_update_step (app : App) : App :=
  if app.timer = TimerState.Running then sleep_and_update_body app else app

/-- The branch of `sleep_and_update` taken when `nanosleep` fails. -/
def sleep_and_update_fail (app : App) : App := { app with quit := true }

/-- The `switch (app.pomo)` that `main` runs after joining the ticker, before
`save_timings`. -/
def main_shutdown (app : App) : App :=
  match app.pomo with
  | PomoState.Focus =>
    { app with focus_total := app.focus_total + (FOCUS_TIME - app.time_remaining) }
  | PomoState.Break =>
    { app with break_total := app.break_total +
        (if app.pomo = PomoState.Break then BREAK_TIME - app.time_remaining
         else LONG_BREAK_TIME - app.time_remaining) }
  | PomoState.LongBreak =>
    { app with break_total := app.break_total +
        (if app.pomo = PomoState.Break then BREAK_TIME - app.time_remaining
         else LONG_BREAK_TIME - app.time_remaining) }

/-- Consecutive command steps of the loop of `main`, one for each token. -/
def main_commands (app : App) : List String → App
  | [] => app
  | s :: cs => main_commands (main_command_step app s) cs

/-! ## Runs of the two threads

The mutex serialises the command steps of `main` and the bodies of the ticker
periods.  The ticker tests `app->timer == TimerState::Running` before it takes
the mutex, so between the test of a period and its body the command loop can
take the mutex, any number of times.  Each thread is sequential, so a run of
the program is a sequence of command steps and ticker periods, where a period
may enclose command steps between its test and its body.  A command step
writes the status at most once, so a test that falls inside a command step
reads the status before or after that step. -/

/-- One step of a run: a command step for a token; a ticker period whose body
follows its status test directly; or a ticker period with the command steps
for the tokens `cs` between its status test and its body. -/
inductive Event where
  | command (s : String)
  | tick
  | late_tick (cs : List String)
  deriving DecidableEq

/-- The state after one event.  In a period with enclosed command steps the
status is read first, the command steps run, and the body runs on the state
they leave when the status read was `Running`. -/
def apply_event (app : App) : Event → App
  | Event.command s => main_command_step app s
  | Event.tick => sleep_and_update_step app
  | Event.late_tick cs =>
    if app.timer = TimerState.Running then sleep_and_update_body (main_commands app cs)
    else main_commands app cs

/-- The state after a sequence of events. -/
def run (app : App) : List Event → App
  | [] => app
  | e :: es => run (apply_event app e) es

/-- The nominal duration of a phase. -/
def nominal : PomoState → ℚ
  | PomoState.Focus => FOCUS_TIME
  | PomoState.Break => BREAK_TIME
  | PomoState.LongBreak => LONG_BREAK_TIME

/-- The eight command tokens of the program. -/
def recognized (s : String) : Bool :=
  s = "start" || s = "stop" || s = "pause" || s = "continue" ||
  s = "break" || s = "lbreak" || s = "focus" || s = "q"

/-- The status table of the specification: the new status for a status and
one of the tokens `start`, `stop`, `pause`, `continue`. -/
def status_table (t : TimerState) (s : String) : TimerState :=
  match t with
  | TimerState.Running =>
    if s = "stop" then TimerState.Stopped
    else if s = "pause" then TimerState.Paused else TimerState.Running
  | TimerState.Stopped =>
    if s = "start" then TimerState.Running else TimerState.Stopped
  | TimerState.Paused =>
    if s = "continue" then TimerState.Running
    else if s = "stop" then TimerState.Stopped else TimerState.Paused

/-- A ticker period applied in this state is spent on a running Focus
interval. -/
def focus_running (app : App) : Bool :=
  decide (app.timer = TimerState.Running) && decide (app.pomo = PomoState.Focus)

/-- The state on which an event runs the body of a ticker period, when it
runs one. -/
def body_state (app : App) : Event → Option App
  | Event.command _ => none
  | Event.tick => if app.timer = TimerState.Running then some app else none
  | Event.late_tick cs =>
    if app.timer = TimerState.Running then some (main_commands app cs) else none

/-- The tokens of the command steps of an event. -/
def Event.tokens : Event → List String
  | Event.command s => [s]
  | Event.tick => []
  | Event.late_tick cs => cs

/-- The number of ticker periods of a run that were applied while the timer
was running in phase Focus: the periods whose body ran on such a state. -/
def focus_ticks : App → List Event → Nat
  | _, [] => 0
  | app, e :: es =>
    (match body_state app e with
     | some a => if focus_running a = true then 1 else 0
     | none => 0) + focus_ticks (apply_event app e) es

/-- The number of ticker periods of a run whose body ran in phase Focus,
whatever the status at that time. -/
def focus_bodies : App → List Event → Nat
  | _, [] => 0
  | app, e :: es =>
    (match body_state app e with
     | some a => if a.pomo = PomoState.Focus then 1 else 0
     | none => 0) + focus_bodies (apply_event app e) es

/-- The event is not a ticker period that encloses command steps. -/
def Event.atomic : Event → Bool
  | Event.command _ => true
  | Event.tick => true
  | Event.late_tick _ => false

/-- No ticker period of the run encloses command steps. -/
def atomic_ticks (es : List Event) : Bool := es.all Event.atomic

/-- The number of `start` tokens of consecutive command steps that were taken
in phase Focus with the timer stopped. -/
def command_focus_starts : App → List String → Nat
  | _, [] => 0
  | app, s :: cs =>
    (if s = "start" ∧ app.pomo = PomoState.Focus ∧
        app.timer = TimerState.Stopped then 1 else 0) +
      command_focus_starts (main_command_step app s) cs

/-- The number of `start` tokens of a run that were taken in phase Focus with
the timer stopped. -/
def focus_starts : App → List Event → Nat
  | _, [] => 0
  | app, e :: es =>
    command_focus_starts app e.tokens + focus_starts (apply_event app e) es

/-- The next ticker period uses up the remaining time of a running Focus
interval. -/
def completes_focus (app : App) : Bool :=
  focus_running app && decide (app.time_remaining - 1 / 4 ≤ 0)

/-- The phases entered by the Focus intervals of a run that complete by their
remaining time running out, in the order of completion: a Focus interval
completes when the body of a ticker period runs in phase Focus and uses up the
remaining time. -/
def focus_rollovers : App → List Event → List PomoState
  | _, [] => []
  | app, e :: es =>
    (match body_state app e with
     | some a =>
       if a.pomo = PomoState.Focus ∧ a.time_remaining - 1 / 4 ≤ 0
       then [(sleep_and_update_body a).pomo] else []
     | none => []) ++ focus_rollovers (apply_event app e) es

/-- The cadence of the specification for the `k`-th completed Focus interval,
counted from one: LongBreak for the multiples of three, Break otherwise. -/
def cadence (k : Nat) : PomoState :=
  if k % 3 = 0 then PomoState.LongBreak else PomoState.Break

/-- A positive multiple of a quarter of a second. -/
def Quarter (r : ℚ) : Prop := ∃ k : ℕ, r = ((k : ℚ) + 1) / 4

/-- A run in which the first Focus interval is stopped and started again
twice before it runs to its end: three `start` tokens, 6000 ticker periods. -/
def restarted_run : List Event :=
  [Event.command "start", Event.command "stop", Event.command "start",
   Event.command "stop", Event.command "start"] ++ List.replicate 6000 Event.tick

/-- A run that starts the first Focus interval and lets all but the last of
its 6000 ticker periods pass. -/
def almost_full_focus_run : List Event :=
  Event.command "start" :: List.replicate 5999 Event.tick

/-- A run in which the command `focus` falls between the status test of a
ticker period, which reads `Running` in phase Break, and the body of that
period; the program is then ended with `q`. -/
def late_tick_run : List Event :=
  [Event.command "break", Event.command "start", Event.late_tick ["focus"],
   Event.command "q"]

/-- The state invariant: the remaining time is positive and at most the
nominal duration of the phase, and the totals and counters are not negative. -/
def StateInv (app : App) : Prop :=
  0 < app.time_remaining ∧ app.time_remaining ≤ nominal app.pomo ∧
  0 ≤ app.focus_total ∧ 0 ≤ app.break_total ∧
  0 ≤ app.focus_count ∧ 0 ≤ app.break_count

end Pomo

namespace Dates

/-! ## The ISO timestamp codec (`src/dates.hpp`)

A C string is modelled by the list of its characters before the terminating
NUL, a `char` buffer by the list of its cells.  A store past the end of a
buffer is undefined in C and is dropped by the model. -/

/-- The `struct datetime_t` of the source. -/
structure datetime_t where
  milliseconds : Int
  seconds : Int
  minutes : Int
  hours : Int
  day : Int
  month : Int
  year : Int
  tz : Int
  deriving DecidableEq, Repr

/-- The string held by a buffer: the characters before the first NUL. -/
def c_str (buf : List Char) : List Char := buf.takeWhile (fun c => c ≠ '\x00')

/-- Stores the characters `out` into the buffer from index `off` on. -/
def write_chars : List Char → Nat → List Char → List Char
  | dest, _, [] => dest
  | dest, off, c :: cs => write_chars (dest.set off c) (off + 1) cs

/-- The effect of `sprintf(dest + off, ...)` for the produced text `out`: the
text and a terminating NUL are stored from `dest + off` on. -/
def sprintf_at (dest : List Char) (off : Nat) (out : List Char) : List Char :=
  write_chars dest off (out ++ ['\x00'])

/-- The conversion `%0<w>d` of `printf`: the decimal digits of the number,
with a leading `-` when it is negative, padded with zeros after the sign up to
the width `w`. -/
def fmt_0d (w : Nat) (n : Int) : List Char :=
  let ds := Nat.toDigits 10 n.natAbs
  if n < 0 then '-' :: (List.replicate (w - 1 - ds.length) '0' ++ ds)
  else List.replicate (w - ds.length) '0' ++ ds

/-- The function `write_iso_datetime`: the buffer `dest` after the call. -/
def write_iso_datetime (d : datetime_t) (dest : List Char) (size : Int) : List Char :=
  if size < 30 then dest
  else
    let dest1 := sprintf_at dest 0
      (fmt_0d 4 d.year ++ '-' :: fmt_0d 2 d.month ++ '-' :: fmt_0d 2 d.day ++
        'T' :: fmt_0d 2 d.hours ++ ':' :: fmt_0d 2 d.minutes ++
        ':' :: fmt_0d 2 d.seconds ++ '.' :: fmt_0d 3 d.milliseconds)
    if d.tz > 0 then
      let min := Int.tdiv (Int.tmod d.tz 3600) 60
      let hr := Int.tdiv (d.tz - Int.tmod d.tz 3600) 3600
      sprintf_at dest1 23 ('+' :: fmt_0d 2 hr ++ ':' :: fmt_0d 2 min)
    else if d.tz < 0 then
      let tz := -d.tz
      let min := Int.tdiv (Int.tmod tz 3600) 60
      let hr := Int.tdiv (tz - Int.tmod tz 3600) 3600
      sprintf_at dest1 23 ('-' :: fmt_0d 2 hr ++ ':' :: fmt_0d 2 min)
    else dest1.set 23 'Z'

/-- The function `is_digit`. -/
def is_digit (c : Char) : Bool := decide ('0' ≤ c) && decide (c ≤ '9')

/-- The value `int(c - '0')` of a character. -/
def digit_value (c : Char) : Int := (c.toNat : Int) - 48

/-- The local variables of `mask_match` and the caller's array `values`. -/
structure MatchState where
  values : List Int
  value_idx : Nat
  sign : Int
  reading_number : Bool
  number : Int
  ok : Bool
  k : Int

/-- The statements that close a number: `values[value_idx] = sign * number`
(the pointer `values` of the callee is the caller's array at offset `off`),
and the reset of the accumulator. -/
def store_number (off : Nat) (st : MatchState) : MatchState :=
  { st with values := st.values.set (off + st.value_idx) (st.sign * st.number),
            value_idx := st.value_idx + 1,
            reading_number := false,
            number := 0,
            sign := 1 }

/-- The `switch (mask[j])` of `mask_match`, for the mask character `m`, the
mask character `next` after it and the string character `c = str[k]`. -/
def mask_switch (off : Nat) (m next c : Char) (st : MatchState) : MatchState :=
  if m = '#' then
    let st1 := { st with reading_number := true }
    if !is_digit c then { st1 with ok := false }
    else { st1 with number := 10 * st1.number + digit_value c }
  else if m = 'd' then
    if st.reading_number then
      if !is_digit c then
        let st1 :=
          if next = 'd' then { st with number := st.number * 100 }
          else { st with number := st.number * 10 }
        let st2 := store_number off st1
        { st2 with k := st2.k - 1 }
      else { st with number := 10 * st.number + digit_value c }
    else { st with k := st.k - 1 }
  else if m = 'T' then
    if c ≠ 'T' ∧ c ≠ ' ' then { st with ok := false } else st
  else if m = '+' then
    if c ≠ '+' ∧ c ≠ '-' then { st with ok := false }
    else if c = '-' then { st with sign := -1 }
    else st
  else if m = 'Z' ∨ m = '.' ∨ m = '-' ∨ m = ':' then
    if c ≠ m then { st with ok := false } else st
  else if m = 'c' then st
  else { st with ok := false }

/-- The `for` loop of `mask_match` over the rest of the mask.  The string
character at an index is `'\0'` from the end of the string on. -/
def mask_match_loop (off : Nat) (str : List Char) : List Char → MatchState → MatchState
  | [], st => st
  | m :: rest, st =>
    if st.k ≥ (str.length : Int) then { st with ok := false }
    else
      let st1 := mask_switch off m (rest.headD '\x00') (str.getD st.k.toNat '\x00') st
      if m = 'c' then
        if str.getD st1.k.toNat '\x00' = ':' then
          mask_match_loop off str rest { st1 with k := st1.k + 1 }
        else mask_match_loop off str rest st1
      else if !st1.ok then st1
      else
        let st2 :=
          if st1.reading_number ∧ m ≠ '#' ∧ m ≠ 'd' then store_number off st1 else st1
        mask_match_loop off str rest { st2 with k := st2.k + 1 }

/-- The loop `for (i < value_idx) values[value_idx] = 0` of the failure exit;
every round stores into the same cell. -/
def clear_on_failure (off : Nat) (value_idx : Nat) (values : List Int) : List Int :=
  (List.range value_idx).foldl (fun v _ => v.set (off + value_idx) 0) values

/-- The function `mask_match`, called with the pointer `values + off`: the
returned count and the caller's array after the call. -/
def mask_match (str mask : List Char) (values : List Int) (off : Nat) :
    Int × List Int :=
  let st := mask_match_loop off str mask
    { values := values, value_idx := 0, sign := 1, reading_number := false,
      number := 0, ok := true, k := 0 }
  if !st.ok then (-1, clear_on_failure off st.value_idx st.values)
  else if st.reading_number then
    (st.k, st.values.set (off + st.value_idx) (st.sign * st.number))
  else (st.k, st.values)

/-- The constant `main_mask`. -/
def main_mask : List Char := "####-##-##T##:##".toList

/-- The table `sec_masks`. -/
def sec_masks : List (List Char) := [":##.#dd".toList, ":##".toList]

/-- The table `tz_masks`. -/
def tz_masks : List (List Char) := ["+##c##".toList, "Z".toList]

/-- The loops of `from_iso_string` over a mask table: the masks are tried in
order on `str + count` until one matches, whose count is added to `count`. -/
def try_masks (str : List Char) (off : Nat) :
    List (List Char) → Int → List Int → Int × List Int
  | [], count, values => (count, values)
  | mask :: rest, count, values =>
    let r := mask_match (str.drop count.toNat) mask values off
    if r.1 ≥ 0 then (count + r.1, r.2)
    else try_masks str off rest count r.2

/-- The function `from_iso_string`; `none` is the result `opt_none`. -/
def from_iso_string (str : List Char) : Option datetime_t :=
  let str_size : Int := str.length
  if str_size < 10 then none
  else
    let values : List Int := List.replicate 8 0
    let r0 := mask_match str main_mask values 0
    if r0.1 < 0 then none
    else
      let r1 := try_masks str 5 sec_masks r0.1 r0.2
      let r2 := try_masks str 7 tz_masks r1.1 r1.2
      if r2.1 ≠ str_size then none
      else
        let v := r2.2
        some
          { milliseconds := v.getD 6 0,
            seconds := v.getD 5 0,
            minutes := v.getD 4 0,
            hours := v.getD 3 0,
            day := v.getD 2 0,
            month := v.getD 1 0,
            year := v.getD 0 0,
            tz := 3600 * Int.tdiv (v.getD 7 0) 100 + 60 * Int.tmod (v.getD 7 0) 100 }

/-! ### The fixed layout of the specification -/

/-- The decimal digit character of the last digit of `n`. -/
def digit_char (n : Nat) : Char := Nat.digitChar (n % 10)

/-- A number zero-padded to two digits. -/
def pad2 (n : Nat) : List Char := [digit_char (n / 10), digit_char n]

/-- A number zero-padded to three digits. -/
def pad3 (n : Nat) : List Char := [digit_char (n / 100), digit_char (n / 10), digit_char n]

/-- A number zero-padded to four digits. -/
def pad4 (n : Nat) : List Char :=
  [digit_char (n / 1000), digit_char (n / 100), digit_char (n / 10), digit_char n]

/-- The timezone designator of the layout: `Z`, or the sign and `HH:MM` with
`HH = |tz| / 3600` and `MM = (|tz| mod 3600) / 60`. -/
def tz_layout (tz : Int) : List Char :=
  if tz = 0 then ['Z']
  else (if tz > 0 then '+' else '-') ::
    (pad2 (tz.natAbs / 3600) ++ ':' :: pad2 (tz.natAbs % 3600 / 60))

/-- The text `YYYY-MM-DDTHH:MM:SS.mmm` of the layout. -/
def datetime_layout (d : datetime_t) : List Char :=
  pad4 d.year.toNat ++ '-' :: pad2 d.month.toNat ++ '-' :: pad2 d.day.toNat ++
    'T' :: pad2 d.hours.toNat ++ ':' :: pad2 d.minutes.toNat ++
    ':' :: pad2 d.seconds.toNat ++ '.' :: pad3 d.milliseconds.toNat

/-- The fixed layout: date and time followed by the timezone designator. -/
def iso_layout (d : datetime_t) : List Char := datetime_layout d ++ tz_layout d.tz

/-- The timestamps whose fields fit the widths of the layout. -/
def in_range (d : datetime_t) : Prop :=
  (0 ≤ d.year ∧ d.year ≤ 9999) ∧ (0 ≤ d.month ∧ d.month ≤ 99) ∧
  (0 ≤ d.day ∧ d.day ≤ 99) ∧ (0 ≤ d.hours ∧ d.hours ≤ 99) ∧
  (0 ≤ d.minutes ∧ d.minutes ≤ 99) ∧ (0 ≤ d.seconds ∧ d.seconds ≤ 99) ∧
  (0 ≤ d.milliseconds ∧ d.milliseconds ≤ 999) ∧
  (-360000 < d.tz ∧ d.tz < 360000)

instance (d : datetime_t) : Decidable (in_range d) := by
  unfold in_range
  infer_instance

/-! ### Well-formed inputs of the parser -/

/-- The text has the shape of the pattern: `#` in the pattern stands for a
digit, `T` for `T` or a space, every other pattern character for itself. -/
def has_shape : List Char → List Char → Bool
  | [], [] => true
  | p :: ps, c :: cs =>
    (if p = '#' then is_digit c
     else if p = 'T' then decide (c = 'T' ∨ c = ' ')
     else decide (c = p)) && has_shape ps cs
  | _, _ => false

/-- A well-formed date-time prefix: the 16-character skeleton, optionally
followed by `:SS` or by `:SS.mmm`. -/
def datetime_front (p : List Char) : Prop :=
  has_shape "####-##-##T##:##".toList p = true ∨
  has_shape "####-##-##T##:##:##".toList p = true ∨
  has_shape "####-##-##T##:##:##.###".toList p = true

instance (p : List Char) : Decidable (datetime_front p) := by
  unfold datetime_front
  infer_instance

/-- Two digits read as a number. -/
def number2 (a b : Char) : Int := 10 * digit_value a + digit_value b

/-- Three digits read as a number. -/
def number3 (a b c : Char) : Int := 10 * (10 * digit_value a + digit_value b) + digit_value c

/-- Four digits read as a number. -/
def number4 (a b c d : Char) : Int :=
  10 * (10 * (10 * digit_value a + digit_value b) + digit_value c) + digit_value d

/-- The sign that a sign character stands for. -/
def sign_of (sg : Char) : Int := if sg = '-' then -1 else 1

/-- A signed offset `HH:MM`, or `HHMM` when `colon` is false. -/
def offset_text (sg a b : Char) (colon : Bool) (c d : Char) : List Char :=
  sg :: a :: b :: ((if colon = true then [':'] else []) ++ [c, d])

/-! ### The inputs of the parser, by parts -/

/-- The characters at the digit and separator positions of the date-time
skeleton `YYYY-MM-DD`, `T` or space, `HH:MM`. -/
structure Skeleton where
  y1 : Char
  y2 : Char
  y3 : Char
  y4 : Char
  mo1 : Char
  mo2 : Char
  d1 : Char
  d2 : Char
  sep : Char
  h1 : Char
  h2 : Char
  mi1 : Char
  mi2 : Char

/-- The sixteen characters of a skeleton. -/
def Skeleton.text (k : Skeleton) : List Char :=
  [k.y1, k.y2, k.y3, k.y4, '-', k.mo1, k.mo2, '-', k.d1, k.d2, k.sep, k.h1, k.h2, ':',
    k.mi1, k.mi2]

/-- A well-formed skeleton: digits at the digit positions, `T` or a space as
separator. -/
def Skeleton.wf (k : Skeleton) : Prop :=
  (is_digit k.y1 = true ∧ is_digit k.y2 = true ∧ is_digit k.y3 = true ∧
    is_digit k.y4 = true) ∧
  (is_digit k.mo1 = true ∧ is_digit k.mo2 = true) ∧
  (is_digit k.d1 = true ∧ is_digit k.d2 = true) ∧
  (k.sep = 'T' ∨ k.sep = ' ') ∧
  (is_digit k.h1 = true ∧ is_digit k.h2 = true) ∧
  (is_digit k.mi1 = true ∧ is_digit k.mi2 = true)

instance (k : Skeleton) : Decidable k.wf := by
  unfold Skeleton.wf
  infer_instance

/-- The seconds part of an input: absent, `:SS`, or `:SS.` with one, two or
three fractional digits. -/
inductive SecPart where
  | absent
  | secs (s1 s2 : Char)
  | frac1 (s1 s2 f1 : Char)
  | frac2 (s1 s2 f1 f2 : Char)
  | frac3 (s1 s2 f1 f2 f3 : Char)

/-- The characters of a seconds part. -/
def SecPart.text : SecPart → List Char
  | SecPart.absent => []
  | SecPart.secs s1 s2 => [':', s1, s2]
  | SecPart.frac1 s1 s2 f1 => [':', s1, s2, '.', f1]
  | SecPart.frac2 s1 s2 f1 f2 => [':', s1, s2, '.', f1, f2]
  | SecPart.frac3 s1 s2 f1 f2 f3 => [':', s1, s2, '.', f1, f2, f3]

/-- A well-formed seconds part: digits at the digit positions. -/
def SecPart.wf : SecPart → Prop
  | SecPart.absent => True
  | SecPart.secs s1 s2 => is_digit s1 = true ∧ is_digit s2 = true
  | SecPart.frac1 s1 s2 f1 => is_digit s1 = true ∧ is_digit s2 = true ∧ is_digit f1 = true
  | SecPart.frac2 s1 s2 f1 f2 =>
    is_digit s1 = true ∧ is_digit s2 = true ∧ is_digit f1 = true ∧ is_digit f2 = true
  | SecPart.frac3 s1 s2 f1 f2 f3 =>
    is_digit s1 = true ∧ is_digit s2 = true ∧ is_digit f1 = true ∧ is_digit f2 = true ∧
      is_digit f3 = true

instance (sp : SecPart) : Decidable sp.wf := by
  cases sp <;> unfold SecPart.wf <;> infer_instance

/-- The seconds written by a seconds part, zero when it is absent. -/
def SecPart.seconds : SecPart → Int
  | SecPart.absent => 0
  | SecPart.secs s1 s2 => number2 s1 s2
  | SecPart.frac1 s1 s2 _ => number2 s1 s2
  | SecPart.frac2 s1 s2 _ _ => number2 s1 s2
  | SecPart.frac3 s1 s2 _ _ _ => number2 s1 s2

/-- The milliseconds written by a seconds part: the fraction right-padded with
zeros to three digits and read as a number, zero when there is no fraction. -/
def SecPart.millis : SecPart → Int
  | SecPart.absent => 0
  | SecPart.secs _ _ => 0
  | SecPart.frac1 _ _ f1 => number3 f1 '0' '0'
  | SecPart.frac2 _ _ f1 f2 => number3 f1 f2 '0'
  | SecPart.frac3 _ _ f1 f2 f3 => number3 f1 f2 f3

/-- A fraction of one or two digits. -/
def SecPart.short : SecPart → Bool
  | SecPart.frac1 _ _ _ => true
  | SecPart.frac2 _ _ _ _ => true
  | _ => false

/-- The timezone designator of an input: absent, `Z`, or a signed offset
`HH:MM` or `HHMM`. -/
inductive TzPart where
  | absent
  | zulu
  | offset (sg a b : Char) (colon : Bool) (c d : Char)

/-- The characters of a timezone designator. -/
def TzPart.text : TzPart → List Char
  | TzPart.absent => []
  | TzPart.zulu => ['Z']
  | TzPart.offset sg a b colon c d => offset_text sg a b colon c d

/-- A well-formed timezone designator: a sign and four digits. -/
def TzPart.wf : TzPart → Prop
  | TzPart.absent => True
  | TzPart.zulu => True
  | TzPart.offset sg a b _ c d =>
    (sg = '+' ∨ sg = '-') ∧ is_digit a = true ∧ is_digit b = true ∧
      is_digit c = true ∧ is_digit d = true

instance (tp : TzPart) : Decidable tp.wf := by
  cases tp <;> unfold TzPart.wf <;> infer_instance

/-- The offset in seconds written by a timezone designator:
`sign * (3600 * HH + 60 * MM)`, zero for `Z` and for an absent designator. -/
def TzPart.tz : TzPart → Int
  | TzPart.absent => 0
  | TzPart.zulu => 0
  | TzPart.offset sg a b _ c d => sign_of sg * (3600 * number2 a b + 60 * number2 c d)

/-- The timestamp written by the three parts of an input. -/
def written (k : Skeleton) (sp : SecPart) (tp : TzPart) : datetime_t :=
  { milliseconds := sp.millis,
    seconds := sp.seconds,
    minutes := number2 k.mi1 k.mi2,
    hours := number2 k.h1 k.h2,
    day := number2 k.d1 k.d2,
    month := number2 k.mo1 k.mo2,
    year := number4 k.y1 k.y2 k.y3 k.y4,
    tz := tp.tz }

/-- The input ends in a timezone designator: `Z`, or a sign, two digits, an
optional colon and two digits. -/
def ends_in_designator (w : List Char) : Prop :=
  (∃ pre : List Char, w = pre ++ ['Z']) ∨
  (∃ (pre : List Char) (sg a b : Char) (colon : Bool) (c d : Char),
    w = pre ++ offset_text sg a b colon c d ∧ (sg = '+' ∨ sg = '-') ∧
      is_digit a = true ∧ is_digit b = true ∧ is_digit c = true ∧ is_digit d = true)

/-- The twelve mandatory digit positions of the skeleton. -/
def digit_positions : List Nat := [0, 1, 2, 3, 5, 6, 8, 9, 11, 12, 14, 15]

/-- What may follow a seconds part for the seconds masks to consume exactly
that part: no colon after an absent part, no dot after `:SS`, a character that
is not a digit after a fraction of one or two digits. -/
def SecPart.follow : SecPart → List Char → Prop
  | SecPart.absent, rest => rest.head? ≠ some ':'
  | SecPart.secs _ _, rest => rest.head? ≠ some '.'
  | SecPart.frac1 _ _ _, rest => ∃ c tl, rest = c :: tl ∧ is_digit c = false
  | SecPart.frac2 _ _ _ _, rest => ∃ c tl, rest = c :: tl ∧ is_digit c = false
  | SecPart.frac3 _ _ _ _ _, _ => True

/-- The cells of `values` after the seconds masks have consumed a seconds
part. -/
def SecPart.store (sp : SecPart) (v : List Int) : List Int :=
  match sp with
  | SecPart.absent => v
  | SecPart.secs _ _ => v.set 5 sp.seconds
  | _ => (v.set 5 sp.seconds).set 6 sp.millis

/-- The cells of `values` after the timezone masks have consumed a designator:
an offset stores the signed number `HHMM`. -/
def TzPart.store (tp : TzPart) (v : List Int) : List Int :=
  match tp with
  | TzPart.offset sg a b _ c d => v.set 7 (sign_of sg * number4 a b c d)
  | _ => v

/-- The mask characters that consume exactly one character of the input: a
digit, a `T` or space, or a literal. -/
def simple_mask (m : Char) : Bool :=
  m = '#' || m = 'T' || m = 'Z' || m = '.' || m = '-' || m = ':'

/-- The character `c` fits the simple mask character `m`. -/
def fits (m c : Char) : Bool :=
  if m = '#' then is_digit c
  else if m = 'T' then decide (c = 'T' ∨ c = ' ')
  else decide (c = m)

end Dates

namespace Pomo

/-! ## Theorems on the timer -/

/-- C2: typing `break` and then `focus` right after program start spends no
time in the break, yet the command step credits `break_total` with
`LONG_BREAK_TIME - BREAK_TIME = 600` seconds, where the claim asks for
`BREAK_TIME - remaining = 0`: the conditional reads `app.pomo` after it has
been overwritten with `Focus`. -/
theorem C2_focus_after_break_credits_long_break :
    (run App.init [Event.command "break"]).pomo = PomoState.Break ∧
    (run App.init [Event.command "break"]).time_remaining = BREAK_TIME ∧
    (run App.init [Event.command "break"]).break_total = 0 ∧
    (run App.init [Event.command "break", Event.command "focus"]).pomo = PomoState.Focus ∧
    (run App.init [Event.command "break", Event.command "focus"]).break_total = 600 ∧
    (run App.init [Event.command "break", Event.command "focus"]).break_total ≠
      (run App.init [Event.command "break"]).break_total +
        (BREAK_TIME - (run App.init [Event.command "break"]).time_remaining) := by
  simp [run, apply_event, main_command_step, main_timer_switch, main_pomo_switch,
    main_leave_break, str_equal, App.init, FOCUS_TIME, BREAK_TIME, LONG_BREAK_TIME]
  norm_num

/-- An unrecognized token leaves every field unchanged when the quit flag is
clear, which is the state the command loop of `main` tests for. -/
theorem command_step_unrecognized (app : App) (s : String)
    (hs : recognized s = false) (hq : app.quit = false) :
    main_command_step app s = app := by
  obtain ⟨q, p, t, r, fc, bc, ft, bt⟩ := app
  simp only [recognized, Bool.or_eq_false_iff, decide_eq_false_iff_not] at hs
  obtain ⟨⟨⟨⟨⟨⟨⟨h1, h2⟩, h3⟩, h4⟩, h5⟩, h6⟩, h7⟩, h8⟩ := hs
  simp only at hq
  subst hq
  cases p <;> cases t <;>
    simp [main_command_step, main_timer_switch, main_pomo_switch, main_leave_break,
      str_equal, h1, h2, h3, h4, h5, h6, h7, h8]

/-- An unrecognized token changes nothing but the quit flag, which it
clears. -/
theorem command_step_unrecognized_fields (app : App) (s : String)
    (hs : recognized s = false) :
    main_command_step app s = { app with quit := false } := by
  obtain ⟨q, p, t, r, fc, bc, ft, bt⟩ := app
  simp only [recognized, Bool.or_eq_false_iff, decide_eq_false_iff_not] at hs
  obtain ⟨⟨⟨⟨⟨⟨⟨h1, h2⟩, h3⟩, h4⟩, h5⟩, h6⟩, h7⟩, h8⟩ := hs
  cases p <;> cases t <;>
    simp [main_command_step, main_timer_switch, main_pomo_switch, main_leave_break,
      str_equal, h1, h2, h3, h4, h5, h6, h7, h8]

/-- C3: after the ticker has taken its failure branch (`quit = true`), the
command step for the empty token, which is unrecognized, does not leave the
state as it was: it clears the quit flag the ticker has set. -/
theorem C3_unrecognized_token_clears_quit :
    recognized "" = false ∧
    (sleep_and_update_fail App.init).quit = true ∧
    (main_command_step (sleep_and_update_fail App.init) "").quit = false ∧
    main_command_step (sleep_and_update_fail App.init) "" ≠
      sleep_and_update_fail App.init := by
  refine ⟨by decide, rfl, ?_, ?_⟩
  · simp [main_command_step, str_equal]
  · intro h
    have hq := congrArg App.quit h
    simp [main_command_step, str_equal, sleep_and_update_fail] at hq

/-- C6: the status table of the command step.  For the tokens `start`, `stop`,
`pause` and `continue` the new status is the one of the table (every pairing
outside its five rows keeps the status), the phase, the remaining time and
both totals are as before, and `start` in status Stopped adds one to
`focus_count` in phase Focus and to `break_count` in the other two phases.
For every token whatsoever, unless it is `start` in status Stopped, both
counters are as before. -/
theorem C6_status_table :
    (∀ (app : App) (s : String),
      (s = "start" ∨ s = "stop" ∨ s = "pause" ∨ s = "continue") →
      (main_command_step app s).timer = status_table app.timer s ∧
      (main_command_step app s).pomo = app.pomo ∧
      (main_command_step app s).time_remaining = app.time_remaining ∧
      (main_command_step app s).focus_total = app.focus_total ∧
      (main_command_step app s).break_total = app.break_total ∧
      (main_command_step app s).focus_count =
        (if s = "start" ∧ app.timer = TimerState.Stopped ∧ app.pomo = PomoState.Focus
         then app.focus_count + 1 else app.focus_count) ∧
      (main_command_step app s).break_count =
        (if s = "start" ∧ app.timer = TimerState.Stopped ∧ app.pomo ≠ PomoState.Focus
         then app.break_count + 1 else app.break_count)) ∧
    (∀ (app : App) (s : String),
      ¬ (s = "start" ∧ app.timer = TimerState.Stopped) →
      (main_command_step app s).focus_count = app.focus_count ∧
      (main_command_step app s).break_count = app.break_count) := by
  constructor
  · intro app s hs
    obtain ⟨q, p, t, r, fc, bc, ft, bt⟩ := app
    rcases hs with h | h | h | h <;> subst h <;> cases p <;> cases t <;>
      simp [main_command_step, main_timer_switch, main_pomo_switch, main_leave_break,
        str_equal, status_table]
  · intro app s hs
    obtain ⟨q, p, t, r, fc, bc, ft, bt⟩ := app
    by_cases h1 : s = "start"
    · subst h1
      have ht : t ≠ TimerState.Stopped := by simpa using hs
      cases p <;> cases t <;>
        simp_all [main_command_step, main_timer_switch, main_pomo_switch,
          main_leave_break, str_equal]
    · cases p <;> cases t <;>
        simp only [main_command_step, main_timer_switch, main_pomo_switch,
          main_leave_break, str_equal, h1, decide_False, Bool.false_eq_true, if_false] <;>
        split_ifs <;> simp

/-- Witness of C6: `start` at program start gives a running timer and
`focus_count = 1`. -/
theorem C6_status_table_witness :
    (main_command_step App.init "start").timer = TimerState.Running ∧
    (main_command_step App.init "start").focus_count = 1 := by
  have h := C6_status_table.1 App.init "start" (Or.inl rfl)
  refine ⟨?_, ?_⟩
  · rw [h.1]; decide
  · rw [h.2.2.2.2.2.1]; decide

/-- On a running timer a ticker period with nothing between its status test
and its body is the body. -/
theorem step_running (app : App) (hrun : app.timer = TimerState.Running) :
    sleep_and_update_step app = sleep_and_update_body app := by
  simp only [sleep_and_update_step, hrun, if_true]

/-- On a timer that is not running such a period does nothing. -/
theorem step_not_running (app : App) (hrun : app.timer ≠ TimerState.Running) :
    sleep_and_update_step app = app := by
  simp only [sleep_and_update_step, hrun, if_false]

/-- The body of a ticker period that does not use up the remaining time only
lowers it. -/
theorem body_continue (app : App) (hlt : ¬ (app.time_remaining - 1 / 4 ≤ 0)) :
    sleep_and_update_body app =
      { app with time_remaining := app.time_remaining - 1 / 4 } := by
  simp only [sleep_and_update_body, hlt, if_false]

/-- The body of a ticker period that uses up the remaining time leaves the
nominal duration of the new phase and a stopped timer, on every state. -/
theorem body_rollover_remaining (app : App) (hle : app.time_remaining - 1 / 4 ≤ 0) :
    (sleep_and_update_body app).time_remaining =
      nominal (sleep_and_update_body app).pomo ∧
    (sleep_and_update_body app).timer = TimerState.Stopped := by
  obtain ⟨q, p, t, r, fc, bc, ft, bt⟩ := app
  simp only at hle
  cases p
  · by_cases hc : Int.tmod fc 3 = 0 <;>
      simp only [sleep_and_update_body, sleep_and_update_rollover, hle, hc, nominal,
        if_true, if_false, and_self]
  · simp only [sleep_and_update_body, sleep_and_update_rollover, hle, nominal,
      if_true, and_self]
  · simp only [sleep_and_update_body, sleep_and_update_rollover, hle, nominal,
      if_true, and_self]

/-- The phase entered when the body of a ticker period uses up the time of a
Focus interval, on every state in phase Focus. -/
theorem body_rollover_focus (app : App) (hle : app.time_remaining - 1 / 4 ≤ 0)
    (hp : app.pomo = PomoState.Focus) :
    (sleep_and_update_body app).pomo =
      if Int.tmod app.focus_count 3 = 0 then PomoState.LongBreak
      else PomoState.Break := by
  obtain ⟨q, p, t, r, fc, bc, ft, bt⟩ := app
  simp only at hle hp
  subst hp
  by_cases hc : Int.tmod fc 3 = 0 <;>
    simp only [sleep_and_update_body, sleep_and_update_rollover, hle, hc,
      if_true, if_false]

/-- A ticker period that uses up the remaining time leaves the nominal
duration of the new phase and a stopped timer. -/
theorem tick_rollover_remaining (app : App) (hrun : app.timer = TimerState.Running)
    (hle : app.time_remaining - 1 / 4 ≤ 0) :
    (sleep_and_update_step app).time_remaining =
      nominal (sleep_and_update_step app).pomo ∧
    (sleep_and_update_step app).timer = TimerState.Stopped := by
  obtain ⟨q, p, t, r, fc, bc, ft, bt⟩ := app
  simp only at hrun hle
  subst hrun
  cases p
  · by_cases hc : Int.tmod fc 3 = 0 <;>
      simp only [sleep_and_update_step, sleep_and_update_body, sleep_and_update_rollover, hle, hc, nominal,
        if_true, if_false, and_self]
  · simp only [sleep_and_update_step, sleep_and_update_body, sleep_and_update_rollover, hle, nominal,
      if_true, and_self]
  · simp only [sleep_and_update_step, sleep_and_update_body, sleep_and_update_rollover, hle, nominal,
      if_true, and_self]

/-- The phase entered when a running Focus interval uses up its time. -/
theorem tick_rollover_focus (app : App) (hrun : app.timer = TimerState.Running)
    (hle : app.time_remaining - 1 / 4 ≤ 0) (hp : app.pomo = PomoState.Focus) :
    (sleep_and_update_step app).pomo =
      if Int.tmod app.focus_count 3 = 0 then PomoState.LongBreak
      else PomoState.Break := by
  obtain ⟨q, p, t, r, fc, bc, ft, bt⟩ := app
  simp only at hrun hle hp
  subst hrun
  subst hp
  by_cases hc : Int.tmod fc 3 = 0 <;>
    simp only [sleep_and_update_step, sleep_and_update_body, sleep_and_update_rollover, hle, hc,
      if_true, if_false]

/-! ### Runs -/

theorem run_append (es₁ es₂ : List Event) : ∀ app : App,
    run app (es₁ ++ es₂) = run (run app es₁) es₂ := by
  induction es₁ with
  | nil => intro app; rfl
  | cons e es ih => intro app; rw [List.cons_append, run, run, ih]

theorem quarter_nominal (p : PomoState) : Quarter (nominal p) := by
  cases p
  · exact ⟨5999, by norm_num [nominal, FOCUS_TIME]⟩
  · exact ⟨1199, by norm_num [nominal, BREAK_TIME]⟩
  · exact ⟨3599, by norm_num [nominal, LONG_BREAK_TIME]⟩

/-- The remaining time after a command step is the old one or the nominal
duration of the new phase. -/
theorem command_step_remaining (app : App) (s : String) :
    (main_command_step app s).time_remaining = app.time_remaining ∨
    (main_command_step app s).time_remaining = nominal (main_command_step app s).pomo := by
  obtain ⟨q, p, t, r, fc, bc, ft, bt⟩ := app
  cases p <;> cases t <;>
    simp only [main_command_step, main_timer_switch, main_pomo_switch,
      main_leave_break] <;>
    split_ifs <;> simp [nominal]

theorem quarter_command_step (app : App) (s : String)
    (h : Quarter app.time_remaining) :
    Quarter (main_command_step app s).time_remaining := by
  rcases command_step_remaining app s with h1 | h1
  · rw [h1]; exact h
  · rw [h1]; exact quarter_nominal _

theorem quarter_commands (cs : List String) : ∀ app : App,
    Quarter app.time_remaining → Quarter (main_commands app cs).time_remaining := by
  induction cs with
  | nil => intro app h; exact h
  | cons s cs ih =>
    intro app h
    rw [main_commands]
    exact ih _ (quarter_command_step app s h)

theorem quarter_body (app : App) (h : Quarter app.time_remaining) :
    Quarter (sleep_and_update_body app).time_remaining := by
  obtain ⟨k, hk⟩ := h
  by_cases hle : app.time_remaining - 1 / 4 ≤ 0
  · rw [(body_rollover_remaining app hle).1]
    exact quarter_nominal _
  · rw [body_continue app hle]
    show Quarter (app.time_remaining - 1 / 4)
    cases k with
    | zero => exact absurd (by rw [hk]; norm_num) hle
    | succ j => exact ⟨j, by rw [hk]; push_cast; ring⟩

theorem quarter_tick (app : App) (h : Quarter app.time_remaining) :
    Quarter (sleep_and_update_step app).time_remaining := by
  by_cases hrun : app.timer = TimerState.Running
  · rw [step_running app hrun]
    exact quarter_body app h
  · rw [step_not_running app hrun]
    exact h

theorem quarter_apply_event (app : App) (e : Event)
    (h : Quarter app.time_remaining) :
    Quarter (apply_event app e).time_remaining := by
  cases e with
  | command s => exact quarter_command_step app s h
  | tick => exact quarter_tick app h
  | late_tick cs =>
    by_cases hrun : app.timer = TimerState.Running
    · simp only [apply_event, hrun, if_true]
      exact quarter_body _ (quarter_commands cs app h)
    · simp only [apply_event, hrun, if_false]
      exact quarter_commands cs app h

/-- A command step does not change the focus time that the shutdown
accounting would report. -/
theorem shutdown_command_step (app : App) (s : String) :
    (main_shutdown (main_command_step app s)).focus_total =
      (main_shutdown app).focus_total := by
  obtain ⟨q, p, t, r, fc, bc, ft, bt⟩ := app
  cases p <;> cases t <;>
    simp only [main_command_step, main_timer_switch, main_pomo_switch,
      main_leave_break] <;>
    split_ifs <;> simp [main_shutdown]

theorem shutdown_commands (cs : List String) : ∀ app : App,
    (main_shutdown (main_commands app cs)).focus_total =
      (main_shutdown app).focus_total := by
  induction cs with
  | nil => intro app; rfl
  | cons s cs ih =>
    intro app
    rw [main_commands, ih, shutdown_command_step]

/-- The body of a ticker period adds a quarter of a second to the focus time
that the shutdown accounting would report exactly when it runs in phase Focus,
whatever the status. -/
theorem shutdown_body (app : App) (h : Quarter app.time_remaining) :
    (main_shutdown (sleep_and_update_body app)).focus_total =
      (main_shutdown app).focus_total +
        ((if app.pomo = PomoState.Focus then 1 else 0 : ℕ) : ℚ) / 4 := by
  obtain ⟨k, hk⟩ := h
  obtain ⟨q, p, t, r, fc, bc, ft, bt⟩ := app
  simp only at hk
  subst hk
  cases k with
  | zero =>
    cases p <;>
      simp [sleep_and_update_body, sleep_and_update_rollover, main_shutdown]
    all_goals split_ifs
    all_goals simp [main_shutdown]
    all_goals ring
  | succ j =>
    have hlt : ¬ ((((j + 1 : ℕ) : ℚ) + 1) / 4 - 1 / 4 ≤ 0) := by
      push_cast
      have : (0 : ℚ) ≤ (j : ℚ) := Nat.cast_nonneg j
      intro hc
      linarith
    cases p <;>
      simp only [sleep_and_update_body, if_true, if_false, hlt,
        reduceCtorEq, main_shutdown, Nat.cast_zero, Nat.cast_one,
        zero_div, add_zero]
    all_goals ring

/-- A ticker period with nothing between its status test and its body adds a
quarter of a second to the focus time that the shutdown accounting would
report exactly when the timer is running in phase Focus. -/
theorem shutdown_tick (app : App) (h : Quarter app.time_remaining) :
    (main_shutdown (sleep_and_update_step app)).focus_total =
      (main_shutdown app).focus_total +
        ((if focus_running app = true then 1 else 0 : ℕ) : ℚ) / 4 := by
  by_cases hrun : app.timer = TimerState.Running
  · rw [step_running app hrun, shutdown_body app h]
    simp [focus_running, hrun]
  · rw [step_not_running app hrun]
    simp [focus_running, hrun]

theorem shutdown_apply_event (app : App) (e : Event)
    (h : Quarter app.time_remaining) :
    (main_shutdown (apply_event app e)).focus_total =
      (main_shutdown app).focus_total +
        ((match body_state app e with
          | some a => if a.pomo = PomoState.Focus then 1 else 0
          | none => 0 : ℕ) : ℚ) / 4 := by
  cases e with
  | command s =>
    simp [apply_event, body_state, shutdown_command_step]
  | tick =>
    by_cases hrun : app.timer = TimerState.Running
    · simp only [apply_event, body_state, hrun, if_true, step_running app hrun,
        shutdown_body app h]
    · simp [apply_event, body_state, hrun, step_not_running app hrun]
  | late_tick cs =>
    by_cases hrun : app.timer = TimerState.Running
    · simp only [apply_event, body_state, hrun, if_true,
        shutdown_body _ (quarter_commands cs app h), shutdown_commands]
    · simp [apply_event, body_state, hrun, shutdown_commands]

/-- The focus time reported at shutdown after a run grows by a quarter of a
second per ticker period whose body ran in phase Focus. -/
theorem shutdown_run (es : List Event) : ∀ app : App, Quarter app.time_remaining →
    (main_shutdown (run app es)).focus_total =
      (main_shutdown app).focus_total + (focus_bodies app es : ℚ) / 4 := by
  induction es with
  | nil => intro app _; simp [run, focus_bodies]
  | cons e es ih =>
    intro app h
    rw [run, ih _ (quarter_apply_event app e h), shutdown_apply_event app e h,
      focus_bodies]
    push_cast
    ring

/-- What the code computes: after every run from the initial state the
shutdown accounting reports a quarter of a second per ticker period whose body
ran in phase Focus, whatever the status at that time. -/
theorem focus_total_run (es : List Event) :
    (main_shutdown (run App.init es)).focus_total =
      (1 / 4 : ℚ) * (focus_bodies App.init es : ℚ) := by
  rw [shutdown_run es App.init (quarter_nominal PomoState.Focus)]
  simp [main_shutdown, App.init]
  ring

/-- In a run whose ticker periods enclose no command step, the bodies that ran
in phase Focus are the periods applied while the timer was running in phase
Focus. -/
theorem focus_bodies_atomic (es : List Event) : ∀ app : App,
    atomic_ticks es = true → focus_bodies app es = focus_ticks app es := by
  induction es with
  | nil => intro app _; rfl
  | cons e es ih =>
    intro app h
    simp only [atomic_ticks, List.all_cons, Bool.and_eq_true] at h
    rw [focus_bodies, focus_ticks, ih _ h.2]
    cases e with
    | command s => rfl
    | tick =>
      by_cases hrun : app.timer = TimerState.Running <;>
        simp [body_state, focus_running, hrun]
    | late_tick cs => exact absurd h.1 (by simp [Event.atomic])

/-- In a run whose ticker periods enclose no command step the shutdown
accounting reports a quarter of a second per ticker period applied while the
timer was running in phase Focus. -/
theorem focus_total_atomic_run (es : List Event) (h : atomic_ticks es = true) :
    (main_shutdown (run App.init es)).focus_total =
      (1 / 4 : ℚ) * (focus_ticks App.init es : ℚ) := by
  rw [focus_total_run, focus_bodies_atomic es App.init h]

/-- C8: the run `break`, `start`, a ticker period whose status test reads
`Running` in phase Break and whose body runs after the command step of
`focus`, then `q`.  The body runs on a stopped Focus interval with the full
1500 s left, so no ticker period is applied while the timer is running in phase
Focus, yet the shutdown accounting reports a focus time of a quarter of a
second. -/
theorem C8_late_tick_credits_focus :
    run App.init [Event.command "break", Event.command "start"] =
      { quit := false, pomo := PomoState.Break, timer := TimerState.Running,
        time_remaining := 300, focus_count := 0, break_count := 1,
        focus_total := 0, break_total := 0 } ∧
    main_commands (run App.init [Event.command "break", Event.command "start"])
        ["focus"] =
      { quit := false, pomo := PomoState.Focus, timer := TimerState.Stopped,
        time_remaining := 1500, focus_count := 0, break_count := 1,
        focus_total := 0, break_total := 600 } ∧
    run App.init late_tick_run =
      { quit := true, pomo := PomoState.Focus, timer := TimerState.Stopped,
        time_remaining := 1500 - 1 / 4, focus_count := 0, break_count := 1,
        focus_total := 0, break_total := 600 } ∧
    focus_ticks App.init late_tick_run = 0 ∧
    (main_shutdown (run App.init late_tick_run)).focus_total = 1 / 4 ∧
    (main_shutdown (run App.init late_tick_run)).focus_total ≠
      (1 / 4 : ℚ) * (focus_ticks App.init late_tick_run : ℚ) := by
  have h1 : run App.init [Event.command "break", Event.command "start"] =
      { quit := false, pomo := PomoState.Break, timer := TimerState.Running,
        time_remaining := 300, focus_count := 0, break_count := 1,
        focus_total := 0, break_total := 0 } := by
    simp [run, apply_event, main_command_step, main_timer_switch, main_pomo_switch,
      main_leave_break, str_equal, App.init, FOCUS_TIME, BREAK_TIME]
    norm_num
  have h2 : main_commands
      { quit := false, pomo := PomoState.Break, timer := TimerState.Running,
        time_remaining := 300, focus_count := 0, break_count := 1,
        focus_total := 0, break_total := 0 } ["focus"] =
      { quit := false, pomo := PomoState.Focus, timer := TimerState.Stopped,
        time_remaining := 1500, focus_count := 0, break_count := 1,
        focus_total := 0, break_total := 600 } := by
    simp [main_commands, main_command_step, main_timer_switch, main_pomo_switch,
      main_leave_break, str_equal, FOCUS_TIME, LONG_BREAK_TIME]
    norm_num
  have h3 : run App.init late_tick_run =
      { quit := true, pomo := PomoState.Focus, timer := TimerState.Stopped,
        time_remaining := 1500 - 1 / 4, focus_count := 0, break_count := 1,
        focus_total := 0, break_total := 600 } := by
    have hsplit : late_tick_run =
        [Event.command "break", Event.command "start"] ++
          [Event.late_tick ["focus"], Event.command "q"] := rfl
    rw [hsplit, run_append, h1]
    simp only [run, apply_event, if_true, h2]
    rw [body_continue _ (by norm_num)]
    simp [main_command_step, main_timer_switch, main_pomo_switch, str_equal]
  have h4 : focus_ticks App.init late_tick_run = 0 := by
    have e1 : apply_event (apply_event App.init (Event.command "break"))
        (Event.command "start") =
        { quit := false, pomo := PomoState.Break, timer := TimerState.Running,
          time_remaining := 300, focus_count := 0, break_count := 1,
          focus_total := 0, break_total := 0 } := by
      rw [← h1]; rfl
    simp only [late_tick_run, focus_ticks, body_state, e1, if_true, h2, focus_running]
    simp
  have h5 : (main_shutdown (run App.init late_tick_run)).focus_total = 1 / 4 := by
    rw [h3]
    simp [main_shutdown, FOCUS_TIME]
    norm_num
  refine ⟨h1, ?_, h3, h4, h5, ?_⟩
  · rw [h1]; exact h2
  · rw [h5, h4]; norm_num

/-! ### The long-break cadence -/

theorem focus_count_command_step (app : App) (s : String) :
    (main_command_step app s).focus_count =
      app.focus_count +
        ((if s = "start" ∧ app.pomo = PomoState.Focus ∧
            app.timer = TimerState.Stopped then 1 else 0 : ℕ) : ℤ) := by
  obtain ⟨q, p, t, r, fc, bc, ft, bt⟩ := app
  by_cases h1 : s = "start"
  · subst h1
    cases p <;> cases t <;>
      simp [main_command_step, main_timer_switch, main_pomo_switch,
        main_leave_break, str_equal]
  · have hne : ¬ (s = "start" ∧ p = PomoState.Focus ∧
        t = TimerState.Stopped) := by simp [h1]
    rw [if_neg hne]
    cases p <;> cases t <;>
      simp only [main_command_step, main_timer_switch, main_pomo_switch,
        main_leave_break, str_equal, h1, decide_False, Bool.false_eq_true, if_false] <;>
      split_ifs <;> simp

theorem focus_count_commands (cs : List String) : ∀ app : App,
    (main_commands app cs).focus_count =
      app.focus_count + (command_focus_starts app cs : ℤ) := by
  induction cs with
  | nil => intro app; simp [main_commands, command_focus_starts]
  | cons s cs ih =>
    intro app
    rw [main_commands, ih, command_focus_starts, focus_count_command_step]
    push_cast
    ring

/-- The body of a ticker period does not write `focus_count`. -/
theorem focus_count_body (app : App) :
    (sleep_and_update_body app).focus_count = app.focus_count := by
  obtain ⟨q, p, t, r, fc, bc, ft, bt⟩ := app
  cases p <;>
    simp only [sleep_and_update_body, sleep_and_update_rollover] <;>
    split_ifs <;> rfl

theorem focus_count_tick (app : App) :
    (sleep_and_update_step app).focus_count = app.focus_count := by
  by_cases hrun : app.timer = TimerState.Running
  · rw [step_running app hrun, focus_count_body]
  · rw [step_not_running app hrun]

theorem focus_count_apply_event (app : App) (e : Event) :
    (apply_event app e).focus_count =
      app.focus_count + (command_focus_starts app e.tokens : ℤ) := by
  cases e with
  | command s =>
    rw [apply_event, Event.tokens, ← focus_count_commands]
    rfl
  | tick =>
    rw [apply_event, focus_count_tick]
    simp [Event.tokens, command_focus_starts]
  | late_tick cs =>
    by_cases hrun : app.timer = TimerState.Running
    · simp only [apply_event, hrun, if_true, focus_count_body, focus_count_commands,
        Event.tokens]
    · simp only [apply_event, hrun, if_false, focus_count_commands, Event.tokens]

/-- The counter `focus_count` after a run is the counter before it plus the
number of `start` tokens taken in phase Focus with the timer stopped. -/
theorem focus_count_run (es : List Event) : ∀ app : App,
    (run app es).focus_count = app.focus_count + (focus_starts app es : ℤ) := by
  induction es with
  | nil => intro app; simp [run, focus_starts]
  | cons e es ih =>
    intro app
    rw [run, ih, focus_starts, focus_count_apply_event]
    push_cast
    ring

/-- The rollover of a running Focus interval whose time is used up. -/
theorem tick_completes_focus (app : App) (h : completes_focus app = true) :
    (sleep_and_update_step app).pomo =
      if Int.tmod app.focus_count 3 = 0 then PomoState.LongBreak
      else PomoState.Break := by
  simp only [completes_focus, focus_running, Bool.and_eq_true, decide_eq_true_eq] at h
  obtain ⟨⟨h1, h2⟩, h3⟩ := h
  exact tick_rollover_focus app h1 h3 h2

/-- Ticker periods on a running Focus interval with `n + 1` quarters of a
second left: the interval completes once, with the period that uses up its
time, and rolls over by the value of `focus_count`. -/
theorem focus_rollovers_ticks (n : ℕ) : ∀ app : App,
    app.timer = TimerState.Running → app.pomo = PomoState.Focus →
    app.time_remaining = ((n : ℚ) + 1) / 4 →
    focus_rollovers app (List.replicate (n + 1) Event.tick) =
      [if Int.tmod app.focus_count 3 = 0 then PomoState.LongBreak
       else PomoState.Break] := by
  induction n with
  | zero =>
    intro app h1 h2 h3
    have hle : app.time_remaining - 1 / 4 ≤ 0 := by rw [h3]; norm_num
    have hb : body_state app Event.tick = some app := by
      simp only [body_state, h1, if_true]
    rw [List.replicate_succ, focus_rollovers, hb]
    simp only [h2, hle, and_self, if_true, body_rollover_focus app hle h2]
    simp [focus_rollovers]
  | succ n ih =>
    intro app h1 h2 h3
    have hlt : ¬ (app.time_remaining - 1 / 4 ≤ 0) := by
      rw [h3]
      push_cast
      have : (0 : ℚ) ≤ (n : ℚ) := Nat.cast_nonneg n
      intro hc
      linarith
    have hb : body_state app Event.tick = some app := by
      simp only [body_state, h1, if_true]
    have hstep : sleep_and_update_step app =
        { app with time_remaining := app.time_remaining - 1 / 4 } := by
      simp only [sleep_and_update_step, sleep_and_update_body, h1, hlt, if_true, if_false]
    have ih' := ih { app with time_remaining := app.time_remaining - 1 / 4 } h1 h2
      (by show app.time_remaining - 1 / 4 = _; rw [h3]; push_cast; ring)
    rw [List.replicate_succ, focus_rollovers, apply_event, hstep, ih', hb]
    simp only [hlt, and_false, if_false, List.nil_append]

theorem focus_rollovers_append (es₁ es₂ : List Event) : ∀ app : App,
    focus_rollovers app (es₁ ++ es₂) =
      focus_rollovers app es₁ ++ focus_rollovers (run app es₁) es₂ := by
  induction es₁ with
  | nil => intro app; simp [focus_rollovers, run]
  | cons e es ih =>
    intro app
    rw [List.cons_append, focus_rollovers, focus_rollovers, run, ih, List.append_assoc]

/-- C4, as stated, fails: a first Focus interval that is stopped and started
again twice before it runs out is the first completed Focus interval, and it
rolls over to LongBreak, where the cadence of the claim gives Break. -/
theorem C4_first_completed_focus_to_long_break :
    focus_rollovers App.init restarted_run = [PomoState.LongBreak] ∧
    cadence 1 = PomoState.Break := by
  refine ⟨?_, by decide⟩
  have h := focus_rollovers_ticks 5999
    (run App.init [Event.command "start", Event.command "stop", Event.command "start",
      Event.command "stop", Event.command "start"])
    (by simp [run, apply_event, main_command_step, main_timer_switch, main_pomo_switch,
          str_equal, App.init])
    (by simp [run, apply_event, main_command_step, main_timer_switch, main_pomo_switch,
          str_equal, App.init])
    (by simp [run, apply_event, main_command_step, main_timer_switch, main_pomo_switch,
          str_equal, App.init, FOCUS_TIME]; norm_num)
  rw [restarted_run, focus_rollovers_append, h]
  simp [focus_rollovers, body_state, run, apply_event, main_command_step,
    main_timer_switch, main_pomo_switch, str_equal, App.init]

/-- Ticker periods on a running timer that do not use up the remaining time
only lower it, by a quarter of a second each. -/
theorem run_ticks (n : ℕ) : ∀ app : App, app.timer = TimerState.Running →
    (n : ℚ) / 4 < app.time_remaining →
    run app (List.replicate n Event.tick) =
      { app with time_remaining := app.time_remaining - (n : ℚ) / 4 } := by
  induction n with
  | zero => intro app _ _; simp [run]
  | succ n ih =>
    intro app h1 h2
    have hn : (0 : ℚ) ≤ (n : ℚ) := Nat.cast_nonneg n
    push_cast at h2
    have hlt : ¬ (app.time_remaining - 1 / 4 ≤ 0) := by
      intro hc
      linarith
    have hstep : sleep_and_update_step app =
        { app with time_remaining := app.time_remaining - 1 / 4 } := by
      simp only [sleep_and_update_step, sleep_and_update_body, h1, hlt, if_true, if_false]
    have ih' := ih { app with time_remaining := app.time_remaining - 1 / 4 } h1
      (by show (n : ℚ) / 4 < app.time_remaining - 1 / 4; linarith)
    rw [List.replicate_succ, run, apply_event, hstep, ih']
    simp only [App.mk.injEq, true_and, and_true]
    push_cast
    ring

/-- C4, amended: after every sequence of commands and ticker periods applied
from the initial state, `focus_count` is the number of `start` tokens taken so
far in phase Focus with the timer stopped, and a Focus interval that completes
with the next ticker period rolls over to LongBreak exactly when that number
is a multiple of three, and to Break otherwise.  The same holds of the body of
a ticker period alone, run in phase Focus on whatever status the command steps
before it have left. -/
theorem C4_cadence_by_focus_starts (es : List Event) :
    (run App.init es).focus_count = (focus_starts App.init es : ℤ) ∧
    (completes_focus (run App.init es) = true →
      (sleep_and_update_step (run App.init es)).pomo =
        if focus_starts App.init es % 3 = 0 then PomoState.LongBreak
        else PomoState.Break) ∧
    ((run App.init es).pomo = PomoState.Focus →
      (run App.init es).time_remaining - 1 / 4 ≤ 0 →
      (sleep_and_update_body (run App.init es)).pomo =
        if focus_starts App.init es % 3 = 0 then PomoState.LongBreak
        else PomoState.Break) := by
  have hcount : (run App.init es).focus_count = (focus_starts App.init es : ℤ) := by
    rw [focus_count_run]; simp [App.init]
  have hmod : Int.tmod (focus_starts App.init es : ℤ) 3 = 0 ↔
      focus_starts App.init es % 3 = 0 := by
    rw [Int.tmod_eq_emod (Int.natCast_nonneg _) (by norm_num)]
    omega
  refine ⟨hcount, fun h => ?_, fun hp hle => ?_⟩
  · rw [tick_completes_focus _ h, hcount]
    simp only [hmod]
  · rw [body_rollover_focus _ hle hp, hcount]
    simp only [hmod]

/-- Witness of C4: `start` at program start and 5999 ticker periods leave a
running Focus interval that the next period, and its body alone, complete; one
`start` has been taken, and the interval rolls over to Break. -/
theorem C4_cadence_by_focus_starts_witness :
    completes_focus (run App.init almost_full_focus_run) = true ∧
    (sleep_and_update_step (run App.init almost_full_focus_run)).pomo =
      PomoState.Break ∧
    (sleep_and_update_body (run App.init almost_full_focus_run)).pomo =
      PomoState.Break := by
  have hrun : run App.init almost_full_focus_run =
      { quit := false, pomo := PomoState.Focus, timer := TimerState.Running,
        time_remaining := 1 / 4, focus_count := 1, break_count := 0,
        focus_total := 0, break_total := 0 } := by
    rw [almost_full_focus_run, run, run_ticks 5999 _
      (by simp [apply_event, main_command_step, main_timer_switch, main_pomo_switch,
            str_equal, App.init])
      (by simp [apply_event, main_command_step, main_timer_switch, main_pomo_switch,
            str_equal, App.init, FOCUS_TIME]; norm_num)]
    simp [apply_event, main_command_step, main_timer_switch, main_pomo_switch,
      str_equal, App.init, FOCUS_TIME]
    norm_num
  have hc : completes_focus (run App.init almost_full_focus_run) = true := by
    rw [hrun]; simp [completes_focus, focus_running]
  have h := C4_cadence_by_focus_starts almost_full_focus_run
  have hs : focus_starts App.init almost_full_focus_run = 1 := by
    have h1 := h.1
    rw [hrun] at h1
    exact (Int.natCast_inj.mp h1.symm)
  have hp : (run App.init almost_full_focus_run).pomo = PomoState.Focus := by
    rw [hrun]
  have hle : (run App.init almost_full_focus_run).time_remaining - 1 / 4 ≤ 0 := by
    rw [hrun]; norm_num
  refine ⟨hc, ?_, ?_⟩
  · rw [h.2.1 hc, hs]
    decide
  · rw [h.2.2 hp hle, hs]
    decide

/-! ### A full Focus interval -/

/-- C14: from a stopped Focus interval with the full 1500 s left and
`focus_count = c`, `start` gives a running Focus interval with 1500 s left and
`focus_count = c + 1`; after `n < 6000` ticker periods the interval is still
running in phase Focus with `1500 - n / 4` seconds left; after exactly 6000
periods the timer is stopped, `focus_total` has grown by 1500, and the phase is
LongBreak with 900 s left when `(c + 1) % 3 == 0` and Break with 300 s left
otherwise. -/
theorem C14_full_focus_interval (app : App) (hp : app.pomo = PomoState.Focus)
    (ht : app.timer = TimerState.Stopped) (hr : app.time_remaining = 1500) :
    main_command_step app "start" =
      { quit := false, pomo := PomoState.Focus, timer := TimerState.Running,
        time_remaining := 1500, focus_count := app.focus_count + 1,
        break_count := app.break_count, focus_total := app.focus_total,
        break_total := app.break_total } ∧
    (∀ n : ℕ, n < 6000 →
      run (main_command_step app "start") (List.replicate n Event.tick) =
        { quit := false, pomo := PomoState.Focus, timer := TimerState.Running,
          time_remaining := 1500 - (n : ℚ) / 4, focus_count := app.focus_count + 1,
          break_count := app.break_count, focus_total := app.focus_total,
          break_total := app.break_total }) ∧
    run (main_command_step app "start") (List.replicate 6000 Event.tick) =
      { quit := false,
        pomo := if Int.tmod (app.focus_count + 1) 3 = 0 then PomoState.LongBreak
                else PomoState.Break,
        timer := TimerState.Stopped,
        time_remaining := if Int.tmod (app.focus_count + 1) 3 = 0 then 900 else 300,
        focus_count := app.focus_count + 1,
        break_count := app.break_count, focus_total := app.focus_total + 1500,
        break_total := app.break_total } := by
  obtain ⟨q, p, t, r, fc, bc, ft, bt⟩ := app
  simp only at hp ht hr
  subst hp ht hr
  have hstart : main_command_step
      { quit := q, pomo := PomoState.Focus, timer := TimerState.Stopped,
        time_remaining := 1500, focus_count := fc, break_count := bc,
        focus_total := ft, break_total := bt } "start" =
      { quit := false, pomo := PomoState.Focus, timer := TimerState.Running,
        time_remaining := 1500, focus_count := fc + 1, break_count := bc,
        focus_total := ft, break_total := bt } := by
    simp [main_command_step, main_timer_switch, main_pomo_switch, str_equal]
  have hticks : ∀ n : ℕ, n < 6000 →
      run { quit := false, pomo := PomoState.Focus, timer := TimerState.Running,
            time_remaining := 1500, focus_count := fc + 1, break_count := bc,
            focus_total := ft, break_total := bt } (List.replicate n Event.tick) =
        { quit := false, pomo := PomoState.Focus, timer := TimerState.Running,
          time_remaining := 1500 - (n : ℚ) / 4, focus_count := fc + 1,
          break_count := bc, focus_total := ft, break_total := bt } := by
    intro n hn
    have hlt : (n : ℚ) / 4 < 1500 := by
      have : (n : ℚ) < 6000 := by exact_mod_cast hn
      linarith
    rw [run_ticks n _ rfl hlt]
  rw [hstart]
  refine ⟨rfl, hticks, ?_⟩
  have hsplit : List.replicate 6000 Event.tick =
      List.replicate 5999 Event.tick ++ [Event.tick] := by
    rw [show (6000 : ℕ) = 5999 + 1 from rfl, List.replicate_succ']
  rw [hsplit, run_append, hticks 5999 (by norm_num), run, run, apply_event]
  have hle : (1500 : ℚ) - ((5999 : ℕ) : ℚ) / 4 - 1 / 4 ≤ 0 := by norm_num
  by_cases hc : Int.tmod (fc + 1) 3 = 0
  · simp only [sleep_and_update_step, sleep_and_update_body, sleep_and_update_rollover, hle, hc, if_true,
      FOCUS_TIME, LONG_BREAK_TIME]
    norm_num
  · simp only [sleep_and_update_step, sleep_and_update_body, sleep_and_update_rollover, hle, hc, if_true,
      if_false, FOCUS_TIME, BREAK_TIME]
    norm_num

/-- Witness of C14: the first interval after program start ends in a stopped
Break interval with 300 s left. -/
theorem C14_full_focus_interval_witness :
    run (main_command_step App.init "start") (List.replicate 6000 Event.tick) =
      { quit := false, pomo := PomoState.Break, timer := TimerState.Stopped,
        time_remaining := 300, focus_count := 1, break_count := 0,
        focus_total := 1500, break_total := 0 } := by
  have h := (C14_full_focus_interval App.init rfl rfl (by norm_num [App.init, FOCUS_TIME])).2.2
  rw [h]
  simp [App.init]
  decide

/-! ### The state invariant -/

theorem stateInv_init : StateInv App.init := by
  simp [StateInv, App.init, nominal, FOCUS_TIME]

/-- What a command step does to phase, remaining time and totals: nothing, or
it leaves Focus, or it leaves a break. -/
theorem command_step_effect (app : App) (s : String) :
    ((main_command_step app s).pomo = app.pomo ∧
      (main_command_step app s).time_remaining = app.time_remaining ∧
      (main_command_step app s).focus_total = app.focus_total ∧
      (main_command_step app s).break_total = app.break_total) ∨
    (app.pomo = PomoState.Focus ∧
      (main_command_step app s).time_remaining = nominal (main_command_step app s).pomo ∧
      (main_command_step app s).focus_total =
        app.focus_total + (FOCUS_TIME - app.time_remaining) ∧
      (main_command_step app s).break_total = app.break_total) ∨
    (app.pomo ≠ PomoState.Focus ∧
      (main_command_step app s).time_remaining = nominal (main_command_step app s).pomo ∧
      (main_command_step app s).focus_total = app.focus_total ∧
      (main_command_step app s).break_total =
        app.break_total + (LONG_BREAK_TIME - app.time_remaining)) := by
  obtain ⟨q, p, t, r, fc, bc, ft, bt⟩ := app
  cases p <;> cases t <;>
    simp only [main_command_step, main_timer_switch, main_pomo_switch,
      main_leave_break, reduceCtorEq, if_false] <;>
    split_ifs <;> simp [nominal]

theorem counts_command_step (app : App) (s : String) :
    app.focus_count ≤ (main_command_step app s).focus_count ∧
    app.break_count ≤ (main_command_step app s).break_count := by
  obtain ⟨q, p, t, r, fc, bc, ft, bt⟩ := app
  cases p <;> cases t <;>
    simp only [main_command_step, main_timer_switch, main_pomo_switch,
      main_leave_break, reduceCtorEq, if_false] <;>
    split_ifs <;> simp

theorem stateInv_command_step (app : App) (s : String) (h : StateInv app) :
    StateInv (main_command_step app s) := by
  obtain ⟨h1, h2, h3, h4, h5, h6⟩ := h
  obtain ⟨c1, c2⟩ := counts_command_step app s
  have hpos : ∀ p : PomoState, 0 < nominal p := by
    intro p; cases p <;> norm_num [nominal, FOCUS_TIME, BREAK_TIME, LONG_BREAK_TIME]
  refine ⟨?_, ?_, ?_, ?_, le_trans h5 c1, le_trans h6 c2⟩
  · rcases command_step_effect app s with ⟨_, e, _, _⟩ | ⟨_, e, _, _⟩ | ⟨_, e, _, _⟩
    · rw [e]; exact h1
    · rw [e]; exact hpos _
    · rw [e]; exact hpos _
  · rcases command_step_effect app s with ⟨e0, e, _, _⟩ | ⟨_, e, _, _⟩ | ⟨_, e, _, _⟩
    · rw [e, e0]; exact h2
    · rw [e]
    · rw [e]
  · rcases command_step_effect app s with ⟨_, _, e, _⟩ | ⟨e0, _, e, _⟩ | ⟨_, _, e, _⟩
    · rw [e]; exact h3
    · rw [e]
      rw [e0, nominal] at h2
      linarith
    · rw [e]; exact h3
  · rcases command_step_effect app s with ⟨_, _, _, e⟩ | ⟨_, _, _, e⟩ | ⟨e0, _, _, e⟩
    · rw [e]; exact h4
    · rw [e]; exact h4
    · rw [e]
      have hle : nominal app.pomo ≤ LONG_BREAK_TIME := by
        cases hp : app.pomo
        · exact absurd hp e0
        · norm_num [nominal, BREAK_TIME, LONG_BREAK_TIME]
        · exact le_refl _
      linarith

theorem stateInv_commands (cs : List String) : ∀ app : App, StateInv app →
    StateInv (main_commands app cs) := by
  induction cs with
  | nil => intro app h; exact h
  | cons s cs ih =>
    intro app h
    rw [main_commands]
    exact ih _ (stateInv_command_step app s h)

/-- The body of a ticker period keeps the invariant on every state, whatever
the status. -/
theorem stateInv_body (app : App) (h : StateInv app) :
    StateInv (sleep_and_update_body app) := by
  obtain ⟨q, p, t, r, fc, bc, ft, bt⟩ := app
  obtain ⟨h1, h2, h3, h4, h5, h6⟩ := h
  simp only at h1 h2 h3 h4 h5 h6
  cases p <;>
    simp only [sleep_and_update_body, sleep_and_update_rollover] <;>
    split_ifs <;>
    simp only [StateInv, nominal, FOCUS_TIME, BREAK_TIME, LONG_BREAK_TIME] at h2 ⊢ <;>
    refine ⟨?_, ?_, ?_, ?_, ?_, ?_⟩ <;>
    first
      | assumption
      | linarith

theorem stateInv_tick (app : App) (h : StateInv app) :
    StateInv (sleep_and_update_step app) := by
  by_cases hrun : app.timer = TimerState.Running
  · rw [step_running app hrun]
    exact stateInv_body app h
  · rw [step_not_running app hrun]
    exact h

theorem stateInv_run (es : List Event) : ∀ app : App, StateInv app →
    StateInv (run app es) := by
  induction es with
  | nil => intro app h; exact h
  | cons e es ih =>
    intro app h
    rw [run]
    apply ih
    cases e with
    | command s => exact stateInv_command_step app s h
    | tick => exact stateInv_tick app h
    | late_tick cs =>
      by_cases hrun : app.timer = TimerState.Running
      · simp only [apply_event, hrun, if_true]
        exact stateInv_body _ (stateInv_commands cs app h)
      · simp only [apply_event, hrun, if_false]
        exact stateInv_commands cs app h

/-- C15: in every state reached from the initial state by a sequence of
commands and ticker periods the remaining time is positive and at most the
nominal duration of the current phase, and `focus_total`, `break_total`,
`focus_count` and `break_count` are not negative. -/
theorem C15_state_invariant (es : List Event) :
    0 < (run App.init es).time_remaining ∧
    (run App.init es).time_remaining ≤ nominal (run App.init es).pomo ∧
    0 ≤ (run App.init es).focus_total ∧ 0 ≤ (run App.init es).break_total ∧
    0 ≤ (run App.init es).focus_count ∧ 0 ≤ (run App.init es).break_count := by
  have h := stateInv_run es App.init stateInv_init
  exact h

/-! ### Ticker periods on a timer that is not running -/

end Pomo

namespace Dates

/-! ## Theorems on the timestamp codec -/

/-! ### Decimal digits -/

theorem toDigitsCore_one (f n : Nat) (ds : List Char) (h : n < 10) :
    Nat.toDigitsCore 10 (f + 1) n ds = Nat.digitChar n :: ds := by
  simp [Nat.toDigitsCore, Nat.div_eq_of_lt h, Nat.mod_eq_of_lt h]

theorem toDigitsCore_two (f n : Nat) (ds : List Char) (h1 : 10 ≤ n) (h2 : n < 100) :
    Nat.toDigitsCore 10 (f + 2) n ds =
      Nat.digitChar (n / 10) :: Nat.digitChar (n % 10) :: ds := by
  have h : n / 10 ≠ 0 := by omega
  rw [Nat.toDigitsCore]
  simp only [h, if_false]
  exact toDigitsCore_one f (n / 10) _ (by omega)

theorem toDigitsCore_three (f n : Nat) (ds : List Char) (h1 : 100 ≤ n) (h2 : n < 1000) :
    Nat.toDigitsCore 10 (f + 3) n ds =
      Nat.digitChar (n / 100) :: Nat.digitChar (n / 10 % 10) ::
        Nat.digitChar (n % 10) :: ds := by
  have h : n / 10 ≠ 0 := by omega
  rw [Nat.toDigitsCore]
  simp only [h, if_false]
  rw [toDigitsCore_two f (n / 10) _ (by omega) (by omega), Nat.div_div_eq_div_mul]

theorem toDigitsCore_four (f n : Nat) (ds : List Char) (h1 : 1000 ≤ n) (h2 : n < 10000) :
    Nat.toDigitsCore 10 (f + 4) n ds =
      Nat.digitChar (n / 1000) :: Nat.digitChar (n / 100 % 10) ::
        Nat.digitChar (n / 10 % 10) :: Nat.digitChar (n % 10) :: ds := by
  have h : n / 10 ≠ 0 := by omega
  rw [Nat.toDigitsCore]
  simp only [h, if_false]
  rw [toDigitsCore_three f (n / 10) _ (by omega) (by omega), Nat.div_div_eq_div_mul,
    Nat.div_div_eq_div_mul]

theorem digitChar_zero : Nat.digitChar 0 = '0' := rfl

theorem digit_char_small (n : Nat) (h : n < 10) : digit_char n = Nat.digitChar n := by
  rw [digit_char, Nat.mod_eq_of_lt h]

/-- `%02d` of a number below 100 is the number zero-padded to two digits. -/
theorem fmt_0d_two (n : Int) (h0 : 0 ≤ n) (h1 : n ≤ 99) : fmt_0d 2 n = pad2 n.toNat := by
  obtain ⟨m, rfl⟩ := Int.eq_ofNat_of_zero_le h0
  have hm : m < 100 := by omega
  have hneg : ¬ ((m : Int) < 0) := by omega
  simp only [fmt_0d, hneg, if_false, Int.natAbs_ofNat, Int.toNat_ofNat, pad2, digit_char,
    Nat.toDigits]
  by_cases h10 : m < 10
  · rw [show m + 1 = m + 1 from rfl, toDigitsCore_one m m [] h10]
    simp [digitChar_zero, Nat.div_eq_of_lt h10, Nat.mod_eq_of_lt h10]
  · obtain ⟨j, rfl⟩ : ∃ j, m = j + 1 := ⟨m - 1, by omega⟩
    rw [toDigitsCore_two j (j + 1) [] (by omega) hm]
    have : (j + 1) / 10 % 10 = (j + 1) / 10 := Nat.mod_eq_of_lt (by omega)
    simp [digitChar_zero, this]

/-- `%03d` of a number below 1000 is the number zero-padded to three digits. -/
theorem fmt_0d_three (n : Int) (h0 : 0 ≤ n) (h1 : n ≤ 999) :
    fmt_0d 3 n = pad3 n.toNat := by
  obtain ⟨m, rfl⟩ := Int.eq_ofNat_of_zero_le h0
  have hm : m < 1000 := by omega
  have hneg : ¬ ((m : Int) < 0) := by omega
  simp only [fmt_0d, hneg, if_false, Int.natAbs_ofNat, Int.toNat_ofNat, pad3, digit_char,
    Nat.toDigits]
  by_cases h10 : m < 10
  · rw [toDigitsCore_one m m [] h10]
    have e1 : m / 100 = 0 := by omega
    simp [digitChar_zero, Nat.div_eq_of_lt h10, Nat.mod_eq_of_lt h10, e1, List.replicate]
  · by_cases h100 : m < 100
    · obtain ⟨j, rfl⟩ : ∃ j, m = j + 1 := ⟨m - 1, by omega⟩
      rw [toDigitsCore_two j (j + 1) [] (by omega) h100]
      have e1 : (j + 1) / 10 % 10 = (j + 1) / 10 := Nat.mod_eq_of_lt (by omega)
      have e2 : (j + 1) / 100 = 0 := by omega
      simp [digitChar_zero, e1, e2]
    · obtain ⟨j, rfl⟩ : ∃ j, m = j + 2 := ⟨m - 2, by omega⟩
      rw [toDigitsCore_three j (j + 2) [] (by omega) hm]
      have e1 : (j + 2) / 100 % 10 = (j + 2) / 100 := Nat.mod_eq_of_lt (by omega)
      simp [digitChar_zero, e1]

/-- `%04d` of a number below 10000 is the number zero-padded to four digits. -/
theorem fmt_0d_four (n : Int) (h0 : 0 ≤ n) (h1 : n ≤ 9999) :
    fmt_0d 4 n = pad4 n.toNat := by
  obtain ⟨m, rfl⟩ := Int.eq_ofNat_of_zero_le h0
  have hm : m < 10000 := by omega
  have hneg : ¬ ((m : Int) < 0) := by omega
  simp only [fmt_0d, hneg, if_false, Int.natAbs_ofNat, Int.toNat_ofNat, pad4, digit_char,
    Nat.toDigits]
  by_cases h10 : m < 10
  · rw [toDigitsCore_one m m [] h10]
    have e1 : m / 100 = 0 := by omega
    have e2 : m / 1000 = 0 := by omega
    simp [digitChar_zero, Nat.div_eq_of_lt h10, Nat.mod_eq_of_lt h10, e1, e2, List.replicate]
  · by_cases h100 : m < 100
    · obtain ⟨j, rfl⟩ : ∃ j, m = j + 1 := ⟨m - 1, by omega⟩
      rw [toDigitsCore_two j (j + 1) [] (by omega) h100]
      have e1 : (j + 1) / 10 % 10 = (j + 1) / 10 := Nat.mod_eq_of_lt (by omega)
      have e2 : (j + 1) / 100 = 0 := by omega
      have e3 : (j + 1) / 1000 = 0 := by omega
      simp [digitChar_zero, e1, e2, e3, List.replicate]
    · by_cases h1000 : m < 1000
      · obtain ⟨j, rfl⟩ : ∃ j, m = j + 2 := ⟨m - 2, by omega⟩
        rw [toDigitsCore_three j (j + 2) [] (by omega) h1000]
        have e1 : (j + 2) / 100 % 10 = (j + 2) / 100 := Nat.mod_eq_of_lt (by omega)
        have e3 : (j + 2) / 1000 = 0 := by omega
        simp [digitChar_zero, e1, e3]
      · obtain ⟨j, rfl⟩ : ∃ j, m = j + 3 := ⟨m - 3, by omega⟩
        rw [toDigitsCore_four j (j + 3) [] (by omega) hm]
        have e1 : (j + 3) / 1000 % 10 = (j + 3) / 1000 := Nat.mod_eq_of_lt (by omega)
        simp [digitChar_zero, e1]

/-! ### The formatter -/

theorem write_chars_append (out : List Char) : ∀ pre old post : List Char,
    old.length = out.length →
    write_chars (pre ++ old ++ post) pre.length out = pre ++ out ++ post := by
  induction out with
  | nil =>
    intro pre old post h
    have : old = [] := List.length_eq_zero.mp h
    simp [write_chars, this]
  | cons c cs ih =>
    intro pre old post h
    cases old with
    | nil => simp at h
    | cons o os =>
      have hset : (pre ++ (o :: os) ++ post).set pre.length c =
          (pre ++ [c]) ++ os ++ post := by
        simp [List.set_append]
      have hlen : pre.length + 1 = (pre ++ [c]).length := by simp
      rw [write_chars, hset, hlen, ih (pre ++ [c]) os post (by simpa using h)]
      simp

theorem sprintf_at_zero_filled (pre out : List Char) (n : Nat)
    (h : pre.length + out.length + 1 ≤ n + pre.length) :
    sprintf_at (pre ++ List.replicate n '\x00') pre.length out =
      pre ++ out ++ '\x00' :: List.replicate (n - (out.length + 1)) '\x00' := by
  have hsplit : List.replicate n '\x00' =
      List.replicate (out.length + 1) '\x00' ++
        List.replicate (n - (out.length + 1)) '\x00' := by
    rw [← List.replicate_add]
    congr 1
    omega
  rw [sprintf_at, hsplit, ← List.append_assoc,
    write_chars_append (out ++ ['\x00']) pre _ _ (by simp)]
  simp

theorem digit_char_ne_nul (n : Nat) : digit_char n ≠ '\x00' := by
  have h : n % 10 < 10 := Nat.mod_lt _ (by norm_num)
  unfold digit_char
  generalize n % 10 = r at h
  interval_cases r <;> decide

theorem c_str_datetime_layout (d : datetime_t) (rest : List Char) :
    c_str (datetime_layout d ++ rest) = datetime_layout d ++ c_str rest := by
  simp [c_str, datetime_layout, pad2, pad3, pad4, List.takeWhile, digit_char_ne_nul]

theorem length_datetime_layout (d : datetime_t) : (datetime_layout d).length = 23 := by
  simp [datetime_layout, pad2, pad3, pad4]

/-- The two fields of the offset printed by `write_iso_datetime` for a
positive number of seconds below 100 hours. -/
theorem fmt_offset (t : Nat) (ht : t < 360000) :
    fmt_0d 2 (Int.tdiv ((t : Int) - Int.tmod (t : Int) 3600) 3600) = pad2 (t / 3600) ∧
    fmt_0d 2 (Int.tdiv (Int.tmod (t : Int) 3600) 60) = pad2 (t % 3600 / 60) := by
  have h1 : Int.tmod (t : Int) 3600 = ((t % 3600 : Nat) : Int) := by
    rw [Int.tmod_eq_emod (Int.natCast_nonneg _) (by norm_num)]
    norm_cast
  have h2 : Int.tdiv ((t : Int) - ((t % 3600 : Nat) : Int)) 3600 =
      ((t / 3600 : Nat) : Int) := by
    rw [Int.tdiv_eq_ediv (by omega) (by norm_num)]
    omega
  have h3 : Int.tdiv ((t % 3600 : Nat) : Int) 60 = ((t % 3600 / 60 : Nat) : Int) := by
    rw [Int.tdiv_eq_ediv (Int.natCast_nonneg _) (by norm_num)]
    norm_cast
  rw [h1, h2, h3]
  constructor
  · rw [fmt_0d_two _ (Int.natCast_nonneg _) (by omega), Int.toNat_ofNat]
  · rw [fmt_0d_two _ (Int.natCast_nonneg _) (by omega), Int.toNat_ofNat]

theorem tz_layout_ne_nul (tz : Int) (rest : List Char) :
    c_str (tz_layout tz ++ '\x00' :: rest) = tz_layout tz := by
  unfold tz_layout
  split_ifs <;>
    simp [c_str, pad2, List.takeWhile, digit_char_ne_nul]

/-- The buffer after `write_iso_datetime`, for a timestamp in range and a
zero-filled buffer of at least `size >= 30` cells, holds the fixed layout. -/
theorem write_iso_datetime_layout (d : datetime_t) (h : in_range d) (size : Int)
    (cap : Nat) (hs : 30 ≤ size) (hc : size ≤ (cap : Int)) :
    c_str (write_iso_datetime d (List.replicate cap '\x00') size) = iso_layout d := by
  obtain ⟨⟨hy0, hy1⟩, ⟨hmo0, hmo1⟩, ⟨hd0, hd1⟩, ⟨hh0, hh1⟩, ⟨hmi0, hmi1⟩, ⟨hse0, hse1⟩,
    ⟨hms0, hms1⟩, htz0, htz1⟩ := h
  have hsize : ¬ (size < 30) := by omega
  have htext : fmt_0d 4 d.year ++ '-' :: fmt_0d 2 d.month ++ '-' :: fmt_0d 2 d.day ++
        'T' :: fmt_0d 2 d.hours ++ ':' :: fmt_0d 2 d.minutes ++
        ':' :: fmt_0d 2 d.seconds ++ '.' :: fmt_0d 3 d.milliseconds =
      datetime_layout d := by
    rw [fmt_0d_four _ hy0 hy1, fmt_0d_two _ hmo0 hmo1, fmt_0d_two _ hd0 hd1,
      fmt_0d_two _ hh0 hh1, fmt_0d_two _ hmi0 hmi1, fmt_0d_two _ hse0 hse1,
      fmt_0d_three _ hms0 hms1]
    rfl
  have hlen := length_datetime_layout d
  have hfirst : sprintf_at (List.replicate cap '\x00') 0 (datetime_layout d) =
      datetime_layout d ++ '\x00' :: List.replicate (cap - 24) '\x00' := by
    have := sprintf_at_zero_filled [] (datetime_layout d) cap (by simp [hlen]; omega)
    simpa [hlen] using this
  have hsecond : ∀ out : List Char, out.length = 6 →
      sprintf_at (datetime_layout d ++ '\x00' :: List.replicate (cap - 24) '\x00') 23 out =
        datetime_layout d ++ out ++ '\x00' :: List.replicate (cap - 30) '\x00' := by
    intro out hout
    have hrep : '\x00' :: List.replicate (cap - 24) '\x00' =
        List.replicate (cap - 23) '\x00' := by
      rw [show cap - 23 = (cap - 24) + 1 by omega, List.replicate_succ]
    have := sprintf_at_zero_filled (datetime_layout d) out (cap - 23)
      (by simp [hlen, hout]; omega)
    rw [hlen, hout] at this
    rw [hrep, this, show cap - 23 - (6 + 1) = cap - 30 by omega]
  simp only [write_iso_datetime, hsize, if_false, htext, hfirst]
  by_cases hpos : d.tz > 0
  · obtain ⟨t, ht⟩ := Int.eq_ofNat_of_zero_le (le_of_lt hpos)
    have hne : d.tz ≠ 0 := by omega
    have htl : t < 360000 := by omega
    obtain ⟨e1, e2⟩ := fmt_offset t htl
    simp only [hpos, if_true]
    rw [hsecond _ (by rw [ht, e1, e2]; simp [pad2]), ht, e1, e2, List.append_assoc,
      c_str_datetime_layout, iso_layout]
    have hlay : tz_layout d.tz = '+' :: pad2 (t / 3600) ++ ':' :: pad2 (t % 3600 / 60) := by
      have habs : d.tz.natAbs = t := by omega
      simp [tz_layout, hne, hpos, habs]
    rw [← hlay, tz_layout_ne_nul]
  · by_cases hneg : d.tz < 0
    · obtain ⟨t, ht⟩ := Int.eq_ofNat_of_zero_le (show 0 ≤ -d.tz by omega)
      have hne : d.tz ≠ 0 := by omega
      have htl : t < 360000 := by omega
      obtain ⟨e1, e2⟩ := fmt_offset t htl
      simp only [hpos, hneg, if_true, if_false]
      rw [hsecond _ (by rw [ht, e1, e2]; simp [pad2]), ht, e1, e2, List.append_assoc,
        c_str_datetime_layout, iso_layout]
      have habs : d.tz.natAbs = t := by omega
      have hlay : tz_layout d.tz =
          '-' :: pad2 (t / 3600) ++ ':' :: pad2 (t % 3600 / 60) := by
        simp [tz_layout, hne, hpos, habs]
      rw [← hlay, tz_layout_ne_nul]
    · have hz : d.tz = 0 := by omega
      simp only [hpos, hneg, if_false]
      have hset : (datetime_layout d ++ '\x00' :: List.replicate (cap - 24) '\x00').set 23 'Z' =
          datetime_layout d ++ 'Z' :: List.replicate (cap - 24) '\x00' := by
        rw [List.set_append]
        simp [hlen]
      have hrep : List.replicate (cap - 24) '\x00' =
          '\x00' :: List.replicate (cap - 25) '\x00' := by
        rw [show cap - 24 = (cap - 25) + 1 by omega, List.replicate_succ]
      rw [hset, c_str_datetime_layout, iso_layout, hz, hrep]
      simp [c_str, tz_layout, List.takeWhile]

/-! ### One round of the loop of `mask_match` -/

theorem main_mask_eq : main_mask =
    ['#','#','#','#','-','#','#','-','#','#','T','#','#',':','#','#'] := by decide

theorem sec_masks_eq : sec_masks = [[':','#','#','.','#','d','d'], [':','#','#']] := by
  decide

theorem tz_masks_eq : tz_masks = [['+','#','#','c','#','#'], ['Z']] := by decide

theorem loop_nil (off : Nat) (str : List Char) (st : MatchState) :
    mask_match_loop off str [] st = st := by
  rw [mask_match_loop]

/-- The input is used up while the mask is not: the match fails. -/
theorem loop_end (off : Nat) (str rest : List Char) (m : Char) (st : MatchState)
    (hk : (str.length : Int) ≤ st.k) :
    mask_match_loop off str (m :: rest) st = { st with ok := false } := by
  rw [mask_match_loop]
  simp [hk]

/-- Mask `#` on a digit: the digit is added to the number. -/
theorem loop_hash (off : Nat) (str rest : List Char) (v : List Int) (i : Nat) (s : Int)
    (rn : Bool) (n k : Int) (h0 : 0 ≤ k) (hk : k.toNat < str.length)
    (hd : is_digit (str.getD k.toNat '\x00') = true) :
    mask_match_loop off str ('#' :: rest)
        { values := v, value_idx := i, sign := s, reading_number := rn, number := n,
          ok := true, k := k } =
      mask_match_loop off str rest
        { values := v, value_idx := i, sign := s, reading_number := true,
          number := 10 * n + digit_value (str.getD k.toNat '\x00'), ok := true,
          k := k + 1 } := by
  have hg : ¬ (k ≥ (str.length : Int)) := by omega
  rw [mask_match_loop]
  generalize str.getD k.toNat '\x00' = c at hd
  simp [hg, mask_switch, hd]

/-- Mask `#` on a character that is not a digit: the match fails. -/
theorem loop_hash_fail (off : Nat) (str rest : List Char) (v : List Int) (i : Nat) (s : Int)
    (rn : Bool) (n k : Int) (h0 : 0 ≤ k) (hk : k.toNat < str.length)
    (hd : is_digit (str.getD k.toNat '\x00') = false) :
    mask_match_loop off str ('#' :: rest)
        { values := v, value_idx := i, sign := s, reading_number := rn, number := n,
          ok := true, k := k } =
        { values := v, value_idx := i, sign := s, reading_number := true, number := n,
          ok := false, k := k } := by
  have hg : ¬ (k ≥ (str.length : Int)) := by omega
  rw [mask_match_loop]
  generalize str.getD k.toNat '\x00' = c at hd
  simp [hg, mask_switch, hd]

/-- Mask `-`, `:`, `.` or `Z` on the same character, while a number is being
read: the number is stored. -/
theorem loop_lit_store (off : Nat) (str rest : List Char) (m : Char) (v : List Int)
    (i : Nat) (s : Int) (n k : Int) (hm : m = 'Z' ∨ m = '.' ∨ m = '-' ∨ m = ':')
    (h0 : 0 ≤ k) (hk : k.toNat < str.length) (hc : str.getD k.toNat '\x00' = m) :
    mask_match_loop off str (m :: rest)
        { values := v, value_idx := i, sign := s, reading_number := true, number := n,
          ok := true, k := k } =
      mask_match_loop off str rest
        { values := v.set (off + i) (s * n), value_idx := i + 1, sign := 1,
          reading_number := false, number := 0, ok := true, k := k + 1 } := by
  have hg : ¬ (k ≥ (str.length : Int)) := by omega
  rw [mask_match_loop]
  generalize str.getD k.toNat '\x00' = c at hc
  subst hc
  rcases hm with h | h | h | h <;> subst h <;>
    simp [hg, mask_switch, store_number]

/-- Mask `-`, `:`, `.` or `Z` on the same character, while no number is being
read. -/
theorem loop_lit (off : Nat) (str rest : List Char) (m : Char) (v : List Int) (i : Nat)
    (s : Int) (n k : Int) (hm : m = 'Z' ∨ m = '.' ∨ m = '-' ∨ m = ':')
    (h0 : 0 ≤ k) (hk : k.toNat < str.length) (hc : str.getD k.toNat '\x00' = m) :
    mask_match_loop off str (m :: rest)
        { values := v, value_idx := i, sign := s, reading_number := false, number := n,
          ok := true, k := k } =
      mask_match_loop off str rest
        { values := v, value_idx := i, sign := s, reading_number := false, number := n,
          ok := true, k := k + 1 } := by
  have hg : ¬ (k ≥ (str.length : Int)) := by omega
  rw [mask_match_loop]
  generalize str.getD k.toNat '\x00' = c at hc
  subst hc
  rcases hm with h | h | h | h <;> subst h <;>
    simp [hg, mask_switch]

/-- Mask `-`, `:`, `.` or `Z` on another character: the match fails. -/
theorem loop_lit_fail (off : Nat) (str rest : List Char) (m : Char) (st : MatchState)
    (hm : m = 'Z' ∨ m = '.' ∨ m = '-' ∨ m = ':')
    (h0 : 0 ≤ st.k) (hk : st.k.toNat < str.length) (hc : str.getD st.k.toNat '\x00' ≠ m) :
    mask_match_loop off str (m :: rest) st = { st with ok := false } := by
  have hg : ¬ (st.k ≥ (str.length : Int)) := by omega
  rw [mask_match_loop]
  generalize str.getD st.k.toNat '\x00' = c at hc
  rcases hm with h | h | h | h <;> subst h <;>
    simp [hg, mask_switch, hc]

/-- Mask `T` on `T` or a space, while a number is being read: the number is
stored. -/
theorem loop_T_store (off : Nat) (str rest : List Char) (v : List Int) (i : Nat)
    (s : Int) (n k : Int) (h0 : 0 ≤ k) (hk : k.toNat < str.length)
    (hc : str.getD k.toNat '\x00' = 'T' ∨ str.getD k.toNat '\x00' = ' ') :
    mask_match_loop off str ('T' :: rest)
        { values := v, value_idx := i, sign := s, reading_number := true, number := n,
          ok := true, k := k } =
      mask_match_loop off str rest
        { values := v.set (off + i) (s * n), value_idx := i + 1, sign := 1,
          reading_number := false, number := 0, ok := true, k := k + 1 } := by
  have hg : ¬ (k ≥ (str.length : Int)) := by omega
  rw [mask_match_loop]
  generalize str.getD k.toNat '\x00' = c at hc
  rcases hc with h | h <;> subst h <;> simp [hg, mask_switch, store_number]

/-- Mask `+` on a sign, while no number is being read: `-` sets the sign. -/
theorem loop_sign (off : Nat) (str rest : List Char) (v : List Int) (i : Nat)
    (s : Int) (n k : Int) (h0 : 0 ≤ k) (hk : k.toNat < str.length)
    (hc : str.getD k.toNat '\x00' = '+' ∨ str.getD k.toNat '\x00' = '-') :
    mask_match_loop off str ('+' :: rest)
        { values := v, value_idx := i, sign := s, reading_number := false, number := n,
          ok := true, k := k } =
      mask_match_loop off str rest
        { values := v, value_idx := i,
          sign := if str.getD k.toNat '\x00' = '-' then -1 else s,
          reading_number := false, number := n, ok := true, k := k + 1 } := by
  have hg : ¬ (k ≥ (str.length : Int)) := by omega
  rw [mask_match_loop]
  generalize str.getD k.toNat '\x00' = c at hc
  rcases hc with h | h <;> subst h <;> simp [hg, mask_switch]

/-- Mask `+` on a character that is no sign: the match fails. -/
theorem loop_sign_fail (off : Nat) (str rest : List Char) (st : MatchState)
    (h0 : 0 ≤ st.k) (hk : st.k.toNat < str.length)
    (hc : str.getD st.k.toNat '\x00' ≠ '+' ∧ str.getD st.k.toNat '\x00' ≠ '-') :
    mask_match_loop off str ('+' :: rest) st = { st with ok := false } := by
  have hg : ¬ (st.k ≥ (str.length : Int)) := by omega
  rw [mask_match_loop]
  generalize str.getD st.k.toNat '\x00' = c at hc
  simp [hg, mask_switch, hc]

/-- Mask `c` on a colon: the colon is consumed. -/
theorem loop_c_colon (off : Nat) (str rest : List Char) (st : MatchState)
    (h0 : 0 ≤ st.k) (hk : st.k.toNat < str.length)
    (hc : str.getD st.k.toNat '\x00' = ':') :
    mask_match_loop off str ('c' :: rest) st =
      mask_match_loop off str rest { st with k := st.k + 1 } := by
  have hg : ¬ (st.k ≥ (str.length : Int)) := by omega
  have hsw : ∀ a b : Char, mask_switch off 'c' a b st = st := by
    intro a b
    simp [mask_switch]
  rw [mask_match_loop]
  simp only [hg, hsw, hc, if_true, if_false]

/-- Mask `c` on another character: nothing is consumed. -/
theorem loop_c_other (off : Nat) (str rest : List Char) (st : MatchState)
    (h0 : 0 ≤ st.k) (hk : st.k.toNat < str.length)
    (hc : str.getD st.k.toNat '\x00' ≠ ':') :
    mask_match_loop off str ('c' :: rest) st = mask_match_loop off str rest st := by
  have hg : ¬ (st.k ≥ (str.length : Int)) := by omega
  have hsw : ∀ a b : Char, mask_switch off 'c' a b st = st := by
    intro a b
    simp [mask_switch]
  rw [mask_match_loop]
  simp only [hg, hsw, hc, if_true, if_false]

/-- Mask `d` on a digit, while a number is being read: the digit is added. -/
theorem loop_d_digit (off : Nat) (str rest : List Char) (v : List Int) (i : Nat) (s : Int)
    (n k : Int) (h0 : 0 ≤ k) (hk : k.toNat < str.length)
    (hd : is_digit (str.getD k.toNat '\x00') = true) :
    mask_match_loop off str ('d' :: rest)
        { values := v, value_idx := i, sign := s, reading_number := true, number := n,
          ok := true, k := k } =
      mask_match_loop off str rest
        { values := v, value_idx := i, sign := s, reading_number := true,
          number := 10 * n + digit_value (str.getD k.toNat '\x00'), ok := true,
          k := k + 1 } := by
  have hg : ¬ (k ≥ (str.length : Int)) := by omega
  rw [mask_match_loop]
  generalize str.getD k.toNat '\x00' = c at hd
  simp [hg, mask_switch, hd]

/-- Mask `d` on a character that is not a digit, while a number is being read:
the number is scaled by 100 when another `d` follows in the mask and by 10
otherwise, and stored; the character is not consumed. -/
theorem loop_d_close (off : Nat) (str rest : List Char) (v : List Int) (i : Nat) (s : Int)
    (n k : Int) (h0 : 0 ≤ k) (hk : k.toNat < str.length)
    (hd : is_digit (str.getD k.toNat '\x00') = false) :
    mask_match_loop off str ('d' :: rest)
        { values := v, value_idx := i, sign := s, reading_number := true, number := n,
          ok := true, k := k } =
      mask_match_loop off str rest
        { values := v.set (off + i)
            (s * (if rest.headD '\x00' = 'd' then n * 100 else n * 10)),
          value_idx := i + 1, sign := 1, reading_number := false, number := 0,
          ok := true, k := k } := by
  have hg : ¬ (k ≥ (str.length : Int)) := by omega
  rw [mask_match_loop]
  generalize str.getD k.toNat '\x00' = c at hd
  generalize rest.headD '\x00' = nx
  by_cases hn : nx = 'd' <;>
    simp [hg, mask_switch, hd, store_number, hn]

/-- Mask `d` while no number is being read: nothing is consumed. -/
theorem loop_d_skip (off : Nat) (str rest : List Char) (v : List Int) (i : Nat) (s : Int)
    (n k : Int) (h0 : 0 ≤ k) (hk : k.toNat < str.length) :
    mask_match_loop off str ('d' :: rest)
        { values := v, value_idx := i, sign := s, reading_number := false, number := n,
          ok := true, k := k } =
      mask_match_loop off str rest
        { values := v, value_idx := i, sign := s, reading_number := false, number := n,
          ok := true, k := k } := by
  have hg : ¬ (k ≥ (str.length : Int)) := by omega
  rw [mask_match_loop]
  simp [hg, mask_switch]

/-! ### The three phases of `from_iso_string` -/

/-- The skeleton mask on a well-formed skeleton: sixteen characters are
consumed and the first five cells of `values` are set. -/
theorem mask_match_main (y1 y2 y3 y4 m1 m2 d1 d2 sep h1 h2 n1 n2 : Char) (rest : List Char)
    (hy1 : is_digit y1 = true) (hy2 : is_digit y2 = true) (hy3 : is_digit y3 = true)
    (hy4 : is_digit y4 = true) (hm1 : is_digit m1 = true) (hm2 : is_digit m2 = true)
    (hd1 : is_digit d1 = true) (hd2 : is_digit d2 = true)
    (hsep : sep = 'T' ∨ sep = ' ')
    (hh1 : is_digit h1 = true) (hh2 : is_digit h2 = true)
    (hn1 : is_digit n1 = true) (hn2 : is_digit n2 = true) (v : List Int) :
    mask_match (y1 :: y2 :: y3 :: y4 :: '-' :: m1 :: m2 :: '-' :: d1 :: d2 :: sep ::
        h1 :: h2 :: ':' :: n1 :: n2 :: rest) main_mask v 0 =
      (16, ((((v.set 0 (10 * (10 * (10 * digit_value y1 + digit_value y2) +
          digit_value y3) + digit_value y4)).set 1
        (10 * digit_value m1 + digit_value m2)).set 2
        (10 * digit_value d1 + digit_value d2)).set 3
        (10 * digit_value h1 + digit_value h2)).set 4
        (10 * digit_value n1 + digit_value n2)) := by
  rw [mask_match, main_mask_eq]
  rw [loop_hash _ _ _ _ _ _ _ _ _ (by simp) (by simp) (by simpa using hy1)]
  rw [loop_hash _ _ _ _ _ _ _ _ _ (by simp) (by simp) (by simpa using hy2)]
  rw [loop_hash _ _ _ _ _ _ _ _ _ (by simp) (by simp) (by simpa using hy3)]
  rw [loop_hash _ _ _ _ _ _ _ _ _ (by simp) (by simp) (by simpa using hy4)]
  rw [loop_lit_store _ _ _ _ _ _ _ _ _ (by simp) (by simp) (by simp) (by simp)]
  rw [loop_hash _ _ _ _ _ _ _ _ _ (by simp) (by simp) (by simpa using hm1)]
  rw [loop_hash _ _ _ _ _ _ _ _ _ (by simp) (by simp) (by simpa using hm2)]
  rw [loop_lit_store _ _ _ _ _ _ _ _ _ (by simp) (by simp) (by simp) (by simp)]
  rw [loop_hash _ _ _ _ _ _ _ _ _ (by simp) (by simp) (by simpa using hd1)]
  rw [loop_hash _ _ _ _ _ _ _ _ _ (by simp) (by simp) (by simpa using hd2)]
  rw [loop_T_store _ _ _ _ _ _ _ _ (by simp) (by simp) (by simpa using hsep)]
  rw [loop_hash _ _ _ _ _ _ _ _ _ (by simp) (by simp) (by simpa using hh1)]
  rw [loop_hash _ _ _ _ _ _ _ _ _ (by simp) (by simp) (by simpa using hh2)]
  rw [loop_lit_store _ _ _ _ _ _ _ _ _ (by simp) (by simp) (by simp) (by simp)]
  rw [loop_hash _ _ _ _ _ _ _ _ _ (by simp) (by simp) (by simpa using hn1)]
  rw [loop_hash _ _ _ _ _ _ _ _ _ (by simp) (by simp) (by simpa using hn2)]
  rw [loop_nil]
  simp

theorem clear_on_failure_zero (off : Nat) (v : List Int) : clear_on_failure off 0 v = v := by
  simp [clear_on_failure]

theorem digit_ne_colon (c : Char) (h : is_digit c = true) : c ≠ ':' := by
  intro hc
  subst hc
  revert h
  decide

/-- The seconds masks on `:SS.mmm`: seven characters are consumed, the seconds
and the milliseconds are stored. -/
theorem sec_phase_full (str : List Char) (count : Int) (v : List Int)
    (s1 s2 f1 f2 f3 : Char) (rest : List Char)
    (hdrop : str.drop count.toNat = ':' :: s1 :: s2 :: '.' :: f1 :: f2 :: f3 :: rest)
    (hs1 : is_digit s1 = true) (hs2 : is_digit s2 = true) (hf1 : is_digit f1 = true)
    (hf2 : is_digit f2 = true) (hf3 : is_digit f3 = true) :
    try_masks str 5 sec_masks count v =
      (count + 7, (v.set 5 (10 * digit_value s1 + digit_value s2)).set 6
        (10 * (10 * digit_value f1 + digit_value f2) + digit_value f3)) := by
  rw [sec_masks_eq, try_masks, hdrop, mask_match]
  rw [loop_lit _ _ _ _ _ _ _ _ _ (by simp) (by simp) (by simp) (by simp)]
  rw [loop_hash _ _ _ _ _ _ _ _ _ (by simp) (by simp) (by simpa using hs1)]
  rw [loop_hash _ _ _ _ _ _ _ _ _ (by simp) (by simp) (by simpa using hs2)]
  rw [loop_lit_store _ _ _ _ _ _ _ _ _ (by simp) (by simp) (by simp) (by simp)]
  rw [loop_hash _ _ _ _ _ _ _ _ _ (by simp) (by simp) (by simpa using hf1)]
  rw [loop_d_digit _ _ _ _ _ _ _ _ (by simp) (by simp) (by simpa using hf2)]
  rw [loop_d_digit _ _ _ _ _ _ _ _ (by simp) (by simp) (by simpa using hf3)]
  rw [loop_nil]
  simp

/-- The seconds masks on `:SS` that no dot follows: the first mask fails
without a store, the second consumes three characters and stores the
seconds. -/
theorem sec_phase_seconds (str : List Char) (count : Int) (v : List Int)
    (s1 s2 : Char) (rest : List Char)
    (hdrop : str.drop count.toNat = ':' :: s1 :: s2 :: rest)
    (hs1 : is_digit s1 = true) (hs2 : is_digit s2 = true)
    (hrest : rest.head? ≠ some '.') :
    try_masks str 5 sec_masks count v =
      (count + 3, v.set 5 (10 * digit_value s1 + digit_value s2)) := by
  have hfirst : mask_match (':' :: s1 :: s2 :: rest) [':','#','#','.','#','d','d'] v 5 =
      (-1, v) := by
    rw [mask_match]
    rw [loop_lit _ _ _ _ _ _ _ _ _ (by simp) (by simp) (by simp) (by simp)]
    rw [loop_hash _ _ _ _ _ _ _ _ _ (by simp) (by simp) (by simpa using hs1)]
    rw [loop_hash _ _ _ _ _ _ _ _ _ (by simp) (by simp) (by simpa using hs2)]
    cases rest with
    | nil =>
      rw [loop_end _ _ _ _ _ (by simp)]
      simp [clear_on_failure_zero]
    | cons c cs =>
      have hc : c ≠ '.' := by simpa using hrest
      rw [loop_lit_fail _ _ _ _ _ (by simp) (by simp) (by simp) (by simpa using hc)]
      simp [clear_on_failure_zero]
  rw [sec_masks_eq, try_masks, hdrop, hfirst]
  simp only [ge_iff_le, Int.reduceNeg, Int.reduceLE, if_false]
  rw [try_masks, hdrop, mask_match]
  rw [loop_lit _ _ _ _ _ _ _ _ _ (by simp) (by simp) (by simp) (by simp)]
  rw [loop_hash _ _ _ _ _ _ _ _ _ (by simp) (by simp) (by simpa using hs1)]
  rw [loop_hash _ _ _ _ _ _ _ _ _ (by simp) (by simp) (by simpa using hs2)]
  rw [loop_nil]
  simp

/-- The seconds masks on a rest that does not start with a colon: both masks
fail, nothing is consumed or stored. -/
theorem sec_phase_none (str : List Char) (count : Int) (v : List Int)
    (hdrop : (str.drop count.toNat).head? ≠ some ':') :
    try_masks str 5 sec_masks count v = (count, v) := by
  have hfail : ∀ mask : List Char,
      mask_match (str.drop count.toNat) (':' :: mask) v 5 = (-1, v) := by
    intro mask
    rw [mask_match]
    cases htail : str.drop count.toNat with
    | nil =>
      rw [loop_end _ _ _ _ _ (by simp)]
      simp [clear_on_failure_zero]
    | cons c cs =>
      have hc : c ≠ ':' := by simpa [htail] using hdrop
      rw [loop_lit_fail _ _ _ _ _ (by simp) (by simp) (by simp) (by simpa using hc)]
      simp [clear_on_failure_zero]
  rw [sec_masks_eq, try_masks, hfail]
  simp only [ge_iff_le, Int.reduceNeg, Int.reduceLE, if_false]
  rw [try_masks, hfail]
  simp only [ge_iff_le, Int.reduceNeg, Int.reduceLE, if_false]
  rw [try_masks]

/-- The timezone masks on a signed offset `HH:MM` or `HHMM`: the sign, four
digits and the colon, when there is one, are consumed, and the signed number
`HHMM` is stored. -/
theorem tz_phase_offset (str : List Char) (count : Int) (v : List Int)
    (sg h1 h2 m1 m2 : Char) (colon : Bool) (rest : List Char)
    (hdrop : str.drop count.toNat =
      sg :: h1 :: h2 :: ((if colon = true then [':'] else []) ++ m1 :: m2 :: rest))
    (hsg : sg = '+' ∨ sg = '-')
    (hh1 : is_digit h1 = true) (hh2 : is_digit h2 = true) (hm1 : is_digit m1 = true)
    (hm2 : is_digit m2 = true) :
    try_masks str 7 tz_masks count v =
      (count + (if colon = true then 6 else 5),
        v.set 7 ((if sg = '-' then -1 else 1) *
          (10 * (10 * (10 * digit_value h1 + digit_value h2) + digit_value m1) +
            digit_value m2))) := by
  rw [tz_masks_eq, try_masks, hdrop, mask_match]
  cases colon with
  | true =>
    simp only [if_true, List.singleton_append]
    rw [loop_sign _ _ _ _ _ _ _ _ (by simp) (by simp) (by simpa using hsg)]
    rw [loop_hash _ _ _ _ _ _ _ _ _ (by simp) (by simp) (by simpa using hh1)]
    rw [loop_hash _ _ _ _ _ _ _ _ _ (by simp) (by simp) (by simpa using hh2)]
    rw [loop_c_colon _ _ _ _ (by simp) (by simp) (by simp)]
    rw [loop_hash _ _ _ _ _ _ _ _ _ (by simp) (by simp) (by simpa using hm1)]
    rw [loop_hash _ _ _ _ _ _ _ _ _ (by simp) (by simp) (by simpa using hm2)]
    rw [loop_nil]
    simp
  | false =>
    simp only [Bool.false_eq_true, if_false, List.nil_append]
    rw [loop_sign _ _ _ _ _ _ _ _ (by simp) (by simp) (by simpa using hsg)]
    rw [loop_hash _ _ _ _ _ _ _ _ _ (by simp) (by simp) (by simpa using hh1)]
    rw [loop_hash _ _ _ _ _ _ _ _ _ (by simp) (by simp) (by simpa using hh2)]
    rw [loop_c_other _ _ _ _ (by simp) (by simp) (by simpa using digit_ne_colon m1 hm1)]
    rw [loop_hash _ _ _ _ _ _ _ _ _ (by simp) (by simp) (by simpa using hm1)]
    rw [loop_hash _ _ _ _ _ _ _ _ _ (by simp) (by simp) (by simpa using hm2)]
    rw [loop_nil]
    simp

/-- The timezone masks on `Z`: the first mask fails without a store, the
second consumes the `Z`. -/
theorem tz_phase_Z (str : List Char) (count : Int) (v : List Int) (rest : List Char)
    (hdrop : str.drop count.toNat = 'Z' :: rest) :
    try_masks str 7 tz_masks count v = (count + 1, v) := by
  rw [tz_masks_eq, try_masks, hdrop, mask_match]
  rw [loop_sign_fail _ _ _ _ (by simp) (by simp) (by simp)]
  simp only [Bool.not_false, if_true, clear_on_failure_zero, ge_iff_le, Int.reduceNeg,
    Int.reduceLE, if_false]
  rw [try_masks, hdrop, mask_match]
  rw [loop_lit _ _ _ _ _ _ _ _ _ (by simp) (by simp) (by simp) (by simp)]
  rw [loop_nil]
  simp

theorem digit_value_range (c : Char) (h : is_digit c = true) :
    0 ≤ digit_value c ∧ digit_value c ≤ 9 := by
  simp only [is_digit, Bool.and_eq_true, decide_eq_true_eq] at h
  obtain ⟨h1, h2⟩ := h
  have h1' : ('0' : Char).toNat ≤ c.toNat := h1
  have h2' : c.toNat ≤ ('9' : Char).toNat := h2
  have e0 : ('0' : Char).toNat = 48 := by decide
  have e9 : ('9' : Char).toNat = 57 := by decide
  unfold digit_value
  omega

theorem digit_char_is_digit (n : Nat) : is_digit (digit_char n) = true := by
  have h : n % 10 < 10 := Nat.mod_lt _ (by norm_num)
  unfold digit_char
  generalize n % 10 = r at h
  interval_cases r <;> decide

theorem digit_value_digit_char (n : Nat) : digit_value (digit_char n) = ((n % 10 : Nat) : Int) := by
  have h : n % 10 < 10 := Nat.mod_lt _ (by norm_num)
  unfold digit_char
  generalize n % 10 = r at h
  interval_cases r <;> decide

/-- The conversion of the signed number `HHMM` to seconds in
`from_iso_string`, with the truncating division and remainder of C. -/
theorem tz_seconds (sgn hh mm : Int) (hs : sgn = 1 ∨ sgn = -1) (h0 : 0 ≤ hh)
    (m0 : 0 ≤ mm) (m1 : mm < 100) :
    3600 * Int.tdiv (sgn * (100 * hh + mm)) 100 +
        60 * Int.tmod (sgn * (100 * hh + mm)) 100 =
      sgn * (3600 * hh + 60 * mm) := by
  have hpos : Int.tdiv (100 * hh + mm) 100 = hh := by
    rw [Int.tdiv_eq_ediv (by omega) (by norm_num)]
    omega
  rw [Int.tmod_def]
  rcases hs with h | h <;> subst h
  · rw [one_mul, hpos]
    ring
  · rw [neg_one_mul, Int.neg_tdiv, hpos]
    ring

/-- The function `from_iso_string` in terms of the results of its three
phases. -/
theorem from_iso_string_phases (str : List Char) (c0 c1 c2 : Int) (v0 v1 v2 : List Int)
    (hlen : 10 ≤ str.length)
    (h0 : mask_match str main_mask (List.replicate 8 0) 0 = (c0, v0)) (hc0 : 0 ≤ c0)
    (h1 : try_masks str 5 sec_masks c0 v0 = (c1, v1))
    (h2 : try_masks str 7 tz_masks c1 v1 = (c2, v2)) :
    from_iso_string str =
      if c2 ≠ (str.length : Int) then none
      else some
        { milliseconds := v2.getD 6 0,
          seconds := v2.getD 5 0,
          minutes := v2.getD 4 0,
          hours := v2.getD 3 0,
          day := v2.getD 2 0,
          month := v2.getD 1 0,
          year := v2.getD 0 0,
          tz := 3600 * Int.tdiv (v2.getD 7 0) 100 + 60 * Int.tmod (v2.getD 7 0) 100 } := by
  have hl : ¬ ((str.length : Int) < 10) := by omega
  have hc : ¬ (c0 < 0) := by omega
  simp only [from_iso_string, hl, if_false, h0, hc, h1, h2]

theorem has_shape_nil_elim {l : List Char} (h : has_shape [] l = true) : l = [] := by
  cases l with
  | nil => rfl
  | cons c cs => simp [has_shape] at h

theorem has_shape_cons_elim {q : Char} {ps l : List Char}
    (h : has_shape (q :: ps) l = true) :
    ∃ c cs, l = c :: cs ∧
      (if q = '#' then is_digit c
       else if q = 'T' then decide (c = 'T' ∨ c = ' ')
       else decide (c = q)) = true ∧ has_shape ps cs = true := by
  cases l with
  | nil => simp [has_shape] at h
  | cons c cs =>
    rw [has_shape, Bool.and_eq_true] at h
    exact ⟨c, cs, rfl, h.1, h.2⟩

theorem has_shape_append_elim (ps qs : List Char) : ∀ l : List Char,
    has_shape (ps ++ qs) l = true →
    ∃ l1 l2, l = l1 ++ l2 ∧ has_shape ps l1 = true ∧ has_shape qs l2 = true := by
  induction ps with
  | nil => intro l h; exact ⟨[], l, rfl, rfl, h⟩
  | cons p ps ih =>
    intro l h
    obtain ⟨c, cs, rfl, hc, hcs⟩ := has_shape_cons_elim h
    obtain ⟨l1, l2, rfl, h1, h2⟩ := ih cs hcs
    refine ⟨c :: l1, l2, rfl, ?_, h2⟩
    rw [has_shape, Bool.and_eq_true]
    exact ⟨hc, h1⟩

/-- A text of the shape of the skeleton. -/
theorem shape_skeleton {p : List Char} (h : has_shape main_mask p = true) :
    ∃ y1 y2 y3 y4 m1 m2 d1 d2 sep h1 h2 n1 n2 : Char,
      p = [y1, y2, y3, y4, '-', m1, m2, '-', d1, d2, sep, h1, h2, ':', n1, n2] ∧
      (is_digit y1 = true ∧ is_digit y2 = true ∧ is_digit y3 = true ∧
        is_digit y4 = true) ∧
      (is_digit m1 = true ∧ is_digit m2 = true) ∧
      (is_digit d1 = true ∧ is_digit d2 = true) ∧
      (sep = 'T' ∨ sep = ' ') ∧
      (is_digit h1 = true ∧ is_digit h2 = true) ∧
      (is_digit n1 = true ∧ is_digit n2 = true) := by
  rw [main_mask_eq] at h
  obtain ⟨y1, l, rfl, e1, h⟩ := has_shape_cons_elim h
  obtain ⟨y2, l, rfl, e2, h⟩ := has_shape_cons_elim h
  obtain ⟨y3, l, rfl, e3, h⟩ := has_shape_cons_elim h
  obtain ⟨y4, l, rfl, e4, h⟩ := has_shape_cons_elim h
  obtain ⟨q1, l, rfl, e5, h⟩ := has_shape_cons_elim h
  obtain ⟨m1, l, rfl, e6, h⟩ := has_shape_cons_elim h
  obtain ⟨m2, l, rfl, e7, h⟩ := has_shape_cons_elim h
  obtain ⟨q2, l, rfl, e8, h⟩ := has_shape_cons_elim h
  obtain ⟨d1, l, rfl, e9, h⟩ := has_shape_cons_elim h
  obtain ⟨d2, l, rfl, e10, h⟩ := has_shape_cons_elim h
  obtain ⟨sep, l, rfl, e11, h⟩ := has_shape_cons_elim h
  obtain ⟨h1, l, rfl, e12, h⟩ := has_shape_cons_elim h
  obtain ⟨h2, l, rfl, e13, h⟩ := has_shape_cons_elim h
  obtain ⟨q3, l, rfl, e14, h⟩ := has_shape_cons_elim h
  obtain ⟨n1, l, rfl, e15, h⟩ := has_shape_cons_elim h
  obtain ⟨n2, l, rfl, e16, h⟩ := has_shape_cons_elim h
  have hl := has_shape_nil_elim h
  subst hl
  have e5' : q1 = '-' := by simpa using e5
  have e8' : q2 = '-' := by simpa using e8
  have e14' : q3 = ':' := by simpa using e14
  subst e5' e8' e14'
  exact ⟨y1, y2, y3, y4, m1, m2, d1, d2, sep, h1, h2, n1, n2, rfl,
    ⟨by simpa using e1, by simpa using e2, by simpa using e3, by simpa using e4⟩,
    ⟨by simpa using e6, by simpa using e7⟩, ⟨by simpa using e9, by simpa using e10⟩,
    by simpa using e11, ⟨by simpa using e12, by simpa using e13⟩,
    ⟨by simpa using e15, by simpa using e16⟩⟩

/-- A text of the shape `:##`. -/
theorem shape_seconds {p : List Char} (h : has_shape [':', '#', '#'] p = true) :
    ∃ s1 s2 : Char, p = [':', s1, s2] ∧ is_digit s1 = true ∧ is_digit s2 = true := by
  obtain ⟨q1, l, rfl, e1, h⟩ := has_shape_cons_elim h
  obtain ⟨s1, l, rfl, e2, h⟩ := has_shape_cons_elim h
  obtain ⟨s2, l, rfl, e3, h⟩ := has_shape_cons_elim h
  have hl := has_shape_nil_elim h
  subst hl
  have e1' : q1 = ':' := by simpa using e1
  subst e1'
  exact ⟨s1, s2, rfl, by simpa using e2, by simpa using e3⟩

/-- A text of the shape `:##.###`. -/
theorem shape_millis {p : List Char}
    (h : has_shape [':', '#', '#', '.', '#', '#', '#'] p = true) :
    ∃ s1 s2 f1 f2 f3 : Char, p = [':', s1, s2, '.', f1, f2, f3] ∧
      is_digit s1 = true ∧ is_digit s2 = true ∧ is_digit f1 = true ∧
      is_digit f2 = true ∧ is_digit f3 = true := by
  obtain ⟨q1, l, rfl, e1, h⟩ := has_shape_cons_elim h
  obtain ⟨s1, l, rfl, e2, h⟩ := has_shape_cons_elim h
  obtain ⟨s2, l, rfl, e3, h⟩ := has_shape_cons_elim h
  obtain ⟨q2, l, rfl, e4, h⟩ := has_shape_cons_elim h
  obtain ⟨f1, l, rfl, e5, h⟩ := has_shape_cons_elim h
  obtain ⟨f2, l, rfl, e6, h⟩ := has_shape_cons_elim h
  obtain ⟨f3, l, rfl, e7, h⟩ := has_shape_cons_elim h
  have hl := has_shape_nil_elim h
  subst hl
  have e1' : q1 = ':' := by simpa using e1
  have e4' : q2 = '.' := by simpa using e4
  subst e1' e4'
  exact ⟨s1, s2, f1, f2, f3, rfl, by simpa using e2, by simpa using e3,
    by simpa using e5, by simpa using e6, by simpa using e7⟩

/-- The seconds of a signed number `HHMM` read from four digits. -/
theorem offset_seconds (sg a b c d : Char) (hsg : sg = '+' ∨ sg = '-')
    (ha : is_digit a = true) (hb : is_digit b = true) (hc : is_digit c = true)
    (hd : is_digit d = true) :
    3600 * Int.tdiv ((if sg = '-' then -1 else 1) *
        (10 * (10 * (10 * digit_value a + digit_value b) + digit_value c) +
          digit_value d)) 100 +
      60 * Int.tmod ((if sg = '-' then -1 else 1) *
        (10 * (10 * (10 * digit_value a + digit_value b) + digit_value c) +
          digit_value d)) 100 =
      sign_of sg * (3600 * number2 a b + 60 * number2 c d) := by
  obtain ⟨a0, a9⟩ := digit_value_range a ha
  obtain ⟨b0, b9⟩ := digit_value_range b hb
  obtain ⟨c0, c9⟩ := digit_value_range c hc
  obtain ⟨d0, d9⟩ := digit_value_range d hd
  have hsign : (if sg = '-' then (-1 : Int) else 1) = 1 ∨
      (if sg = '-' then (-1 : Int) else 1) = -1 := by
    rcases hsg with h | h <;> subst h <;> simp
  have hnum : 10 * (10 * (10 * digit_value a + digit_value b) + digit_value c) +
      digit_value d = 100 * number2 a b + number2 c d := by
    unfold number2
    ring
  rw [hnum, tz_seconds _ (number2 a b) (number2 c d) hsign (by unfold number2; omega)
    (by unfold number2; omega) (by unfold number2; omega)]
  rfl

/-- The parse of a skeleton followed by a signed offset. -/
theorem from_iso_string_skeleton_offset
    (y1 y2 y3 y4 m1 m2 d1 d2 sep h1 h2 n1 n2 sg a b c d : Char) (colon : Bool)
    (hy : is_digit y1 = true ∧ is_digit y2 = true ∧ is_digit y3 = true ∧
      is_digit y4 = true)
    (hm : is_digit m1 = true ∧ is_digit m2 = true)
    (hd : is_digit d1 = true ∧ is_digit d2 = true)
    (hsep : sep = 'T' ∨ sep = ' ')
    (hh : is_digit h1 = true ∧ is_digit h2 = true)
    (hn : is_digit n1 = true ∧ is_digit n2 = true)
    (hsg : sg = '+' ∨ sg = '-')
    (ha : is_digit a = true) (hb : is_digit b = true) (hc : is_digit c = true)
    (hdd : is_digit d = true) :
    from_iso_string ([y1, y2, y3, y4, '-', m1, m2, '-', d1, d2, sep, h1, h2, ':', n1, n2] ++
        offset_text sg a b colon c d) =
      some
        { milliseconds := 0, seconds := 0, minutes := number2 n1 n2,
          hours := number2 h1 h2, day := number2 d1 d2, month := number2 m1 m2,
          year := number4 y1 y2 y3 y4,
          tz := sign_of sg * (3600 * number2 a b + 60 * number2 c d) } := by
  have hsgc : sg ≠ ':' := by rcases hsg with h | h <;> subst h <;> decide
  simp only [offset_text, List.cons_append, List.nil_append]
  rw [from_iso_string_phases _ 16 16 (16 + (if colon = true then 6 else 5)) _ _ _
    (by simp)
    (mask_match_main y1 y2 y3 y4 m1 m2 d1 d2 sep h1 h2 n1 n2 _ hy.1 hy.2.1 hy.2.2.1
      hy.2.2.2 hm.1 hm.2 hd.1 hd.2 hsep hh.1 hh.2 hn.1 hn.2 _)
    (by norm_num)
    (sec_phase_none _ _ _ (by simpa using hsgc))
    (tz_phase_offset _ _ _ sg a b c d colon [] (by simp) hsg ha hb hc hdd)]
  rw [if_neg (by cases colon <;> simp)]
  simp only [List.replicate, List.set_cons_zero, List.set_cons_succ, List.getD_cons_zero,
    List.getD_cons_succ, offset_seconds sg a b c d hsg ha hb hc hdd]
  rfl

/-- The parse of a skeleton and `:SS` followed by a signed offset. -/
theorem from_iso_string_seconds_offset
    (y1 y2 y3 y4 m1 m2 d1 d2 sep h1 h2 n1 n2 s1 s2 sg a b c d : Char) (colon : Bool)
    (hy : is_digit y1 = true ∧ is_digit y2 = true ∧ is_digit y3 = true ∧
      is_digit y4 = true)
    (hm : is_digit m1 = true ∧ is_digit m2 = true)
    (hd : is_digit d1 = true ∧ is_digit d2 = true)
    (hsep : sep = 'T' ∨ sep = ' ')
    (hh : is_digit h1 = true ∧ is_digit h2 = true)
    (hn : is_digit n1 = true ∧ is_digit n2 = true)
    (hs : is_digit s1 = true ∧ is_digit s2 = true)
    (hsg : sg = '+' ∨ sg = '-')
    (ha : is_digit a = true) (hb : is_digit b = true) (hc : is_digit c = true)
    (hdd : is_digit d = true) :
    from_iso_string ([y1, y2, y3, y4, '-', m1, m2, '-', d1, d2, sep, h1, h2, ':', n1, n2] ++
        [':', s1, s2] ++ offset_text sg a b colon c d) =
      some
        { milliseconds := 0, seconds := number2 s1 s2, minutes := number2 n1 n2,
          hours := number2 h1 h2, day := number2 d1 d2, month := number2 m1 m2,
          year := number4 y1 y2 y3 y4,
          tz := sign_of sg * (3600 * number2 a b + 60 * number2 c d) } := by
  have hsgc : sg ≠ '.' := by rcases hsg with h | h <;> subst h <;> decide
  simp only [offset_text, List.cons_append, List.nil_append]
  rw [from_iso_string_phases _ 16 (16 + 3) (16 + 3 + (if colon = true then 6 else 5)) _ _ _
    (by simp)
    (mask_match_main y1 y2 y3 y4 m1 m2 d1 d2 sep h1 h2 n1 n2 _ hy.1 hy.2.1 hy.2.2.1
      hy.2.2.2 hm.1 hm.2 hd.1 hd.2 hsep hh.1 hh.2 hn.1 hn.2 _)
    (by norm_num)
    (sec_phase_seconds _ _ _ s1 s2
      (sg :: a :: b :: ((if colon = true then [':'] else []) ++ [c, d]))
      (by simp) hs.1 hs.2 (by simpa using hsgc))
    (tz_phase_offset _ _ _ sg a b c d colon [] (by simp) hsg ha hb hc hdd)]
  rw [if_neg (by cases colon <;> simp)]
  simp only [List.replicate, List.set_cons_zero, List.set_cons_succ, List.getD_cons_zero,
    List.getD_cons_succ, offset_seconds sg a b c d hsg ha hb hc hdd]
  rfl

/-- The parse of a skeleton and `:SS.mmm` followed by a signed offset. -/
theorem from_iso_string_millis_offset
    (y1 y2 y3 y4 m1 m2 d1 d2 sep h1 h2 n1 n2 s1 s2 f1 f2 f3 sg a b c d : Char)
    (colon : Bool)
    (hy : is_digit y1 = true ∧ is_digit y2 = true ∧ is_digit y3 = true ∧
      is_digit y4 = true)
    (hm : is_digit m1 = true ∧ is_digit m2 = true)
    (hd : is_digit d1 = true ∧ is_digit d2 = true)
    (hsep : sep = 'T' ∨ sep = ' ')
    (hh : is_digit h1 = true ∧ is_digit h2 = true)
    (hn : is_digit n1 = true ∧ is_digit n2 = true)
    (hs : is_digit s1 = true ∧ is_digit s2 = true)
    (hf : is_digit f1 = true ∧ is_digit f2 = true ∧ is_digit f3 = true)
    (hsg : sg = '+' ∨ sg = '-')
    (ha : is_digit a = true) (hb : is_digit b = true) (hc : is_digit c = true)
    (hdd : is_digit d = true) :
    from_iso_string ([y1, y2, y3, y4, '-', m1, m2, '-', d1, d2, sep, h1, h2, ':', n1, n2] ++
        [':', s1, s2, '.', f1, f2, f3] ++ offset_text sg a b colon c d) =
      some
        { milliseconds := number3 f1 f2 f3, seconds := number2 s1 s2,
          minutes := number2 n1 n2,
          hours := number2 h1 h2, day := number2 d1 d2, month := number2 m1 m2,
          year := number4 y1 y2 y3 y4,
          tz := sign_of sg * (3600 * number2 a b + 60 * number2 c d) } := by
  simp only [offset_text, List.cons_append, List.nil_append]
  rw [from_iso_string_phases _ 16 (16 + 7) (16 + 7 + (if colon = true then 6 else 5)) _ _ _
    (by simp)
    (mask_match_main y1 y2 y3 y4 m1 m2 d1 d2 sep h1 h2 n1 n2 _ hy.1 hy.2.1 hy.2.2.1
      hy.2.2.2 hm.1 hm.2 hd.1 hd.2 hsep hh.1 hh.2 hn.1 hn.2 _)
    (by norm_num)
    (sec_phase_full _ _ _ s1 s2 f1 f2 f3
      (sg :: a :: b :: ((if colon = true then [':'] else []) ++ [c, d]))
      (by simp) hs.1 hs.2 hf.1 hf.2.1 hf.2.2)
    (tz_phase_offset _ _ _ sg a b c d colon [] (by simp) hsg ha hb hc hdd)]
  rw [if_neg (by cases colon <;> simp)]
  simp only [List.replicate, List.set_cons_zero, List.set_cons_succ, List.getD_cons_zero,
    List.getD_cons_succ, offset_seconds sg a b c d hsg ha hb hc hdd]
  rfl

/-- The parse of a skeleton and `:SS.mmm` followed by `Z`. -/
theorem from_iso_string_millis_Z
    (y1 y2 y3 y4 m1 m2 d1 d2 sep h1 h2 n1 n2 s1 s2 f1 f2 f3 : Char)
    (hy : is_digit y1 = true ∧ is_digit y2 = true ∧ is_digit y3 = true ∧
      is_digit y4 = true)
    (hm : is_digit m1 = true ∧ is_digit m2 = true)
    (hd : is_digit d1 = true ∧ is_digit d2 = true)
    (hsep : sep = 'T' ∨ sep = ' ')
    (hh : is_digit h1 = true ∧ is_digit h2 = true)
    (hn : is_digit n1 = true ∧ is_digit n2 = true)
    (hs : is_digit s1 = true ∧ is_digit s2 = true)
    (hf : is_digit f1 = true ∧ is_digit f2 = true ∧ is_digit f3 = true) :
    from_iso_string ([y1, y2, y3, y4, '-', m1, m2, '-', d1, d2, sep, h1, h2, ':', n1, n2] ++
        [':', s1, s2, '.', f1, f2, f3] ++ ['Z']) =
      some
        { milliseconds := number3 f1 f2 f3, seconds := number2 s1 s2,
          minutes := number2 n1 n2,
          hours := number2 h1 h2, day := number2 d1 d2, month := number2 m1 m2,
          year := number4 y1 y2 y3 y4, tz := 0 } := by
  simp only [List.cons_append, List.nil_append]
  rw [from_iso_string_phases _ 16 (16 + 7) (16 + 7 + 1) _ _ _
    (by simp)
    (mask_match_main y1 y2 y3 y4 m1 m2 d1 d2 sep h1 h2 n1 n2 _ hy.1 hy.2.1 hy.2.2.1
      hy.2.2.2 hm.1 hm.2 hd.1 hd.2 hsep hh.1 hh.2 hn.1 hn.2 _)
    (by norm_num)
    (sec_phase_full _ _ _ s1 s2 f1 f2 f3 ['Z'] (by simp) hs.1 hs.2 hf.1 hf.2.1 hf.2.2)
    (tz_phase_Z _ _ _ [] (by simp))]
  rw [if_neg (by simp)]
  simp only [List.replicate, List.set_cons_zero, List.set_cons_succ, List.getD_cons_zero,
    List.getD_cons_succ]
  rfl

theorem number2_pad (n : Nat) (h : n < 100) :
    number2 (digit_char (n / 10)) (digit_char n) = (n : Int) := by
  rw [number2, digit_value_digit_char, digit_value_digit_char]
  omega

theorem number3_pad (n : Nat) (h : n < 1000) :
    number3 (digit_char (n / 100)) (digit_char (n / 10)) (digit_char n) = (n : Int) := by
  rw [number3, digit_value_digit_char, digit_value_digit_char, digit_value_digit_char]
  omega

theorem number4_pad (n : Nat) (h : n < 10000) :
    number4 (digit_char (n / 1000)) (digit_char (n / 100)) (digit_char (n / 10))
      (digit_char n) = (n : Int) := by
  rw [number4, digit_value_digit_char, digit_value_digit_char, digit_value_digit_char,
    digit_value_digit_char]
  omega

/-- The parse of the fixed layout of a timestamp in range whose offset is a
whole number of minutes is the timestamp. -/
theorem from_iso_string_layout (d : datetime_t) (h : in_range d) (hmin : d.tz % 60 = 0) :
    from_iso_string (iso_layout d) = some d := by
  obtain ⟨⟨hy0, hy1⟩, ⟨hmo0, hmo1⟩, ⟨hd0, hd1⟩, ⟨hh0, hh1⟩, ⟨hmi0, hmi1⟩, ⟨hse0, hse1⟩,
    ⟨hms0, hms1⟩, htz0, htz1⟩ := h
  obtain ⟨ms, se, mi, ho, da, mo, ye, tz⟩ := d
  simp only at hy0 hy1 hmo0 hmo1 hd0 hd1 hh0 hh1 hmi0 hmi1 hse0 hse1 hms0 hms1 htz0 htz1 hmin
  obtain ⟨ye, rfl⟩ := Int.eq_ofNat_of_zero_le hy0
  obtain ⟨mo, rfl⟩ := Int.eq_ofNat_of_zero_le hmo0
  obtain ⟨da, rfl⟩ := Int.eq_ofNat_of_zero_le hd0
  obtain ⟨ho, rfl⟩ := Int.eq_ofNat_of_zero_le hh0
  obtain ⟨mi, rfl⟩ := Int.eq_ofNat_of_zero_le hmi0
  obtain ⟨se, rfl⟩ := Int.eq_ofNat_of_zero_le hse0
  obtain ⟨ms, rfl⟩ := Int.eq_ofNat_of_zero_le hms0
  have hdig := digit_char_is_digit
  by_cases hz : tz = 0
  · subst hz
    have e : iso_layout ⟨ms, se, mi, ho, da, mo, ye, 0⟩ =
        [digit_char (ye / 1000), digit_char (ye / 100), digit_char (ye / 10), digit_char ye,
          '-', digit_char (mo / 10), digit_char mo, '-', digit_char (da / 10), digit_char da,
          'T', digit_char (ho / 10), digit_char ho, ':', digit_char (mi / 10),
          digit_char mi] ++
        [':', digit_char (se / 10), digit_char se, '.', digit_char (ms / 100),
          digit_char (ms / 10), digit_char ms] ++ ['Z'] := by
      simp [iso_layout, datetime_layout, tz_layout, pad2, pad3, pad4]
    rw [e, from_iso_string_millis_Z _ _ _ _ _ _ _ _ _ _ _ _ _ _ _ _ _ _
      ⟨hdig _, hdig _, hdig _, hdig _⟩ ⟨hdig _, hdig _⟩ ⟨hdig _, hdig _⟩ (Or.inl rfl)
      ⟨hdig _, hdig _⟩ ⟨hdig _, hdig _⟩ ⟨hdig _, hdig _⟩ ⟨hdig _, hdig _, hdig _⟩,
      number4_pad ye (by omega), number2_pad mo (by omega), number2_pad da (by omega),
      number2_pad ho (by omega), number2_pad mi (by omega), number2_pad se (by omega),
      number3_pad ms (by omega)]
  · have e : iso_layout ⟨ms, se, mi, ho, da, mo, ye, tz⟩ =
        [digit_char (ye / 1000), digit_char (ye / 100), digit_char (ye / 10), digit_char ye,
          '-', digit_char (mo / 10), digit_char mo, '-', digit_char (da / 10), digit_char da,
          'T', digit_char (ho / 10), digit_char ho, ':', digit_char (mi / 10),
          digit_char mi] ++
        [':', digit_char (se / 10), digit_char se, '.', digit_char (ms / 100),
          digit_char (ms / 10), digit_char ms] ++
        offset_text (if tz > 0 then '+' else '-')
          (digit_char (tz.natAbs / 3600 / 10)) (digit_char (tz.natAbs / 3600)) true
          (digit_char (tz.natAbs % 3600 / 60 / 10)) (digit_char (tz.natAbs % 3600 / 60)) := by
      simp [iso_layout, datetime_layout, tz_layout, pad2, pad3, pad4, offset_text, hz]
    have hsg : (if tz > 0 then '+' else '-') = '+' ∨ (if tz > 0 then '+' else '-') = '-' := by
      by_cases hp : tz > 0 <;> simp [hp]
    rw [e, from_iso_string_millis_offset _ _ _ _ _ _ _ _ _ _ _ _ _ _ _ _ _ _ _ _ _ _ _ _
      ⟨hdig _, hdig _, hdig _, hdig _⟩ ⟨hdig _, hdig _⟩ ⟨hdig _, hdig _⟩ (Or.inl rfl)
      ⟨hdig _, hdig _⟩ ⟨hdig _, hdig _⟩ ⟨hdig _, hdig _⟩ ⟨hdig _, hdig _, hdig _⟩
      hsg (hdig _) (hdig _) (hdig _) (hdig _),
      number4_pad ye (by omega), number2_pad mo (by omega), number2_pad da (by omega),
      number2_pad ho (by omega), number2_pad mi (by omega), number2_pad se (by omega),
      number3_pad ms (by omega), number2_pad (tz.natAbs / 3600) (by omega),
      number2_pad (tz.natAbs % 3600 / 60) (by omega)]
    have htz : sign_of (if tz > 0 then '+' else '-') *
        (3600 * ((tz.natAbs / 3600 : Nat) : Int) + 60 * ((tz.natAbs % 3600 / 60 : Nat) : Int)) =
        tz := by
      by_cases hp : tz > 0
      · simp only [hp, if_true, sign_of]
        simp only [show ('+' : Char) ≠ '-' by decide, if_false]
        omega
      · simp only [hp, if_false, sign_of, if_true]
        omega
    rw [htz]

/-- The seconds masks on `:SS.m` followed by a character that is not a digit:
five characters are consumed and the fraction is scaled by 100. -/
theorem sec_phase_frac1 (str : List Char) (count : Int) (v : List Int)
    (s1 s2 f1 c : Char) (rest : List Char)
    (hdrop : str.drop count.toNat = ':' :: s1 :: s2 :: '.' :: f1 :: c :: rest)
    (hs1 : is_digit s1 = true) (hs2 : is_digit s2 = true) (hf1 : is_digit f1 = true)
    (hc : is_digit c = false) :
    try_masks str 5 sec_masks count v =
      (count + 5, (v.set 5 (10 * digit_value s1 + digit_value s2)).set 6
        (digit_value f1 * 100)) := by
  rw [sec_masks_eq, try_masks, hdrop, mask_match]
  rw [loop_lit _ _ _ _ _ _ _ _ _ (by simp) (by simp) (by simp) (by simp)]
  rw [loop_hash _ _ _ _ _ _ _ _ _ (by simp) (by simp) (by simpa using hs1)]
  rw [loop_hash _ _ _ _ _ _ _ _ _ (by simp) (by simp) (by simpa using hs2)]
  rw [loop_lit_store _ _ _ _ _ _ _ _ _ (by simp) (by simp) (by simp) (by simp)]
  rw [loop_hash _ _ _ _ _ _ _ _ _ (by simp) (by simp) (by simpa using hf1)]
  rw [loop_d_close _ _ _ _ _ _ _ _ (by simp) (by simp) (by simpa using hc)]
  rw [loop_d_skip _ _ _ _ _ _ _ _ (by simp) (by simp)]
  rw [loop_nil]
  simp

/-- The seconds masks on `:SS.mm` followed by a character that is not a digit:
six characters are consumed and the fraction is scaled by 10. -/
theorem sec_phase_frac2 (str : List Char) (count : Int) (v : List Int)
    (s1 s2 f1 f2 c : Char) (rest : List Char)
    (hdrop : str.drop count.toNat = ':' :: s1 :: s2 :: '.' :: f1 :: f2 :: c :: rest)
    (hs1 : is_digit s1 = true) (hs2 : is_digit s2 = true) (hf1 : is_digit f1 = true)
    (hf2 : is_digit f2 = true) (hc : is_digit c = false) :
    try_masks str 5 sec_masks count v =
      (count + 6, (v.set 5 (10 * digit_value s1 + digit_value s2)).set 6
        ((10 * digit_value f1 + digit_value f2) * 10)) := by
  rw [sec_masks_eq, try_masks, hdrop, mask_match]
  rw [loop_lit _ _ _ _ _ _ _ _ _ (by simp) (by simp) (by simp) (by simp)]
  rw [loop_hash _ _ _ _ _ _ _ _ _ (by simp) (by simp) (by simpa using hs1)]
  rw [loop_hash _ _ _ _ _ _ _ _ _ (by simp) (by simp) (by simpa using hs2)]
  rw [loop_lit_store _ _ _ _ _ _ _ _ _ (by simp) (by simp) (by simp) (by simp)]
  rw [loop_hash _ _ _ _ _ _ _ _ _ (by simp) (by simp) (by simpa using hf1)]
  rw [loop_d_digit _ _ _ _ _ _ _ _ (by simp) (by simp) (by simpa using hf2)]
  rw [loop_d_close _ _ _ _ _ _ _ _ (by simp) (by simp) (by simpa using hc)]
  rw [loop_nil]
  simp

/-- The seconds masks on `:SS.m` or `:SS.mm` at the end of the input: the first
mask runs out of input after it has stored the seconds, its failure exit
clears the cell of the milliseconds, and the second mask consumes `:SS`. -/
theorem sec_phase_frac_end (str : List Char) (count : Int) (v : List Int)
    (s1 s2 f1 : Char) (fs : List Char)
    (hdrop : str.drop count.toNat = ':' :: s1 :: s2 :: '.' :: f1 :: fs)
    (hs1 : is_digit s1 = true) (hs2 : is_digit s2 = true) (hf1 : is_digit f1 = true)
    (hfs : fs = [] ∨ ∃ f2, fs = [f2] ∧ is_digit f2 = true) :
    try_masks str 5 sec_masks count v =
      (count + 3, ((v.set 5 (10 * digit_value s1 + digit_value s2)).set 6 0).set 5
        (10 * digit_value s1 + digit_value s2)) := by
  have hfirst : mask_match (':' :: s1 :: s2 :: '.' :: f1 :: fs)
      [':','#','#','.','#','d','d'] v 5 =
      (-1, (v.set 5 (10 * digit_value s1 + digit_value s2)).set 6 0) := by
    rw [mask_match]
    rw [loop_lit _ _ _ _ _ _ _ _ _ (by simp) (by simp) (by simp) (by simp)]
    rw [loop_hash _ _ _ _ _ _ _ _ _ (by simp) (by simp) (by simpa using hs1)]
    rw [loop_hash _ _ _ _ _ _ _ _ _ (by simp) (by simp) (by simpa using hs2)]
    rw [loop_lit_store _ _ _ _ _ _ _ _ _ (by simp) (by simp) (by simp) (by simp)]
    rw [loop_hash _ _ _ _ _ _ _ _ _ (by simp) (by simp) (by simpa using hf1)]
    rcases hfs with h | ⟨f2, h, hf2⟩
    · subst h
      rw [loop_end _ _ _ _ _ (by simp)]
      simp [clear_on_failure, List.range, List.range.loop]
    · subst h
      rw [loop_d_digit _ _ _ _ _ _ _ _ (by simp) (by simp) (by simpa using hf2)]
      rw [loop_end _ _ _ _ _ (by simp)]
      simp [clear_on_failure, List.range, List.range.loop]
  rw [sec_masks_eq, try_masks, hdrop, hfirst]
  simp only [ge_iff_le, Int.reduceNeg, Int.reduceLE, if_false]
  rw [try_masks, hdrop, mask_match]
  rw [loop_lit _ _ _ _ _ _ _ _ _ (by simp) (by simp) (by simp) (by simp)]
  rw [loop_hash _ _ _ _ _ _ _ _ _ (by simp) (by simp) (by simpa using hs1)]
  rw [loop_hash _ _ _ _ _ _ _ _ _ (by simp) (by simp) (by simpa using hs2)]
  rw [loop_nil]
  simp

/-- The timezone masks on a rest that starts with neither a sign nor `Z`, or is
empty: both masks fail, nothing is consumed or stored. -/
theorem tz_phase_none (str : List Char) (count : Int) (v : List Int)
    (hdrop : ∀ c, (str.drop count.toNat).head? = some c → c ≠ '+' ∧ c ≠ '-' ∧ c ≠ 'Z') :
    try_masks str 7 tz_masks count v = (count, v) := by
  have hfail1 : ∀ mask : List Char,
      mask_match (str.drop count.toNat) ('+' :: mask) v 7 = (-1, v) := by
    intro mask
    rw [mask_match]
    cases htail : str.drop count.toNat with
    | nil =>
      rw [loop_end _ _ _ _ _ (by simp)]
      simp [clear_on_failure_zero]
    | cons c cs =>
      have hc := hdrop c (by simp [htail])
      rw [loop_sign_fail _ _ _ _ (by simp) (by simp) (by simpa using ⟨hc.1, hc.2.1⟩)]
      simp [clear_on_failure_zero]
  have hfail2 : ∀ mask : List Char,
      mask_match (str.drop count.toNat) ('Z' :: mask) v 7 = (-1, v) := by
    intro mask
    rw [mask_match]
    cases htail : str.drop count.toNat with
    | nil =>
      rw [loop_end _ _ _ _ _ (by simp)]
      simp [clear_on_failure_zero]
    | cons c cs =>
      have hc := hdrop c (by simp [htail])
      rw [loop_lit_fail _ _ _ _ _ (by simp) (by simp) (by simp) (by simpa using hc.2.2)]
      simp [clear_on_failure_zero]
  rw [tz_masks_eq, try_masks, hfail1]
  simp only [ge_iff_le, Int.reduceNeg, Int.reduceLE, if_false]
  rw [try_masks, hfail2]
  simp only [ge_iff_le, Int.reduceNeg, Int.reduceLE, if_false]
  rw [try_masks]

theorem digit_value_zero : digit_value '0' = 0 := by decide

/-- The seconds masks consume a well-formed seconds part that is followed
suitably, and store its seconds and milliseconds. -/
theorem sec_part_phase (str : List Char) (count : Int) (v : List Int) (sp : SecPart)
    (rest : List Char) (hwf : sp.wf) (hdrop : str.drop count.toNat = sp.text ++ rest)
    (hfollow : sp.follow rest) :
    try_masks str 5 sec_masks count v = (count + (sp.text.length : Int), sp.store v) := by
  cases sp with
  | absent =>
    have h : (str.drop count.toNat).head? ≠ some ':' := by
      rw [hdrop]; exact hfollow
    rw [sec_phase_none str count v h]
    simp [SecPart.text, SecPart.store]
  | secs s1 s2 =>
    rw [sec_phase_seconds str count v s1 s2 rest hdrop hwf.1 hwf.2 hfollow]
    simp [SecPart.text, SecPart.store, SecPart.seconds, number2]
  | frac1 s1 s2 f1 =>
    obtain ⟨c, tl, rfl, hc⟩ := hfollow
    rw [sec_phase_frac1 str count v s1 s2 f1 c tl hdrop hwf.1 hwf.2.1 hwf.2.2 hc]
    simp [SecPart.text, SecPart.store, SecPart.seconds, SecPart.millis, number2, number3,
      digit_value_zero]
    ring_nf
  | frac2 s1 s2 f1 f2 =>
    obtain ⟨c, tl, rfl, hc⟩ := hfollow
    rw [sec_phase_frac2 str count v s1 s2 f1 f2 c tl hdrop hwf.1 hwf.2.1 hwf.2.2.1
      hwf.2.2.2 hc]
    simp [SecPart.text, SecPart.store, SecPart.seconds, SecPart.millis, number2, number3,
      digit_value_zero]
    ring_nf
  | frac3 s1 s2 f1 f2 f3 =>
    rw [sec_phase_full str count v s1 s2 f1 f2 f3 rest hdrop hwf.1 hwf.2.1 hwf.2.2.1
      hwf.2.2.2.1 hwf.2.2.2.2]
    simp [SecPart.text, SecPart.store, SecPart.seconds, SecPart.millis, number2, number3]

/-- The timezone masks consume a well-formed designator and store the signed
number of an offset; they consume nothing at the end of the input. -/
theorem tz_part_phase (str : List Char) (count : Int) (v : List Int) (tp : TzPart)
    (rest : List Char) (hwf : tp.wf) (hdrop : str.drop count.toNat = tp.text ++ rest)
    (hrest : tp = TzPart.absent → rest = []) :
    try_masks str 7 tz_masks count v = (count + (tp.text.length : Int), tp.store v) := by
  cases tp with
  | absent =>
    have hr := hrest rfl
    subst hr
    have h : ∀ c, (str.drop count.toNat).head? = some c → c ≠ '+' ∧ c ≠ '-' ∧ c ≠ 'Z' := by
      intro c hc
      rw [hdrop] at hc
      simp [TzPart.text] at hc
    rw [tz_phase_none str count v h]
    simp [TzPart.text, TzPart.store]
  | zulu =>
    rw [tz_phase_Z str count v rest hdrop]
    simp [TzPart.text, TzPart.store]
  | offset sg a b colon c d =>
    obtain ⟨hsg, ha, hb, hc, hd⟩ := hwf
    rw [tz_phase_offset str count v sg a b c d colon rest
      (by rw [hdrop]; simp [TzPart.text, offset_text]) hsg ha hb hc hd]
    cases colon <;> simp [TzPart.text, TzPart.store, offset_text, sign_of, number4]

/-- A designator that is not absent starts with a character that is no digit,
no colon and no dot, so every seconds part may be followed by it. -/
theorem follow_designator (sp : SecPart) (tp : TzPart) (x : List Char) (hwf : tp.wf)
    (hne : tp ≠ TzPart.absent) : sp.follow (tp.text ++ x) := by
  have hZ : is_digit 'Z' = false := by decide
  have hplus : is_digit '+' = false := by decide
  have hminus : is_digit '-' = false := by decide
  cases tp with
  | absent => exact absurd rfl hne
  | zulu =>
    cases sp <;> simp [SecPart.follow, TzPart.text, hZ]
  | offset sg a b colon c d =>
    obtain ⟨hsg, -⟩ := hwf
    rcases hsg with h | h <;> subst h <;>
      cases sp <;> simp [SecPart.follow, TzPart.text, offset_text, hplus, hminus]

/-- At the end of the input every seconds part but a fraction of one or two
digits is followed suitably. -/
theorem follow_end (sp : SecPart) (h : sp.short = false) : sp.follow [] := by
  cases sp <;> simp [SecPart.follow, SecPart.short] at h ⊢

/-- The seconds of the signed number `HHMM` stored by an offset. -/
theorem tz_of_store (tp : TzPart) (hwf : tp.wf) (v : List Int) (hv : v.getD 7 0 = 0)
    (hlen : 7 < v.length) :
    3600 * Int.tdiv ((tp.store v).getD 7 0) 100 + 60 * Int.tmod ((tp.store v).getD 7 0) 100 =
      tp.tz := by
  cases tp with
  | absent =>
    simp only [TzPart.store, TzPart.tz, hv]
    decide
  | zulu =>
    simp only [TzPart.store, TzPart.tz, hv]
    decide
  | offset sg a b colon c d =>
    obtain ⟨hsg, ha, hb, hc, hd⟩ := hwf
    have h := offset_seconds sg a b c d hsg ha hb hc hd
    simp only [TzPart.store, TzPart.tz]
    rw [List.getD_eq_getElem _ _ (by simpa using hlen)]
    simp only [List.getElem_set_self]
    rw [← h, sign_of, number4]

/-- The parse of an input made of a well-formed skeleton, seconds part and
timezone designator, and a rest `x`: the three phases consume the three parts,
and the input is accepted exactly when there is no rest. -/
theorem from_iso_string_parts (k : Skeleton) (sp : SecPart) (tp : TzPart)
    (x : List Char) (hk : k.wf) (hsp : sp.wf) (htp : tp.wf)
    (hfollow : sp.follow (tp.text ++ x)) (hrest : tp = TzPart.absent → x = []) :
    from_iso_string (k.text ++ sp.text ++ tp.text ++ x) =
      if x = [] then some (written k sp tp) else none := by
  obtain ⟨hy, hm, hd, hsep, hh, hn⟩ := hk
  have hstr : k.text ++ sp.text ++ tp.text ++ x =
      k.y1 :: k.y2 :: k.y3 :: k.y4 :: '-' :: k.mo1 :: k.mo2 :: '-' :: k.d1 :: k.d2 ::
        k.sep :: k.h1 :: k.h2 :: ':' :: k.mi1 :: k.mi2 :: (sp.text ++ (tp.text ++ x)) := by
    simp [Skeleton.text]
  have hlen : (k.text ++ sp.text ++ tp.text ++ x).length =
      16 + sp.text.length + tp.text.length + x.length := by
    simp [Skeleton.text]
    omega
  have hdrop1 : (k.text ++ sp.text ++ tp.text ++ x).drop (16 : Int).toNat =
      sp.text ++ (tp.text ++ x) := by
    rw [hstr]
    simp
  have hdrop2 : (k.text ++ sp.text ++ tp.text ++ x).drop
      ((16 : Int) + (sp.text.length : Int)).toNat = tp.text ++ x := by
    have e : ((16 : Int) + (sp.text.length : Int)).toNat = 16 + sp.text.length := by omega
    rw [e, hstr, ← List.drop_drop]
    simp
  have h0 := mask_match_main k.y1 k.y2 k.y3 k.y4 k.mo1 k.mo2 k.d1 k.d2 k.sep k.h1 k.h2
    k.mi1 k.mi2 (sp.text ++ (tp.text ++ x)) hy.1 hy.2.1 hy.2.2.1 hy.2.2.2 hm.1 hm.2 hd.1
    hd.2 hsep hh.1 hh.2 hn.1 hn.2 (List.replicate 8 0)
  rw [← hstr] at h0
  rw [from_iso_string_phases _ 16 _ _ _ _ _ (by rw [hlen]; omega) h0 (by norm_num)
    (sec_part_phase _ _ _ sp (tp.text ++ x) hsp hdrop1 hfollow)
    (tz_part_phase _ _ _ tp x htp hdrop2 hrest)]
  by_cases hx : x = []
  · subst hx
    rw [if_neg (by rw [hlen]; simp), if_pos rfl]
    rw [tz_of_store tp htp _ (by cases sp <;> simp [SecPart.store])
      (by cases sp <;> simp [SecPart.store])]
    cases sp <;> cases tp <;>
      simp [written, SecPart.store, TzPart.store, SecPart.seconds, SecPart.millis,
        number2, number4]
  · have hpos : 0 < x.length := List.length_pos.mpr hx
    rw [if_pos (by rw [hlen]; push_cast; omega), if_neg hx]

/-- A fraction of one or two digits at the end of the input is rejected: the
seconds masks consume `:SS` only, and the timezone masks fail on the dot. -/
theorem from_iso_string_short_end (k : Skeleton) (s1 s2 f1 : Char) (fs : List Char)
    (hk : k.wf) (hs1 : is_digit s1 = true) (hs2 : is_digit s2 = true)
    (hf1 : is_digit f1 = true) (hfs : fs = [] ∨ ∃ f2, fs = [f2] ∧ is_digit f2 = true) :
    from_iso_string (k.text ++ ':' :: s1 :: s2 :: '.' :: f1 :: fs) = none := by
  obtain ⟨hy, hm, hd, hsep, hh, hn⟩ := hk
  have hstr : k.text ++ ':' :: s1 :: s2 :: '.' :: f1 :: fs =
      k.y1 :: k.y2 :: k.y3 :: k.y4 :: '-' :: k.mo1 :: k.mo2 :: '-' :: k.d1 :: k.d2 ::
        k.sep :: k.h1 :: k.h2 :: ':' :: k.mi1 :: k.mi2 ::
        (':' :: s1 :: s2 :: '.' :: f1 :: fs) := by
    simp [Skeleton.text]
  have h0 := mask_match_main k.y1 k.y2 k.y3 k.y4 k.mo1 k.mo2 k.d1 k.d2 k.sep k.h1 k.h2
    k.mi1 k.mi2 (':' :: s1 :: s2 :: '.' :: f1 :: fs) hy.1 hy.2.1 hy.2.2.1 hy.2.2.2 hm.1
    hm.2 hd.1 hd.2 hsep hh.1 hh.2 hn.1 hn.2 (List.replicate 8 0)
  rw [hstr, from_iso_string_phases _ 16 (16 + 3) (16 + 3) _ _ _ (by simp) h0 (by norm_num)
    (sec_phase_frac_end _ _ _ s1 s2 f1 fs (by simp) hs1 hs2 hf1 hfs)
    (tz_phase_none _ _ _ (by intro c hc; simp at hc; subst hc; decide))]
  rw [if_pos (by simp; omega)]

/-! ### What a successful match says about the input -/

theorem mask_switch_simple (off : Nat) (m nx c : Char) (st : MatchState)
    (hm : simple_mask m = true) :
    (mask_switch off m nx c st).k = st.k ∧
    (mask_switch off m nx c st).ok = (st.ok && fits m c) := by
  simp only [simple_mask, Bool.or_eq_true, decide_eq_true_eq] at hm
  rcases hm with ((((h | h) | h) | h) | h) | h <;> subst h <;>
    simp only [mask_switch, fits] <;> split_ifs <;>
    first
      | (simp_all; done)
      | (simp_all; tauto)

/-- One round of the loop on a simple mask character: the character of the
input fits and is consumed, or the match fails. -/
theorem loop_cons_simple (off : Nat) (str rest : List Char) (m : Char) (st : MatchState)
    (hm : simple_mask m = true) (hok : st.ok = true) (h0 : 0 ≤ st.k) :
    (st.k.toNat < str.length ∧ fits m (str.getD st.k.toNat '\x00') = true ∧
      ∃ st', mask_match_loop off str (m :: rest) st = mask_match_loop off str rest st' ∧
        st'.ok = true ∧ st'.k = st.k + 1) ∨
    (mask_match_loop off str (m :: rest) st).ok = false := by
  by_cases hg : (str.length : Int) ≤ st.k
  · right
    rw [loop_end _ _ _ _ _ hg]
  · have hk : st.k.toNat < str.length := by omega
    have hmc : m ≠ 'c' := by
      intro h
      subst h
      simp [simple_mask] at hm
    obtain ⟨hk1, hok1⟩ := mask_switch_simple off m (rest.headD '\x00')
      (str.getD st.k.toNat '\x00') st hm
    rw [hok, Bool.true_and] at hok1
    rw [mask_match_loop]
    simp only [ge_iff_le, hg, if_false, hmc]
    generalize mask_switch off m (rest.headD '\x00') (str.getD st.k.toNat '\x00') st = st1
      at hk1 hok1 ⊢
    by_cases hf : fits m (str.getD st.k.toNat '\x00') = true
    · left
      rw [hf] at hok1
      refine ⟨hk, hf, ?_⟩
      simp only [hok1, Bool.not_true, Bool.false_eq_true, if_false]
      refine ⟨_, rfl, ?_, ?_⟩
      · split_ifs <;> simp only [store_number, hok1]
      · split_ifs <;> simp only [store_number, hk1]
    · right
      have hf' : fits m (str.getD st.k.toNat '\x00') = false := by simpa using hf
      rw [hf'] at hok1
      simp only [hok1, Bool.not_false, if_true]

theorem drop_eq_getD_cons (str : List Char) (n : Nat) (h : n < str.length) :
    str.drop n = str.getD n '\x00' :: str.drop (n + 1) := by
  rw [List.getD_eq_getElem _ _ h]
  exact List.drop_eq_getElem_cons h

theorem has_shape_cons_fits (m c : Char) (ms cs : List Char) :
    has_shape (m :: ms) (c :: cs) = (fits m c && has_shape ms cs) := by
  rw [has_shape, fits]

/-- A successful match of a run of simple mask characters: the input has the
shape of the run from the current index on, and the index advances by the
length of the run. -/
theorem loop_simple_inv (off : Nat) (str : List Char) :
    ∀ (ms rest : List Char) (st : MatchState),
    (∀ m ∈ ms, simple_mask m = true) → st.ok = true → 0 ≤ st.k →
    (mask_match_loop off str (ms ++ rest) st).ok = true →
    ∃ (st' : MatchState) (seg tail : List Char),
      mask_match_loop off str (ms ++ rest) st = mask_match_loop off str rest st' ∧
      st'.ok = true ∧ st'.k = st.k + (ms.length : Int) ∧
      str.drop st.k.toNat = seg ++ tail ∧ has_shape ms seg = true := by
  intro ms
  induction ms with
  | nil =>
    intro rest st _ hok _ _
    exact ⟨st, [], str.drop st.k.toNat, rfl, hok, by simp, rfl, rfl⟩
  | cons m ms ih =>
    intro rest st hs hok h0 h
    rw [List.cons_append] at h ⊢
    rcases loop_cons_simple off str (ms ++ rest) m st (hs m (List.mem_cons_self _ _)) hok h0
      with ⟨hk, hf, st1, e1, ok1, k1⟩ | hfail
    · rw [e1] at h ⊢
      obtain ⟨st', seg, tail, e2, ok2, k2, hd, hsh⟩ := ih rest st1
        (fun m' hm' => hs m' (List.mem_cons_of_mem _ hm')) ok1 (by omega) h
      refine ⟨st', str.getD st.k.toNat '\x00' :: seg, tail, e2, ok2, ?_, ?_, ?_⟩
      · rw [k2, k1, List.length_cons]
        push_cast
        ring
      · rw [drop_eq_getD_cons str _ hk, List.cons_append]
        congr 1
        rw [← hd, k1]
        congr 1
        omega
      · rw [has_shape_cons_fits, hf, hsh]
        rfl
    · rw [hfail] at h
      exact absurd h (by simp)

theorem mask_switch_d (off : Nat) (nx c : Char) (st : MatchState) :
    (mask_switch off 'd' nx c st).ok = st.ok ∧
    ((mask_switch off 'd' nx c st).k = st.k - 1 ∨
      ((mask_switch off 'd' nx c st).k = st.k ∧ is_digit c = true)) := by
  simp only [mask_switch, show ('d' : Char) ≠ '#' by decide, if_false, if_true]
  split_ifs <;> simp_all [store_number]

/-- One round of the loop on the mask character `d`: the index stays, or a
digit is consumed, or the match fails for lack of input. -/
theorem loop_cons_d (off : Nat) (str rest : List Char) (st : MatchState)
    (hok : st.ok = true) (h0 : 0 ≤ st.k) :
    (st.k.toNat < str.length ∧
      ∃ st', mask_match_loop off str ('d' :: rest) st = mask_match_loop off str rest st' ∧
        st'.ok = true ∧
        (st'.k = st.k ∨
          (st'.k = st.k + 1 ∧ is_digit (str.getD st.k.toNat '\x00') = true))) ∨
    (mask_match_loop off str ('d' :: rest) st).ok = false := by
  by_cases hg : (str.length : Int) ≤ st.k
  · right
    rw [loop_end _ _ _ _ _ hg]
  · have hk : st.k.toNat < str.length := by omega
    left
    refine ⟨hk, ?_⟩
    obtain ⟨hok1, hk1⟩ := mask_switch_d off (rest.headD '\x00')
      (str.getD st.k.toNat '\x00') st
    rw [hok] at hok1
    rw [mask_match_loop]
    simp only [ge_iff_le, hg, if_false, show ('d' : Char) ≠ 'c' by decide, ne_eq,
      not_true_eq_false, and_false]
    generalize mask_switch off 'd' (rest.headD '\x00') (str.getD st.k.toNat '\x00') st = st1
      at hk1 hok1 ⊢
    simp only [hok1, Bool.not_true, Bool.false_eq_true, if_false]
    refine ⟨_, rfl, rfl, ?_⟩
    rcases hk1 with h | ⟨h, hd⟩
    · left
      simp only [h]
      omega
    · right
      exact ⟨by simp only [h], hd⟩

/-- One round of the loop on the mask character `c`: a colon is consumed, or
the index stays before another character, or the match fails for lack of
input. -/
theorem loop_cons_c (off : Nat) (str rest : List Char) (st : MatchState)
    (hok : st.ok = true) (h0 : 0 ≤ st.k) :
    (st.k.toNat < str.length ∧
      ∃ st', mask_match_loop off str ('c' :: rest) st = mask_match_loop off str rest st' ∧
        st'.ok = true ∧
        ((st'.k = st.k ∧ str.getD st.k.toNat '\x00' ≠ ':') ∨
          (st'.k = st.k + 1 ∧ str.getD st.k.toNat '\x00' = ':'))) ∨
    (mask_match_loop off str ('c' :: rest) st).ok = false := by
  by_cases hg : (str.length : Int) ≤ st.k
  · right
    rw [loop_end _ _ _ _ _ hg]
  · have hk : st.k.toNat < str.length := by omega
    left
    refine ⟨hk, ?_⟩
    by_cases hc : str.getD st.k.toNat '\x00' = ':'
    · rw [loop_c_colon off str rest st h0 hk hc]
      exact ⟨_, rfl, hok, Or.inr ⟨rfl, hc⟩⟩
    · rw [loop_c_other off str rest st h0 hk hc]
      exact ⟨_, rfl, hok, Or.inl ⟨rfl, hc⟩⟩

/-- One round of the loop on the mask character `+`: a sign is consumed, or
the match fails. -/
theorem loop_cons_sign (off : Nat) (str rest : List Char) (st : MatchState)
    (hok : st.ok = true) (h0 : 0 ≤ st.k) :
    (st.k.toNat < str.length ∧
      (str.getD st.k.toNat '\x00' = '+' ∨ str.getD st.k.toNat '\x00' = '-') ∧
      ∃ st', mask_match_loop off str ('+' :: rest) st = mask_match_loop off str rest st' ∧
        st'.ok = true ∧ st'.k = st.k + 1) ∨
    (mask_match_loop off str ('+' :: rest) st).ok = false := by
  by_cases hg : (str.length : Int) ≤ st.k
  · right
    rw [loop_end _ _ _ _ _ hg]
  · have hk : st.k.toNat < str.length := by omega
    by_cases hc : str.getD st.k.toNat '\x00' = '+' ∨ str.getD st.k.toNat '\x00' = '-'
    · left
      refine ⟨hk, hc, ?_⟩
      rw [mask_match_loop]
      simp only [ge_iff_le, hg, if_false, show ('+' : Char) ≠ 'c' by decide]
      generalize str.getD st.k.toNat '\x00' = c at hc
      have hsw : (mask_switch off '+' (rest.headD '\x00') c st).ok = true ∧
          (mask_switch off '+' (rest.headD '\x00') c st).k = st.k := by
        rcases hc with h | h <;> subst h <;> simp [mask_switch, hok]
      generalize mask_switch off '+' (rest.headD '\x00') c st = st1 at hsw ⊢
      simp only [hsw.1, Bool.not_true, Bool.false_eq_true, if_false]
      refine ⟨_, rfl, ?_, ?_⟩
      · split_ifs <;> simp only [store_number, hsw.1]
      · split_ifs <;> simp only [store_number, hsw.2]
    · right
      rw [loop_sign_fail off str rest st h0 hk (by
        constructor
        · intro h; exact hc (Or.inl h)
        · intro h; exact hc (Or.inr h))]

/-- The count returned by `mask_match` is the final index of a successful
loop. -/
theorem mask_match_fst (str mask : List Char) (v : List Int) (off : Nat)
    (h : 0 ≤ (mask_match str mask v off).1) :
    (mask_match_loop off str mask
      { values := v, value_idx := 0, sign := 1, reading_number := false, number := 0,
        ok := true, k := 0 }).ok = true ∧
    (mask_match str mask v off).1 =
      (mask_match_loop off str mask
        { values := v, value_idx := 0, sign := 1, reading_number := false, number := 0,
          ok := true, k := 0 }).k := by
  rw [mask_match] at h ⊢
  generalize mask_match_loop off str mask
    { values := v, value_idx := 0, sign := 1, reading_number := false, number := 0,
      ok := true, k := 0 } = st at h ⊢
  cases hok : st.ok
  · simp [hok] at h
  · simp only [Bool.not_true, Bool.false_eq_true, if_false, true_and]
    split_ifs <;> rfl

/-- A successful match of the skeleton mask consumes sixteen characters that
form a well-formed skeleton. -/
theorem mask_match_main_inv (str : List Char) (v : List Int)
    (h : 0 ≤ (mask_match str main_mask v 0).1) :
    (mask_match str main_mask v 0).1 = 16 ∧
    ∃ (k : Skeleton) (rest : List Char), k.wf ∧ str = k.text ++ rest := by
  obtain ⟨hok, hk⟩ := mask_match_fst str main_mask v 0 h
  rw [hk]
  have hs : ∀ m ∈ main_mask, simple_mask m = true := by decide
  obtain ⟨st', seg, tail, e, -, k', hd, hsh⟩ := loop_simple_inv 0 str main_mask [] _ hs rfl
    (le_refl _) (by rw [List.append_nil]; exact hok)
  rw [List.append_nil, loop_nil] at e
  rw [e, k']
  refine ⟨by simp [main_mask_eq], ?_⟩
  obtain ⟨y1, y2, y3, y4, m1, m2, d1, d2, sep, h1, h2, n1, n2, rfl, hy, hm, hdd, hsep,
    hh, hn⟩ := shape_skeleton hsh
  refine ⟨⟨y1, y2, y3, y4, m1, m2, d1, d2, sep, h1, h2, n1, n2⟩, tail,
    ⟨hy, hm, hdd, hsep, hh, hn⟩, ?_⟩
  simpa [Skeleton.text] using hd

/-- A successful match of the mask `:##` consumes `:SS`. -/
theorem mask_match_secs_inv (str : List Char) (v : List Int) (off : Nat)
    (h : 0 ≤ (mask_match str [':', '#', '#'] v off).1) :
    ∃ (sp : SecPart) (rest : List Char), sp.wf ∧ str = sp.text ++ rest ∧
      (mask_match str [':', '#', '#'] v off).1 = (sp.text.length : Int) := by
  obtain ⟨hok, hk⟩ := mask_match_fst str _ v off h
  rw [hk]
  have hs : ∀ m ∈ [':', '#', '#'], simple_mask m = true := by decide
  obtain ⟨st', seg, tail, e, -, k', hd, hsh⟩ := loop_simple_inv off str [':', '#', '#'] [] _
    hs rfl (le_refl _) (by rw [List.append_nil]; exact hok)
  rw [List.append_nil, loop_nil] at e
  rw [e, k']
  obtain ⟨s1, s2, rfl, hs1, hs2⟩ := shape_seconds hsh
  exact ⟨SecPart.secs s1 s2, tail, ⟨hs1, hs2⟩, by simpa [SecPart.text] using hd,
    by simp [SecPart.text]⟩

/-- A successful match of the mask `Z` consumes `Z`. -/
theorem mask_match_Z_inv (str : List Char) (v : List Int) (off : Nat)
    (h : 0 ≤ (mask_match str ['Z'] v off).1) :
    ∃ rest : List Char, str = 'Z' :: rest ∧ (mask_match str ['Z'] v off).1 = 1 := by
  obtain ⟨hok, hk⟩ := mask_match_fst str _ v off h
  rw [hk]
  have hs : ∀ m ∈ ['Z'], simple_mask m = true := by decide
  obtain ⟨st', seg, tail, e, -, k', hd, hsh⟩ := loop_simple_inv off str ['Z'] [] _
    hs rfl (le_refl _) (by rw [List.append_nil]; exact hok)
  rw [List.append_nil, loop_nil] at e
  rw [e, k']
  obtain ⟨c, l, rfl, e1, hl⟩ := has_shape_cons_elim hsh
  have hnil := has_shape_nil_elim hl
  subst hnil
  have hc : c = 'Z' := by simpa using e1
  subst hc
  exact ⟨tail, by simpa using hd, by simp⟩

/-- A text of the shape `##`. -/
theorem shape_two_digits {p : List Char} (h : has_shape ['#', '#'] p = true) :
    ∃ a b : Char, p = [a, b] ∧ is_digit a = true ∧ is_digit b = true := by
  obtain ⟨a, l, rfl, e1, h⟩ := has_shape_cons_elim h
  obtain ⟨b, l, rfl, e2, h⟩ := has_shape_cons_elim h
  have hl := has_shape_nil_elim h
  subst hl
  exact ⟨a, b, rfl, by simpa using e1, by simpa using e2⟩

/-- A text of the shape `:##.#`. -/
theorem shape_frac1 {p : List Char} (h : has_shape [':', '#', '#', '.', '#'] p = true) :
    ∃ s1 s2 f1 : Char, p = [':', s1, s2, '.', f1] ∧
      is_digit s1 = true ∧ is_digit s2 = true ∧ is_digit f1 = true := by
  obtain ⟨q1, l, rfl, e1, h⟩ := has_shape_cons_elim h
  obtain ⟨s1, l, rfl, e2, h⟩ := has_shape_cons_elim h
  obtain ⟨s2, l, rfl, e3, h⟩ := has_shape_cons_elim h
  obtain ⟨q2, l, rfl, e4, h⟩ := has_shape_cons_elim h
  obtain ⟨f1, l, rfl, e5, h⟩ := has_shape_cons_elim h
  have hl := has_shape_nil_elim h
  subst hl
  have e1' : q1 = ':' := by simpa using e1
  have e4' : q2 = '.' := by simpa using e4
  subst e1' e4'
  exact ⟨s1, s2, f1, rfl, by simpa using e2, by simpa using e3, by simpa using e5⟩

/-- A successful match of the mask `:##.#dd` consumes `:SS.` and a fraction of
one, two or three digits. -/
theorem mask_match_frac_inv (str : List Char) (v : List Int) (off : Nat)
    (h : 0 ≤ (mask_match str [':', '#', '#', '.', '#', 'd', 'd'] v off).1) :
    ∃ (sp : SecPart) (rest : List Char), sp.wf ∧ str = sp.text ++ rest ∧
      (mask_match str [':', '#', '#', '.', '#', 'd', 'd'] v off).1 =
        (sp.text.length : Int) := by
  obtain ⟨hok, hk⟩ := mask_match_fst str _ v off h
  rw [hk]
  have hs : ∀ m ∈ [':', '#', '#', '.', '#'], simple_mask m = true := by decide
  obtain ⟨st1, seg, tail, e1, ok1, k1, hd, hsh⟩ := loop_simple_inv off str
    [':', '#', '#', '.', '#'] ['d', 'd'] _ hs rfl (le_refl _) hok
  have k1' : st1.k = 5 := by rw [k1]; simp
  obtain ⟨s1, s2, f1, rfl, hs1, hs2, hf1⟩ := shape_frac1 hsh
  have hstr : str = ':' :: s1 :: s2 :: '.' :: f1 :: tail := by simpa using hd
  have e1' : mask_match_loop off str [':', '#', '#', '.', '#', 'd', 'd']
      { values := v, value_idx := 0, sign := 1, reading_number := false, number := 0,
        ok := true, k := 0 } = mask_match_loop off str ['d', 'd'] st1 := e1
  rw [e1'] at hok ⊢
  rcases loop_cons_d off str ['d'] st1 ok1 (by omega) with ⟨hk5, st2, e2, ok2, kk2⟩ | hfail
  swap
  · rw [hfail] at hok; exact absurd hok (by simp)
  rw [e2] at hok ⊢
  rw [k1'] at hk5 kk2
  have h5 : (5 : Int).toNat = 5 := rfl
  rw [h5] at hk5 kk2
  have htail5 : tail = str.getD 5 '\x00' :: str.drop 6 := by
    have := drop_eq_getD_cons str 5 hk5
    rw [← this, hstr]
    simp
  rcases loop_cons_d off str [] st2 ok2 (by rcases kk2 with h | ⟨h, -⟩ <;> omega)
    with ⟨hk6, st3, e3, ok3, kk3⟩ | hfail
  swap
  · rw [hfail] at hok; exact absurd hok (by simp)
  rw [e3, loop_nil]
  rcases kk2 with k2 | ⟨k2, hd5⟩
  · rw [k2] at kk3 hk6
    rw [h5] at kk3 hk6
    rcases kk3 with k3 | ⟨k3, hd5⟩
    · exact ⟨SecPart.frac1 s1 s2 f1, tail, ⟨hs1, hs2, hf1⟩, hstr, by rw [k3]; rfl⟩
    · refine ⟨SecPart.frac2 s1 s2 f1 (str.getD 5 '\x00'), str.drop 6,
        ⟨hs1, hs2, hf1, hd5⟩, ?_, by rw [k3]; rfl⟩
      rw [SecPart.text]
      conv_lhs => rw [hstr, htail5]
      rfl
  · rw [k2] at kk3 hk6
    have h6 : ((5 : Int) + 1).toNat = 6 := rfl
    rw [h6] at kk3 hk6
    rcases kk3 with k3 | ⟨k3, hd6⟩
    · refine ⟨SecPart.frac2 s1 s2 f1 (str.getD 5 '\x00'), str.drop 6,
        ⟨hs1, hs2, hf1, hd5⟩, ?_, by rw [k3]; rfl⟩
      rw [SecPart.text]
      conv_lhs => rw [hstr, htail5]
      rfl
    · refine ⟨SecPart.frac3 s1 s2 f1 (str.getD 5 '\x00') (str.getD 6 '\x00'), str.drop 7,
        ⟨hs1, hs2, hf1, hd5, hd6⟩, ?_, by rw [k3]; rfl⟩
      rw [SecPart.text]
      conv_lhs => rw [hstr, htail5, drop_eq_getD_cons str 6 hk6]
      rfl

/-- A successful match of the mask `+##c##` consumes a signed offset, with or
without colon. -/
theorem mask_match_offset_inv (str : List Char) (v : List Int) (off : Nat)
    (h : 0 ≤ (mask_match str ['+', '#', '#', 'c', '#', '#'] v off).1) :
    ∃ (tp : TzPart) (rest : List Char), tp.wf ∧ tp ≠ TzPart.absent ∧
      str = tp.text ++ rest ∧
      (mask_match str ['+', '#', '#', 'c', '#', '#'] v off).1 = (tp.text.length : Int) := by
  obtain ⟨hok, hk⟩ := mask_match_fst str _ v off h
  rw [hk]
  have hs : ∀ m ∈ ['#', '#'], simple_mask m = true := by decide
  rcases loop_cons_sign off str ['#', '#', 'c', '#', '#']
    { values := v, value_idx := 0, sign := 1, reading_number := false, number := 0,
      ok := true, k := 0 } rfl (le_refl _)
    with ⟨hk0, hsg, st1, e1, ok1, k1⟩ | hfail
  swap
  · rw [hfail] at hok; exact absurd hok (by simp)
  rw [e1] at hok ⊢
  have k1' : st1.k = 1 := by rw [k1]; rfl
  have hk0' : 0 < str.length := hk0
  have hsg' : str.getD 0 '\x00' = '+' ∨ str.getD 0 '\x00' = '-' := hsg
  obtain ⟨st2, seg, tail, e2, ok2, k2, hd2, hsh2⟩ := loop_simple_inv off str
    ['#', '#'] ['c', '#', '#'] st1 hs ok1 (by omega) hok
  have e2' : mask_match_loop off str ['#', '#', 'c', '#', '#'] st1 =
      mask_match_loop off str ['c', '#', '#'] st2 := e2
  rw [e2'] at hok ⊢
  have k2' : st2.k = 3 := by rw [k2, k1']; rfl
  rw [k1'] at hd2
  obtain ⟨a, b, rfl, ha, hb⟩ := shape_two_digits hsh2
  have hd1 : str.drop 1 = a :: b :: tail := by simpa using hd2
  have hd3 : str.drop 3 = tail := by
    have := congrArg (List.drop 2) hd1
    rw [List.drop_drop] at this
    simpa using this
  have hstr : str = str.getD 0 '\x00' :: a :: b :: tail := by
    have := drop_eq_getD_cons str 0 hk0'
    rw [List.drop_zero] at this
    rw [this, hd1]
    simp
  rcases loop_cons_c off str ['#', '#'] st2 ok2 (by omega) with ⟨hk3, st3, e3, ok3, kk3⟩ | hfail
  swap
  · rw [hfail] at hok; exact absurd hok (by simp)
  rw [e3] at hok ⊢
  rw [k2'] at hk3 kk3
  have h3 : (3 : Int).toNat = 3 := rfl
  rw [h3] at hk3 kk3
  obtain ⟨st4, seg4, tail4, e4, ok4, k4, hd4, hsh4⟩ := loop_simple_inv off str
    ['#', '#'] [] st3 hs ok3 (by rcases kk3 with ⟨h, -⟩ | ⟨h, -⟩ <;> omega)
    (by rw [List.append_nil]; exact hok)
  rw [List.append_nil, loop_nil] at e4
  rw [e4, k4]
  obtain ⟨c, d, rfl, hc, hdd⟩ := shape_two_digits hsh4
  rcases kk3 with ⟨k3, hne⟩ | ⟨k3, hcolon⟩
  · rw [k3, h3, hd3] at hd4
    refine ⟨TzPart.offset (str.getD 0 '\x00') a b false c d, tail4,
      ⟨hsg', ha, hb, hc, hdd⟩, by simp, ?_, by rw [k3]; simp [TzPart.text, offset_text]⟩
    conv_lhs => rw [hstr, hd4]
    simp [TzPart.text, offset_text]
  · have h4 : ((3 : Int) + 1).toNat = 4 := rfl
    rw [k3, h4] at hd4
    have htail : tail = ':' :: (c :: d :: tail4) := by
      rw [← hd3, drop_eq_getD_cons str 3 hk3, hcolon, hd4]
      rfl
    refine ⟨TzPart.offset (str.getD 0 '\x00') a b true c d, tail4,
      ⟨hsg', ha, hb, hc, hdd⟩, by simp, ?_, by rw [k3]; simp [TzPart.text, offset_text]⟩
    conv_lhs => rw [hstr, htail]
    simp [TzPart.text, offset_text]

/-- What the seconds phase consumes is a well-formed seconds part. -/
theorem sec_phase_inv (str : List Char) (count : Int) (v : List Int) :
    ∃ (sp : SecPart) (rest : List Char), sp.wf ∧
      str.drop count.toNat = sp.text ++ rest ∧
      (try_masks str 5 sec_masks count v).1 = count + (sp.text.length : Int) := by
  rw [sec_masks_eq, try_masks]
  by_cases h1 : 0 ≤ (mask_match (str.drop count.toNat) [':', '#', '#', '.', '#', 'd', 'd'] v 5).1
  · obtain ⟨sp, rest, hwf, hstr, hc⟩ := mask_match_frac_inv _ _ _ h1
    refine ⟨sp, rest, hwf, hstr, ?_⟩
    simp only [ge_iff_le, h1, if_true]
    rw [hc]
  · simp only [ge_iff_le, h1, if_false]
    rw [try_masks]
    by_cases h2 : 0 ≤ (mask_match (str.drop count.toNat) [':', '#', '#']
        (mask_match (str.drop count.toNat) [':', '#', '#', '.', '#', 'd', 'd'] v 5).2 5).1
    · obtain ⟨sp, rest, hwf, hstr, hc⟩ := mask_match_secs_inv _ _ _ h2
      refine ⟨sp, rest, hwf, hstr, ?_⟩
      simp only [ge_iff_le, h2, if_true]
      rw [hc]
    · simp only [ge_iff_le, h2, if_false]
      rw [try_masks]
      exact ⟨SecPart.absent, str.drop count.toNat, trivial, by simp [SecPart.text],
        by simp [SecPart.text]⟩

/-- What the timezone phase consumes is a well-formed designator. -/
theorem tz_phase_inv (str : List Char) (count : Int) (v : List Int) :
    ∃ (tp : TzPart) (rest : List Char), tp.wf ∧
      str.drop count.toNat = tp.text ++ rest ∧
      (try_masks str 7 tz_masks count v).1 = count + (tp.text.length : Int) := by
  rw [tz_masks_eq, try_masks]
  by_cases h1 : 0 ≤ (mask_match (str.drop count.toNat) ['+', '#', '#', 'c', '#', '#'] v 7).1
  · obtain ⟨tp, rest, hwf, -, hstr, hc⟩ := mask_match_offset_inv _ _ _ h1
    refine ⟨tp, rest, hwf, hstr, ?_⟩
    simp only [ge_iff_le, h1, if_true]
    rw [hc]
  · simp only [ge_iff_le, h1, if_false]
    rw [try_masks]
    by_cases h2 : 0 ≤ (mask_match (str.drop count.toNat) ['Z']
        (mask_match (str.drop count.toNat) ['+', '#', '#', 'c', '#', '#'] v 7).2 7).1
    · obtain ⟨rest, hstr, hc⟩ := mask_match_Z_inv _ _ _ h2
      refine ⟨TzPart.zulu, rest, trivial, by simpa [TzPart.text] using hstr, ?_⟩
      simp only [ge_iff_le, h2, if_true]
      rw [hc]
      rfl
    · simp only [ge_iff_le, h2, if_false]
      rw [try_masks]
      exact ⟨TzPart.absent, str.drop count.toNat, trivial, by simp [TzPart.text],
        by simp [TzPart.text]⟩

/-- The phases of `from_iso_string` on an accepted input: the skeleton mask
matches and the final count is the length of the input. -/
theorem from_iso_string_some (str : List Char) (h : from_iso_string str ≠ none) :
    0 ≤ (mask_match str main_mask (List.replicate 8 0) 0).1 ∧
    (try_masks str 7 tz_masks
      (try_masks str 5 sec_masks (mask_match str main_mask (List.replicate 8 0) 0).1
        (mask_match str main_mask (List.replicate 8 0) 0).2).1
      (try_masks str 5 sec_masks (mask_match str main_mask (List.replicate 8 0) 0).1
        (mask_match str main_mask (List.replicate 8 0) 0).2).2).1 = (str.length : Int) := by
  simp only [from_iso_string] at h
  split_ifs at h with h1 h2 h3
  · exact absurd rfl h
  · exact absurd rfl h
  · exact absurd rfl h
  · exact ⟨by omega, by simpa using h3⟩

/-- Every accepted input is made of a well-formed skeleton, a well-formed
seconds part and a well-formed timezone designator. -/
theorem accepted_parts (w : List Char) (h : from_iso_string w ≠ none) :
    ∃ (k : Skeleton) (sp : SecPart) (tp : TzPart), k.wf ∧ sp.wf ∧ tp.wf ∧
      w = k.text ++ sp.text ++ tp.text := by
  obtain ⟨h0, hlen⟩ := from_iso_string_some w h
  obtain ⟨hc0, k, rest0, hk, hw⟩ := mask_match_main_inv w _ h0
  rw [hc0] at hlen
  obtain ⟨sp, rest1, hsp, hd1, hc1⟩ := sec_phase_inv w 16
    (mask_match w main_mask (List.replicate 8 0) 0).2
  rw [hc1] at hlen
  obtain ⟨tp, rest2, htp, hd2, hc2⟩ := tz_phase_inv w (16 + (sp.text.length : Int))
    (try_masks w 5 sec_masks 16 (mask_match w main_mask (List.replicate 8 0) 0).2).2
  rw [hc2] at hlen
  have hk16 : k.text.length = 16 := by simp [Skeleton.text]
  have e1 : rest0 = sp.text ++ rest1 := by
    have : (16 : Int).toNat = k.text.length := by rw [hk16]; rfl
    rw [hw, this, List.drop_left] at hd1
    exact hd1
  have e2 : rest1 = tp.text ++ rest2 := by
    have : ((16 : Int) + (sp.text.length : Int)).toNat = (k.text ++ sp.text).length := by
      rw [List.length_append, hk16]; omega
    rw [hw, e1, ← List.append_assoc, this, List.drop_left] at hd2
    exact hd2
  have hw' : w = k.text ++ sp.text ++ tp.text ++ rest2 := by
    rw [hw, e1, e2]; simp
  have hr : rest2 = [] := by
    have hl := congrArg List.length hw'
    simp only [List.length_append] at hl
    apply List.eq_nil_of_length_eq_zero
    omega
  rw [hr, List.append_nil] at hw'
  exact ⟨k, sp, tp, hk, hsp, htp, hw'⟩

/-- A skeleton followed by a seconds part does not end in a timezone
designator. -/
theorem no_designator_end (k : Skeleton) (sp : SecPart) (hk : k.wf) (hsp : sp.wf) :
    ¬ ends_in_designator (k.text ++ sp.text) := by
  have hZ : is_digit 'Z' = false := by decide
  have hcolon : is_digit ':' = false := by decide
  have hdot : is_digit '.' = false := by decide
  have hplus : is_digit '+' = false := by decide
  have hminus : is_digit '-' = false := by decide
  obtain ⟨hy, hm, hd, hsep, hh, hn⟩ := hk
  rintro (⟨pre, h⟩ | ⟨pre, sg, a, b, colon, c, d, h, hsg, ha, hb, hc, hdd⟩)
  · have hrev := congrArg List.reverse h
    cases sp <;>
      simp [Skeleton.text, SecPart.text, SecPart.wf] at hrev hsp <;>
      simp_all
  · have hrev := congrArg List.reverse h
    cases sp <;> cases colon <;>
      simp [Skeleton.text, SecPart.text, SecPart.wf, offset_text] at hrev hsp <;>
      (rcases hsg with hs | hs <;> rcases hsep with hq | hq <;> subst_vars <;> simp_all)

/-! ### The claims on the codec -/

/-- C9: for every timestamp in range, `write_iso_datetime` with `size >= 30`
into a zero-filled buffer of at least `size` cells leaves the string
`YYYY-MM-DDTHH:MM:SS.mmm` (year zero-padded to four digits, milliseconds to
three, every other field to two) followed by `Z` when `tz = 0`, by `+HH:MM`
when `tz > 0` and by `-HH:MM` when `tz < 0`, with `HH = |tz| / 3600` and
`MM = (|tz| mod 3600) / 60`, each zero-padded to two digits. -/
theorem C9_fixed_layout (d : datetime_t) (h : in_range d) (size : Int) (cap : Nat)
    (hs : 30 ≤ size) (hc : size ≤ (cap : Int)) :
    c_str (write_iso_datetime d (List.replicate cap '\x00') size) =
      pad4 d.year.toNat ++ ['-'] ++ pad2 d.month.toNat ++ ['-'] ++ pad2 d.day.toNat ++
        ['T'] ++ pad2 d.hours.toNat ++ [':'] ++ pad2 d.minutes.toNat ++ [':'] ++
        pad2 d.seconds.toNat ++ ['.'] ++ pad3 d.milliseconds.toNat ++
        (if d.tz = 0 then ['Z']
         else if d.tz > 0 then
           ['+'] ++ pad2 (d.tz.natAbs / 3600) ++ [':'] ++ pad2 (d.tz.natAbs % 3600 / 60)
         else
           ['-'] ++ pad2 (d.tz.natAbs / 3600) ++ [':'] ++ pad2 (d.tz.natAbs % 3600 / 60)) := by
  rw [write_iso_datetime_layout d h size cap hs hc, iso_layout, datetime_layout, tz_layout]
  by_cases hz : d.tz = 0
  · simp [hz]
  · by_cases hp : d.tz > 0 <;> simp [hz, hp]

/-- Witness of C9: the two timestamps of the specification, in the buffer of
`save_timings`. -/
theorem C9_fixed_layout_witness :
    c_str (write_iso_datetime
        { milliseconds := 250, seconds := 3, minutes := 5, hours := 9, day := 7,
          month := 3, year := 2024, tz := 0 } (List.replicate 31 '\x00') 30) =
      "2024-03-07T09:05:03.250Z".toList ∧
    c_str (write_iso_datetime
        { milliseconds := 250, seconds := 3, minutes := 5, hours := 9, day := 7,
          month := 3, year := 2024, tz := -10800 } (List.replicate 31 '\x00') 30) =
      "2024-03-07T09:05:03.250-03:00".toList :=
  ⟨(C9_fixed_layout _ (by decide) 30 31 (by decide) (by decide)).trans (by decide),
   (C9_fixed_layout _ (by decide) 30 31 (by decide) (by decide)).trans (by decide)⟩

/-- C1: for every timestamp in range whose offset is a whole number of
minutes, `from_iso_string` applied to the string that `write_iso_datetime`
leaves in a zero-filled buffer (`size >= 30`) returns a value, and the value
is the timestamp. -/
theorem C1_round_trip (d : datetime_t) (h : in_range d) (hmin : d.tz % 60 = 0)
    (size : Int) (cap : Nat) (hs : 30 ≤ size) (hc : size ≤ (cap : Int)) :
    from_iso_string (c_str (write_iso_datetime d (List.replicate cap '\x00') size)) =
      some d := by
  rw [write_iso_datetime_layout d h size cap hs hc]
  exact from_iso_string_layout d h hmin

/-- Witness of C1: the offsets `0`, `+330 min` and `-480 min`. -/
theorem C1_round_trip_witness :
    from_iso_string (c_str (write_iso_datetime
        { milliseconds := 250, seconds := 3, minutes := 5, hours := 9, day := 7,
          month := 3, year := 2024, tz := 0 } (List.replicate 31 '\x00') 30)) =
      some { milliseconds := 250, seconds := 3, minutes := 5, hours := 9, day := 7,
             month := 3, year := 2024, tz := 0 } ∧
    from_iso_string (c_str (write_iso_datetime
        { milliseconds := 0, seconds := 59, minutes := 5, hours := 23, day := 31,
          month := 12, year := 1999, tz := 19800 } (List.replicate 30 '\x00') 30)) =
      some { milliseconds := 0, seconds := 59, minutes := 5, hours := 23, day := 31,
             month := 12, year := 1999, tz := 19800 } ∧
    from_iso_string (c_str (write_iso_datetime
        { milliseconds := 7, seconds := 0, minutes := 0, hours := 0, day := 1,
          month := 1, year := 2024, tz := -28800 } (List.replicate 64 '\x00') 64)) =
      some { milliseconds := 7, seconds := 0, minutes := 0, hours := 0, day := 1,
             month := 1, year := 2024, tz := -28800 } :=
  ⟨C1_round_trip _ (by decide) (by decide) 30 31 (by decide) (by decide),
   C1_round_trip _ (by decide) (by decide) 30 30 (by decide) (by decide),
   C1_round_trip _ (by decide) (by decide) 64 64 (by decide) (by decide)⟩

/-- C10: for every input made of a well-formed date-time prefix (the skeleton,
optionally followed by `:SS` or `:SS.mmm`), a sign, two digits `HH`, an
optional colon and two digits `MM`, `from_iso_string` returns a value, the
same with and without the colon, whose `tz` is
`sign * (3600 * HH + 60 * MM)`. -/
theorem C10_parsed_tz_offset (p : List Char) (sg a b c d : Char)
    (hp : datetime_front p) (hsg : sg = '+' ∨ sg = '-')
    (ha : is_digit a = true) (hb : is_digit b = true) (hc : is_digit c = true)
    (hd : is_digit d = true) :
    ∃ dt : datetime_t,
      (∀ colon : Bool, from_iso_string (p ++ offset_text sg a b colon c d) = some dt) ∧
      dt.tz = sign_of sg * (3600 * number2 a b + 60 * number2 c d) := by
  have e2 : "####-##-##T##:##:##".toList = main_mask ++ [':', '#', '#'] := by decide
  have e3 : "####-##-##T##:##:##.###".toList =
      main_mask ++ [':', '#', '#', '.', '#', '#', '#'] := by decide
  rcases hp with h | h | h
  · obtain ⟨y1, y2, y3, y4, m1, m2, d1, d2, sep, h1, h2, n1, n2, rfl, hy, hm, hdd, hsep,
      hh, hn⟩ := shape_skeleton h
    exact ⟨_, fun colon => from_iso_string_skeleton_offset y1 y2 y3 y4 m1 m2 d1 d2 sep
      h1 h2 n1 n2 sg a b c d colon hy hm hdd hsep hh hn hsg ha hb hc hd, rfl⟩
  · rw [e2] at h
    obtain ⟨l1, l2, rfl, hl1, hl2⟩ := has_shape_append_elim _ _ _ h
    obtain ⟨y1, y2, y3, y4, m1, m2, d1, d2, sep, h1, h2, n1, n2, rfl, hy, hm, hdd, hsep,
      hh, hn⟩ := shape_skeleton hl1
    obtain ⟨s1, s2, rfl, hs1, hs2⟩ := shape_seconds hl2
    exact ⟨_, fun colon => from_iso_string_seconds_offset y1 y2 y3 y4 m1 m2 d1 d2 sep
      h1 h2 n1 n2 s1 s2 sg a b c d colon hy hm hdd hsep hh hn ⟨hs1, hs2⟩ hsg ha hb hc hd,
      rfl⟩
  · rw [e3] at h
    obtain ⟨l1, l2, rfl, hl1, hl2⟩ := has_shape_append_elim _ _ _ h
    obtain ⟨y1, y2, y3, y4, m1, m2, d1, d2, sep, h1, h2, n1, n2, rfl, hy, hm, hdd, hsep,
      hh, hn⟩ := shape_skeleton hl1
    obtain ⟨s1, s2, f1, f2, f3, rfl, hs1, hs2, hf⟩ := shape_millis hl2
    exact ⟨_, fun colon => from_iso_string_millis_offset y1 y2 y3 y4 m1 m2 d1 d2 sep
      h1 h2 n1 n2 s1 s2 f1 f2 f3 sg a b c d colon hy hm hdd hsep hh hn ⟨hs1, hs2⟩ hf
      hsg ha hb hc hd, rfl⟩

/-- Witness of C10: `2024-03-07T09:05:03-03:00` and `2024-03-07T09:05:03-0300`
parse to the same value, with `tz = -10800`. -/
theorem C10_parsed_tz_offset_witness :
    ∃ dt : datetime_t,
      (∀ colon : Bool,
        from_iso_string ("2024-03-07T09:05:03".toList ++
          offset_text '-' '0' '3' colon '0' '0') = some dt) ∧
      dt.tz = -10800 := by
  obtain ⟨dt, h1, h2⟩ := C10_parsed_tz_offset "2024-03-07T09:05:03".toList
    '-' '0' '3' '0' '0' (by decide) (by decide) (by decide) (by decide) (by decide)
    (by decide)
  exact ⟨dt, h1, h2.trans (by decide)⟩

/-- C17: with `size < 30` the function `write_iso_datetime` writes nothing:
the buffer after the call is the buffer before the call, for every timestamp
and every buffer. -/
theorem C17_short_buffer (d : datetime_t) (dest : List Char) (size : Int)
    (h : size < 30) : write_iso_datetime d dest size = dest := by
  unfold write_iso_datetime
  rw [if_pos h]

/-- Witness of C17: a buffer of 29 cells holding `x`. -/
theorem C17_short_buffer_witness :
    write_iso_datetime
        { milliseconds := 250, seconds := 3, minutes := 5, hours := 9, day := 7,
          month := 3, year := 2024, tz := 0 } (List.replicate 29 'x') 29 =
      List.replicate 29 'x' :=
  C17_short_buffer _ _ 29 (by decide)

/-- C13: every input `YYYY-MM-DD`, `T` or space, `HH:MM:SS`, `Z` is accepted
with year, month, day, hours, minutes and seconds as written, milliseconds 0
and `tz = 0`. -/
theorem C13_seconds_without_fraction (k : Skeleton) (s1 s2 : Char) (hk : k.wf)
    (hs1 : is_digit s1 = true) (hs2 : is_digit s2 = true) :
    from_iso_string (k.text ++ [':', s1, s2] ++ ['Z']) =
      some
        { milliseconds := 0, seconds := number2 s1 s2, minutes := number2 k.mi1 k.mi2,
          hours := number2 k.h1 k.h2, day := number2 k.d1 k.d2,
          month := number2 k.mo1 k.mo2, year := number4 k.y1 k.y2 k.y3 k.y4, tz := 0 } := by
  have h := from_iso_string_parts k (SecPart.secs s1 s2) TzPart.zulu [] hk ⟨hs1, hs2⟩
    trivial (follow_designator _ _ _ trivial (by simp)) (by simp)
  simp only [SecPart.text, TzPart.text, List.append_nil, if_true] at h
  rw [h]
  rfl

/-- Witness of C13: `2024-03-07T09:05:03Z`. -/
theorem C13_seconds_without_fraction_witness :
    from_iso_string "2024-03-07T09:05:03Z".toList =
      some
        { milliseconds := 0, seconds := 3, minutes := 5, hours := 9, day := 7,
          month := 3, year := 2024, tz := 0 } :=
  (C13_seconds_without_fraction
    { y1 := '2', y2 := '0', y3 := '2', y4 := '4', mo1 := '0', mo2 := '3', d1 := '0',
      d2 := '7', sep := 'T', h1 := '0', h2 := '9', mi1 := '0', mi2 := '5' }
    '0' '3' (by decide) (by decide) (by decide)).trans (by decide)

/-- C19: in a well-formed input whose seconds are followed by a dot, a
fraction of one, two or three digits and a timezone designator (`Z` or a
signed offset), the milliseconds are the fraction right-padded with zeros to
three digits and read as a number, and the seconds and `tz` are those
written. -/
theorem C19_short_fraction (k : Skeleton) (s1 s2 f1 f2 f3 : Char) (tp : TzPart)
    (hk : k.wf) (hs1 : is_digit s1 = true) (hs2 : is_digit s2 = true)
    (hf1 : is_digit f1 = true) (hf2 : is_digit f2 = true) (hf3 : is_digit f3 = true)
    (htp : tp.wf) (hne : tp ≠ TzPart.absent) :
    from_iso_string (k.text ++ [':', s1, s2, '.', f1] ++ tp.text) =
      some
        { milliseconds := number3 f1 '0' '0', seconds := number2 s1 s2,
          minutes := number2 k.mi1 k.mi2, hours := number2 k.h1 k.h2,
          day := number2 k.d1 k.d2, month := number2 k.mo1 k.mo2,
          year := number4 k.y1 k.y2 k.y3 k.y4, tz := tp.tz } ∧
    from_iso_string (k.text ++ [':', s1, s2, '.', f1, f2] ++ tp.text) =
      some
        { milliseconds := number3 f1 f2 '0', seconds := number2 s1 s2,
          minutes := number2 k.mi1 k.mi2, hours := number2 k.h1 k.h2,
          day := number2 k.d1 k.d2, month := number2 k.mo1 k.mo2,
          year := number4 k.y1 k.y2 k.y3 k.y4, tz := tp.tz } ∧
    from_iso_string (k.text ++ [':', s1, s2, '.', f1, f2, f3] ++ tp.text) =
      some
        { milliseconds := number3 f1 f2 f3, seconds := number2 s1 s2,
          minutes := number2 k.mi1 k.mi2, hours := number2 k.h1 k.h2,
          day := number2 k.d1 k.d2, month := number2 k.mo1 k.mo2,
          year := number4 k.y1 k.y2 k.y3 k.y4, tz := tp.tz } := by
  have h1 := from_iso_string_parts k (SecPart.frac1 s1 s2 f1) tp [] hk ⟨hs1, hs2, hf1⟩
    htp (follow_designator _ _ _ htp hne) (fun h => absurd h hne)
  have h2 := from_iso_string_parts k (SecPart.frac2 s1 s2 f1 f2) tp [] hk
    ⟨hs1, hs2, hf1, hf2⟩ htp (follow_designator _ _ _ htp hne) (fun h => absurd h hne)
  have h3 := from_iso_string_parts k (SecPart.frac3 s1 s2 f1 f2 f3) tp [] hk
    ⟨hs1, hs2, hf1, hf2, hf3⟩ htp (follow_designator _ _ _ htp hne) (fun h => absurd h hne)
  simp only [SecPart.text, List.append_nil, if_true] at h1 h2 h3
  exact ⟨h1, h2, h3⟩

/-- Witness of C19: the fractions `.2`, `.25` and `.005` before `Z` give 200,
250 and 5 milliseconds, and `.005` before `-03:00` gives 5 milliseconds and
`tz = -10800`. -/
theorem C19_short_fraction_witness :
    from_iso_string "2024-03-07T09:05:03.2Z".toList =
      some { milliseconds := 200, seconds := 3, minutes := 5, hours := 9, day := 7,
             month := 3, year := 2024, tz := 0 } ∧
    from_iso_string "2024-03-07T09:05:03.25Z".toList =
      some { milliseconds := 250, seconds := 3, minutes := 5, hours := 9, day := 7,
             month := 3, year := 2024, tz := 0 } ∧
    from_iso_string "2024-03-07T09:05:03.250Z".toList =
      some { milliseconds := 250, seconds := 3, minutes := 5, hours := 9, day := 7,
             month := 3, year := 2024, tz := 0 } ∧
    from_iso_string "2024-03-07T09:05:03.005-03:00".toList =
      some { milliseconds := 5, seconds := 3, minutes := 5, hours := 9, day := 7,
             month := 3, year := 2024, tz := -10800 } :=
  ⟨((C19_short_fraction
      { y1 := '2', y2 := '0', y3 := '2', y4 := '4', mo1 := '0', mo2 := '3', d1 := '0',
        d2 := '7', sep := 'T', h1 := '0', h2 := '9', mi1 := '0', mi2 := '5' }
      '0' '3' '2' '5' '0' TzPart.zulu (by decide) (by decide) (by decide) (by decide)
      (by decide) (by decide) (by decide) (by simp)).1).trans (by decide),
   ((C19_short_fraction
      { y1 := '2', y2 := '0', y3 := '2', y4 := '4', mo1 := '0', mo2 := '3', d1 := '0',
        d2 := '7', sep := 'T', h1 := '0', h2 := '9', mi1 := '0', mi2 := '5' }
      '0' '3' '2' '5' '0' TzPart.zulu (by decide) (by decide) (by decide) (by decide)
      (by decide) (by decide) (by decide) (by simp)).2.1).trans (by decide),
   ((C19_short_fraction
      { y1 := '2', y2 := '0', y3 := '2', y4 := '4', mo1 := '0', mo2 := '3', d1 := '0',
        d2 := '7', sep := 'T', h1 := '0', h2 := '9', mi1 := '0', mi2 := '5' }
      '0' '3' '2' '5' '0' TzPart.zulu (by decide) (by decide) (by decide) (by decide)
      (by decide) (by decide) (by decide) (by simp)).2.2).trans (by decide),
   ((C19_short_fraction
      { y1 := '2', y2 := '0', y3 := '2', y4 := '4', mo1 := '0', mo2 := '3', d1 := '0',
        d2 := '7', sep := 'T', h1 := '0', h2 := '9', mi1 := '0', mi2 := '5' }
      '0' '3' '0' '0' '5' (TzPart.offset '-' '0' '3' true '0' '0') (by decide) (by decide)
      (by decide) (by decide) (by decide) (by decide) (by decide) (by simp)).2.2).trans
      (by decide)⟩

/-- C20: without a timezone designator a well-formed skeleton `p` is accepted
alone, followed by `:SS` and followed by `:SS.mmm`, with `tz = 0` and with
zero for the seconds and milliseconds that are not written; followed by
`:SS.m` or `:SS.mm` it is rejected, although both are accepted when `Z`
follows. -/
theorem C20_without_designator (k : Skeleton) (s1 s2 f1 f2 f3 : Char) (hk : k.wf)
    (hs1 : is_digit s1 = true) (hs2 : is_digit s2 = true) (hf1 : is_digit f1 = true)
    (hf2 : is_digit f2 = true) (hf3 : is_digit f3 = true) :
    from_iso_string k.text =
      some
        { milliseconds := 0, seconds := 0, minutes := number2 k.mi1 k.mi2,
          hours := number2 k.h1 k.h2, day := number2 k.d1 k.d2,
          month := number2 k.mo1 k.mo2, year := number4 k.y1 k.y2 k.y3 k.y4, tz := 0 } ∧
    from_iso_string (k.text ++ [':', s1, s2]) =
      some
        { milliseconds := 0, seconds := number2 s1 s2, minutes := number2 k.mi1 k.mi2,
          hours := number2 k.h1 k.h2, day := number2 k.d1 k.d2,
          month := number2 k.mo1 k.mo2, year := number4 k.y1 k.y2 k.y3 k.y4, tz := 0 } ∧
    from_iso_string (k.text ++ [':', s1, s2, '.', f1, f2, f3]) =
      some
        { milliseconds := number3 f1 f2 f3, seconds := number2 s1 s2,
          minutes := number2 k.mi1 k.mi2, hours := number2 k.h1 k.h2,
          day := number2 k.d1 k.d2, month := number2 k.mo1 k.mo2,
          year := number4 k.y1 k.y2 k.y3 k.y4, tz := 0 } ∧
    from_iso_string (k.text ++ [':', s1, s2, '.', f1]) = none ∧
    from_iso_string (k.text ++ [':', s1, s2, '.', f1, f2]) = none ∧
    (from_iso_string (k.text ++ [':', s1, s2, '.', f1] ++ ['Z'])).isSome = true ∧
    (from_iso_string (k.text ++ [':', s1, s2, '.', f1, f2] ++ ['Z'])).isSome = true := by
  have h0 := from_iso_string_parts k SecPart.absent TzPart.absent [] hk trivial trivial
    (follow_end _ rfl) (fun _ => rfl)
  have h1 := from_iso_string_parts k (SecPart.secs s1 s2) TzPart.absent [] hk ⟨hs1, hs2⟩
    trivial (follow_end _ rfl) (fun _ => rfl)
  have h3 := from_iso_string_parts k (SecPart.frac3 s1 s2 f1 f2 f3) TzPart.absent [] hk
    ⟨hs1, hs2, hf1, hf2, hf3⟩ trivial (follow_end _ rfl) (fun _ => rfl)
  have z1 := from_iso_string_parts k (SecPart.frac1 s1 s2 f1) TzPart.zulu [] hk
    ⟨hs1, hs2, hf1⟩ trivial (follow_designator _ _ _ trivial (by simp)) (by simp)
  have z2 := from_iso_string_parts k (SecPart.frac2 s1 s2 f1 f2) TzPart.zulu [] hk
    ⟨hs1, hs2, hf1, hf2⟩ trivial (follow_designator _ _ _ trivial (by simp)) (by simp)
  simp only [SecPart.text, TzPart.text, List.append_nil, if_true] at h0 h1 h3 z1 z2
  refine ⟨h0, h1, h3, ?_, ?_, ?_, ?_⟩
  · exact from_iso_string_short_end k s1 s2 f1 [] hk hs1 hs2 hf1 (Or.inl rfl)
  · exact from_iso_string_short_end k s1 s2 f1 [f2] hk hs1 hs2 hf1 (Or.inr ⟨f2, rfl, hf2⟩)
  · rw [z1]; rfl
  · rw [z2]; rfl

/-- Witness of C20: `2024-03-07 09:05` is accepted, `2024-03-07 09:05:03.2` is
rejected. -/
theorem C20_without_designator_witness :
    from_iso_string "2024-03-07 09:05".toList =
      some { milliseconds := 0, seconds := 0, minutes := 5, hours := 9, day := 7,
             month := 3, year := 2024, tz := 0 } ∧
    from_iso_string "2024-03-07 09:05:03.2".toList = none :=
  ⟨((C20_without_designator
      { y1 := '2', y2 := '0', y3 := '2', y4 := '4', mo1 := '0', mo2 := '3', d1 := '0',
        d2 := '7', sep := ' ', h1 := '0', h2 := '9', mi1 := '0', mi2 := '5' }
      '0' '3' '2' '5' '0' (by decide) (by decide) (by decide) (by decide) (by decide)
      (by decide)).1).trans (by decide),
   (C20_without_designator
      { y1 := '2', y2 := '0', y3 := '2', y4 := '4', mo1 := '0', mo2 := '3', d1 := '0',
        d2 := '7', sep := ' ', h1 := '0', h2 := '9', mi1 := '0', mi2 := '5' }
      '0' '3' '2' '5' '0' (by decide) (by decide) (by decide) (by decide) (by decide)
      (by decide)).2.2.2.1⟩

/-- C11: `from_iso_string` returns no value for every string shorter than 10
characters, and for every string that has a character that is not a digit at
one of the twelve mandatory digit positions of the skeleton
`####-##-##T##:##`. -/
theorem C11_rejects_malformed (str : List Char) :
    (str.length < 10 → from_iso_string str = none) ∧
    (∀ (i : Nat) (c : Char), i ∈ digit_positions → str[i]? = some c →
      is_digit c = false → from_iso_string str = none) := by
  constructor
  · intro h
    have hl : (str.length : Int) < 10 := by omega
    simp only [from_iso_string, hl, if_true]
  · intro i c hi hc hnd
    by_contra hne
    obtain ⟨h0, -⟩ := from_iso_string_some str hne
    obtain ⟨-, k, rest, ⟨hy, hm, hd, -, hh, hn⟩, hstr⟩ := mask_match_main_inv str _ h0
    subst hstr
    simp only [digit_positions, List.mem_cons, List.mem_singleton, List.not_mem_nil,
      or_false] at hi
    rcases hi with h | h | h | h | h | h | h | h | h | h | h | h <;> subst h <;>
      simp [Skeleton.text] at hc <;> subst hc <;> simp_all

/-- Witness of C11: `2024-0x-07T09:05` has an `x` at index 6. -/
theorem C11_rejects_malformed_witness :
    from_iso_string "2024-0x-07T09:05".toList = none :=
  (C11_rejects_malformed _).2 6 'x' (by decide) (by decide) (by decide)

/-- C12: `from_iso_string` returns a value only when the count after the
skeleton mask, the matched seconds mask and the matched timezone mask is the
length of the input, and then the input is exactly a well-formed skeleton, the
seconds part and the designator that were consumed; and an accepted input that
ends in a timezone designator (`Z` or a signed offset), followed by any
non-empty string, is rejected. -/
theorem C12_rejects_trailing :
    (∀ w : List Char, from_iso_string w ≠ none →
      (try_masks w 7 tz_masks
        (try_masks w 5 sec_masks (mask_match w main_mask (List.replicate 8 0) 0).1
          (mask_match w main_mask (List.replicate 8 0) 0).2).1
        (try_masks w 5 sec_masks (mask_match w main_mask (List.replicate 8 0) 0).1
          (mask_match w main_mask (List.replicate 8 0) 0).2).2).1 = (w.length : Int) ∧
      ∃ (k : Skeleton) (sp : SecPart) (tp : TzPart), k.wf ∧ sp.wf ∧ tp.wf ∧
        w = k.text ++ sp.text ++ tp.text) ∧
    (∀ w x : List Char, from_iso_string w ≠ none → ends_in_designator w → x ≠ [] →
      from_iso_string (w ++ x) = none) := by
  refine ⟨fun w h => ⟨(from_iso_string_some w h).2, accepted_parts w h⟩, ?_⟩
  intro w x hacc hend hx
  obtain ⟨k, sp, tp, hk, hsp, htp, rfl⟩ := accepted_parts w hacc
  by_cases hne : tp = TzPart.absent
  · subst hne
    rw [TzPart.text, List.append_nil] at hend
    exact absurd hend (no_designator_end k sp hk hsp)
  · rw [from_iso_string_parts k sp tp x hk hsp htp (follow_designator sp tp x htp hne)
      (fun h => absurd h hne), if_neg hx]

/-- Witness of C12: `2024-03-07T09:05:03Z` is accepted, and followed by `x` it
is rejected. -/
theorem C12_rejects_trailing_witness :
    from_iso_string "2024-03-07T09:05:03Z".toList ≠ none ∧
    from_iso_string ("2024-03-07T09:05:03Z".toList ++ "x".toList) = none :=
  ⟨by decide,
   C12_rejects_trailing.2 "2024-03-07T09:05:03Z".toList "x".toList (by decide)
     (Or.inl ⟨"2024-03-07T09:05:03".toList, by decide⟩) (by decide)⟩

end Dates
